import Mathlib

/-!
# net-lab: checksum, IP, ICMP and UDP

A shallow embedding of `utils.c`, `ip.c`, `icmp.c`, `udp.c` and `arp.c`.
Bytes are natural numbers below 256, memory is a list of bytes, a pointer is
an index into such a list (or the list that starts at the pointee), and the
fixed-width C integers are natural numbers reduced modulo `2 ^ 16` or
`2 ^ 32` wherever the C arithmetic can wrap.
-/

namespace NetLab

/-! ## utils.c -/

/-- The `uint16_t` a host reads at a pointer: the first byte is the low byte
on a little-endian host (`le = true`) and the high byte on a big-endian one. -/
def read16 (le : Bool) (data : List Nat) : Nat :=
  if le then data.getD 0 0 + 256 * data.getD 1 0
  else 256 * data.getD 0 0 + data.getD 1 0

/-- The two bytes a host stores for a `uint16_t` value. -/
def write16 (le : Bool) (v : Nat) : List Nat :=
  if le then [v % 256, v / 256 % 256] else [v / 256 % 256, v % 256]

/-- The carry step of `checksum16` on its `uint32_t` accumulator:
`if (check_sum > carry_set) check_sum = (check_sum >> 16) + ((check_sum << 16) >> 16);` -/
def carry_fold (check_sum : Nat) : Nat :=
  if check_sum > 0xffff then
    (check_sum / 2 ^ 16 + (check_sum * 2 ^ 16 % 2 ^ 32) / 2 ^ 16) % 2 ^ 32
  else check_sum

/-- The `while (len > 1)` loop of `checksum16`; returns the remaining length,
the advanced pointer and the accumulator. -/
def checksum16_loop (le : Bool) : Nat → List Nat → Nat → Nat × List Nat × Nat
  | len + 2, data, check_sum =>
      checksum16_loop le len (data.drop 2) (carry_fold ((check_sum + read16 le data) % 2 ^ 32))
  | len, data, check_sum => (len, data, check_sum)

/-- `uint16_t checksum16(uint16_t *data, size_t len)`.  `data` is the memory
from the pointer on; it may be longer than `len`. -/
def checksum16 (le : Bool) (data : List Nat) (len : Nat) : Nat :=
  match checksum16_loop le len data 0 with
  | (len1, data1, check_sum) =>
      let check_sum1 :=
        if len1 ≠ 0 then carry_fold ((check_sum + read16 le data1 / 2 ^ 8) % 2 ^ 32)
        else check_sum
      (2 ^ 32 - 1 - check_sum1) % 2 ^ 16

/-- The inner `for (size_t j = 0; j < 8; j++)` loop of `ip_prefix_match`, with
the number of rounds left, the `uint8_t count` and the `uint8_t flag`: whether
the function returned from inside the loop, and the count. -/
def ip_prefix_match_inner : Nat → Nat → Nat → Bool × Nat
  | 0, count, _ => (false, count)
  | j + 1, count, flag =>
      if flag &&& (1 <<< 7) ≠ 0 then (true, count)
      else ip_prefix_match_inner j ((count + 1) % 2 ^ 8) (flag <<< 1 % 2 ^ 8)

/-- The outer `for (size_t i = 0; i < 4; i++)` loop of `ip_prefix_match`, with
the number of rounds left, `i` and `count`. -/
def ip_prefix_match_loop (ipa ipb : List Nat) : Nat → Nat → Nat → Nat
  | 0, _, count => count
  | n + 1, i, count =>
      let flag := (ipa.getD i 0 ^^^ ipb.getD i 0) % 2 ^ 8
      match ip_prefix_match_inner 8 count flag with
      | (true, count) => count
      | (false, count) => ip_prefix_match_loop ipa ipb n (i + 1) count

/-- `uint8_t ip_prefix_match(uint8_t *ipa, uint8_t *ipb)`. -/
def ip_prefix_match (ipa ipb : List Nat) : Nat := ip_prefix_match_loop ipa ipb 4 0 0

/-- Bit `k` of an address, counting from the most significant bit of byte 0. -/
def ip_bit (ip : List Nat) (k : Nat) : Bool := (ip.getD (k / 8) 0).testBit (7 - k % 8)

/-! ### The Internet checksum as the specification words it -/

/-- The successive big-endian 16-bit words of a buffer (a final odd byte is the
high byte of a zero-padded word). -/
def be_words : List Nat → List Nat
  | a :: b :: rest => (256 * a + b) :: be_words rest
  | [a] => [256 * a]
  | [] => []

/-- The successive 16-bit words of a buffer as a host of the given byte order
reads them. -/
def host_words (le : Bool) : List Nat → List Nat
  | a :: b :: rest => read16 le [a, b] :: host_words le rest
  | [a] => [read16 le [a, 0]]
  | [] => []

/-- End-around carry applied to an unbounded sum until it fits 16 bits:
`while (sum >> 16) sum = (sum & 0xffff) + (sum >> 16);`. -/
def end_around_carry : Nat → Nat → Nat
  | 0, sum => sum
  | fuel + 1, sum =>
      if sum / 2 ^ 16 ≠ 0 then end_around_carry fuel (sum % 2 ^ 16 + sum / 2 ^ 16) else sum

/-- The one's-complement sum of a list of 16-bit words: add them in an
unbounded integer, fold the carries at the end. -/
def ones_complement_sum (words : List Nat) : Nat :=
  end_around_carry words.sum words.sum

/-- The standard Internet checksum of a list of 16-bit words: the 16-bit
one's complement of their one's-complement sum. -/
def internet_checksum (words : List Nat) : Nat :=
  0xffff - ones_complement_sum words

/-! ## Memory, byte order and constants

The headers (`net.h`, `buf.h`, `ip.h`, `icmp.h`, `udp.h`, `arp.h`, `utils.h`)
and `buf.c`, `map.c`, `net.c`, `ethernet.c` are not among the sources; the
parts the five source files use are modelled below.  The stack targets a
little-endian host: `swap16` swaps unconditionally. -/

/-- The bytes `mem[off .. off + n)`. -/
def peek (mem : List Nat) (off n : Nat) : List Nat := (mem.drop off).take n

/-- The effect of `memcpy(mem + off, src, |src|)` on `mem`. -/
def memcpy (mem : List Nat) (off : Nat) (src : List Nat) : List Nat :=
  mem.take off ++ src ++ mem.drop (off + src.length)

/-- Read a `uint8_t` field at `mem + off`. -/
def load8 (mem : List Nat) (off : Nat) : Nat := mem.getD off 0

/-- Assign a `uint8_t` field at `mem + off`. -/
def store8 (mem : List Nat) (off v : Nat) : List Nat := memcpy mem off [v % 256]

/-- Read a `uint16_t` field at `mem + off` (little-endian host). -/
def load16 (mem : List Nat) (off : Nat) : Nat := read16 true (mem.drop off)

/-- Assign a `uint16_t` field at `mem + off` (little-endian host). -/
def store16 (mem : List Nat) (off v : Nat) : List Nat := memcpy mem off (write16 true v)

/-- Modelled from the spec: the macro `swap16` (and `constswap16`) of the
missing `utils.h`, the "explicit endianness conversion" between the host's
and the big-endian wire order of a 16-bit field, here a byte swap. -/
def swap16 (x : Nat) : Nat := x % 256 * 256 + x / 256 % 256

def NET_IP_LEN : Nat := 4
def NET_MAC_LEN : Nat := 6
def NET_PROTOCOL_ICMP : Nat := 1
def NET_PROTOCOL_UDP : Nat := 17
def NET_PROTOCOL_IP : Nat := 0x0800
def NET_PROTOCOL_ARP : Nat := 0x0806
def ARP_HW_ETHER : Nat := 1
def ARP_REQUEST : Nat := 1
def ARP_REPLY : Nat := 2
def IP_VERSION_4 : Nat := 4
def IP_MORE_FRAGMENT : Nat := 0x2000
def IP_HDR_OFFSET_PER_BYTE : Nat := 8
def IP_DEFALUT_TTL : Nat := 64
def ICMP_TYPE_ECHO_REPLY : Nat := 0
def ICMP_TYPE_UNREACH : Nat := 3
def ICMP_TYPE_ECHO_REQUEST : Nat := 8
def ICMP_CODE_PROTOCOL_UNREACH : Nat := 2
def ICMP_CODE_PORT_UNREACH : Nat := 3
/-- Size of `ip_hdr_t`. -/
def sizeof_ip_hdr_t : Nat := 20
/-- Size of `icmp_hdr_t`. -/
def sizeof_icmp_hdr_t : Nat := 8
/-- Size of `udp_hdr_t`. -/
def sizeof_udp_hdr_t : Nat := 8
/-- Size of `udp_peso_hdr_t`. -/
def sizeof_udp_peso_hdr_t : Nat := 12
/-- Size of `arp_pkt_t`. -/
def sizeof_arp_pkt_t : Nat := 28
/-- Capacity of the byte array of a `buf_t`. -/
def BUF_MAX_LEN : Nat := 2 * 65535 + 255
def ether_broadcast_mac : List Nat := [0xff, 0xff, 0xff, 0xff, 0xff, 0xff]

/-- `memcmp(a, b, n) != 0`. -/
def memcmp_ne (a b : List Nat) (n : Nat) : Bool := decide (a.take n ≠ b.take n)

/-! ## buf_t -/

/-- Modelled from the spec: the byte-buffer abstraction (`buf_t`): a byte
array `payload`, the index `data` where the current packet starts and its
length `len`; headers are added and removed by moving `data`, padding by
changing `len`, and the bytes outside `[data, data + len)` stay in memory. -/
structure buf_t where
  len : Nat
  data : Nat
  payload : List Nat
  deriving DecidableEq, Repr

/-- The packet a buffer holds: `payload[data .. data + len)`. -/
def buf_t.bytes (buf : buf_t) : List Nat := peek buf.payload buf.data buf.len

/-- A local `buf_t` before `buf_init`.  Its bytes are taken to be zero; the
code writes every byte before reading it, except the byte after an odd-length
packet, which the odd tail of `checksum16` reads. -/
def buf_t.uninit : buf_t := ⟨0, 0, List.replicate BUF_MAX_LEN 0⟩

/-- Modelled from the spec: `buf_init(buf, len)` of the missing `buf.c`: the
packet of `len` bytes ends in the middle of the array, which leaves room for
headers before it and padding after it; a too large `len` is refused. -/
def buf_init (buf : buf_t) (len : Nat) : buf_t :=
  if len ≥ buf.payload.length / 2 then buf
  else { buf with len := len, data := buf.payload.length / 2 - len }

/-- Modelled from the spec: `buf_add_header(buf, len)` of the missing `buf.c`
(header insertion without reallocation); refused when there is no room. -/
def buf_add_header (buf : buf_t) (len : Nat) : buf_t :=
  if buf.data < len then buf
  else { buf with len := buf.len + len, data := buf.data - len }

/-- Modelled from the spec: `buf_remove_header(buf, len)` of the missing
`buf.c`; refused when the packet is shorter than `len`. -/
def buf_remove_header (buf : buf_t) (len : Nat) : buf_t :=
  if buf.len < len then buf
  else { buf with len := buf.len - len, data := buf.data + len }

/-- Modelled from the spec: `buf_add_padding(buf, len)` of the missing
`buf.c`: `len` zero bytes appended in place; refused when there is no room. -/
def buf_add_padding (buf : buf_t) (len : Nat) : buf_t :=
  if buf.data + buf.len + len ≥ buf.payload.length then buf
  else { buf with
    payload := memcpy buf.payload (buf.data + buf.len) (List.replicate len 0),
    len := buf.len + len }

/-- Modelled from the spec: `buf_remove_padding(buf, len)` of the missing
`buf.c`; refused when the packet is shorter than `len`. -/
def buf_remove_padding (buf : buf_t) (len : Nat) : buf_t :=
  if buf.len < len then buf else { buf with len := buf.len - len }

/-! ## The state of the stack and what it does to its surroundings -/

/-- What the stack hands across a layer boundary, in the order it happens. -/
inductive Event where
  /-- `ethernet_out(buf, mac, protocol)`: a packet handed to the link layer. -/
  | ethernet_out (packet : List Nat) (mac : List Nat) (protocol : Nat)
  /-- `arp_out(buf, ip)` is entered: an IP datagram handed to ARP. -/
  | arp_out (datagram : List Nat) (ip : List Nat)
  /-- `net_in(buf, protocol, src)`: a payload dispatched to an upper layer. -/
  | net_in (payload : List Nat) (protocol : Nat) (src : List Nat)
  /-- A registered UDP handler is called. -/
  | handler (id : Nat) (data : List Nat) (len : Nat) (src_ip : List Nat) (src_port : Nat)
  deriving DecidableEq, Repr

/-- The global variables of the stack, and the trace of its events. -/
structure World where
  net_if_ip : List Nat
  net_if_mac : List Nat
  txbuf : buf_t
  arp_table : List (List Nat × List Nat)
  arp_buf : List (List Nat × buf_t)
  udp_table : List (Nat × Nat)
  ip_id : Nat
  trace : List Event
  deriving DecidableEq, Repr

/-- Append an event to the trace. -/
def World.emit (w : World) (e : Event) : World := { w with trace := w.trace ++ [e] }

/-- A `buf_t *` argument: the global `txbuf`, or a buffer that is nowhere
else referred to (a local variable, the receive buffer). -/
inductive BufArg where
  | global_txbuf
  | loc (buf : buf_t)
  deriving DecidableEq, Repr

/-- Dereference a `buf_t *`. -/
def BufArg.get : BufArg → World → buf_t
  | .global_txbuf, w => w.txbuf
  | .loc buf, _ => buf

/-- Write through a `buf_t *`. -/
def BufArg.set : BufArg → buf_t → World → BufArg × World
  | .global_txbuf, buf, w => (.global_txbuf, { w with txbuf := buf })
  | .loc _, buf, w => (.loc buf, w)

/-- Modelled from the spec: `map_get` of the missing `map.c`, lookup in the
key-value store (`none` for `NULL`; expiry is not part of a lookup here). -/
def map_get {κ α : Type} [DecidableEq κ] (map : List (κ × α)) (key : κ) : Option α :=
  (map.find? (fun e => decide (e.1 = key))).map Prod.snd

/-- Modelled from the spec: `map_delete` of the missing `map.c`. -/
def map_delete {κ α : Type} [DecidableEq κ] (map : List (κ × α)) (key : κ) : List (κ × α) :=
  map.filter (fun e => decide (e.1 ≠ key))

/-- Modelled from the spec: `map_set` of the missing `map.c`, insert or
update; the value is stored as a copy. -/
def map_set {κ α : Type} [DecidableEq κ] (map : List (κ × α)) (key : κ) (value : α) :
    List (κ × α) :=
  (key, value) :: map_delete map key

/-- Modelled from the spec: `ethernet_out` of the missing `ethernet.c`, the
outbound hand-off `link_send(buffer, destination_mac, ethertype)`. -/
def ethernet_out (buf : BufArg) (mac : List Nat) (protocol : Nat) (w : World) : BufArg × World :=
  (buf, w.emit (Event.ethernet_out (buf.get w).bytes mac protocol))

/-! ## arp.c -/

/-- The `arp_pkt_t` constant `arp_init_pkt`, as bytes (opcode still zero). -/
def arp_init_pkt (w : World) : List Nat :=
  write16 true (swap16 ARP_HW_ETHER) ++ write16 true (swap16 NET_PROTOCOL_IP)
    ++ [NET_MAC_LEN, NET_IP_LEN] ++ [0, 0]
    ++ peek w.net_if_mac 0 NET_MAC_LEN ++ peek w.net_if_ip 0 NET_IP_LEN
    ++ List.replicate NET_MAC_LEN 0 ++ List.replicate NET_IP_LEN 0

/-- `void arp_req(uint8_t *target_ip)`. -/
def arp_req (target_ip : List Nat) (w : World) : World :=
  let w := { w with txbuf := buf_init w.txbuf sizeof_arp_pkt_t }
  let arp_head := arp_init_pkt w
  let arp_head := store16 arp_head 6 (swap16 ARP_REQUEST)
  let arp_head := memcpy arp_head 24 (peek target_ip 0 NET_IP_LEN)
  let w := { w with txbuf := { w.txbuf with
    payload := memcpy w.txbuf.payload w.txbuf.data (peek arp_head 0 sizeof_arp_pkt_t) } }
  (ethernet_out .global_txbuf ether_broadcast_mac NET_PROTOCOL_ARP w).2

/-- `void arp_resp(uint8_t *target_ip, uint8_t *target_mac)`. -/
def arp_resp (target_ip target_mac : List Nat) (w : World) : World :=
  let w := { w with txbuf := buf_init w.txbuf sizeof_arp_pkt_t }
  let arp_head := arp_init_pkt w
  let arp_head := store16 arp_head 6 (swap16 ARP_REPLY)
  let arp_head := memcpy arp_head 24 (peek target_ip 0 NET_IP_LEN)
  let arp_head := memcpy arp_head 18 (peek target_mac 0 NET_MAC_LEN)
  let w := { w with txbuf := { w.txbuf with
    payload := memcpy w.txbuf.payload w.txbuf.data (peek arp_head 0 sizeof_arp_pkt_t) } }
  (ethernet_out .global_txbuf target_mac NET_PROTOCOL_ARP w).2

/-- `void arp_in(buf_t *buf, uint8_t *src_mac)`; `arp_pkt_t` has the hardware
type at 0, the protocol type at 2, the two lengths at 4 and 5, the opcode at
6, the sender's MAC at 8 and IP at 14, the target's MAC at 18 and IP at 24.
The tables copy their keys (4 bytes) and values (6 bytes, a `buf_t`). -/
def arp_in (buf : buf_t) (src_mac : List Nat) (w : World) : World :=
  if buf.len < sizeof_arp_pkt_t then w
  else
    let arp_pkt := buf.data
    if load16 buf.payload arp_pkt ≠ swap16 ARP_HW_ETHER then w
    else if load16 buf.payload (arp_pkt + 2) ≠ swap16 NET_PROTOCOL_IP then w
    else if load8 buf.payload (arp_pkt + 4) ≠ NET_MAC_LEN then w
    else if load8 buf.payload (arp_pkt + 5) ≠ NET_IP_LEN then w
    else if load16 buf.payload (arp_pkt + 6) ≠ swap16 ARP_REQUEST
        ∧ load16 buf.payload (arp_pkt + 6) ≠ swap16 ARP_REPLY then w
    else
      let sender_ip := peek buf.payload (arp_pkt + 14) NET_IP_LEN
      let w := { w with arp_table := map_set w.arp_table sender_ip (peek src_mac 0 NET_MAC_LEN) }
      let w :=
        match map_get w.arp_buf sender_ip with
        | some uncommit_buf =>
            let w := (ethernet_out (.loc uncommit_buf) src_mac NET_PROTOCOL_IP w).2
            { w with arp_buf := map_delete w.arp_buf sender_ip }
        | none => w
      if load16 buf.payload (arp_pkt + 6) = swap16 ARP_REQUEST
          ∧ memcmp_ne (peek buf.payload (arp_pkt + 24) NET_IP_LEN) w.net_if_ip NET_IP_LEN = false
      then arp_resp sender_ip src_mac w
      else w

/-- `void arp_out(buf_t *buf, uint8_t *ip)`. -/
def arp_out (buf : BufArg) (ip : List Nat) (w : World) : BufArg × World :=
  let w := w.emit (Event.arp_out (buf.get w).bytes ip)
  match map_get w.arp_table ip with
  | none =>
      match map_get w.arp_buf ip with
      | none =>
          let w := { w with arp_buf := map_set w.arp_buf ip (buf.get w) }
          (buf, arp_req ip w)
      | some _ => (buf, w)
  | some mac => ethernet_out buf mac NET_PROTOCOL_IP w

/-- `void arp_init()`: both tables are initialised empty, `arp_in` is
registered for the ARP protocol number, and the host announces its address. -/
def arp_init (w : World) : World :=
  let w := { w with arp_table := [] }
  let w := { w with arp_buf := [] }
  arp_req w.net_if_ip w

/-- Modelled from the spec: the expiry of one entry of the ARP cache in the
missing `map.c` ("entries older than a configured timeout are logically
expired"): the entry is no longer found. -/
def arp_table_expire (ip : List Nat) (w : World) : World :=
  { w with arp_table := map_delete w.arp_table ip }

/-- Modelled from the spec: the expiry of one pending datagram in the missing
`map.c` (the entry is destroyed "when its own expiry timeout elapses"). -/
def arp_buf_expire (ip : List Nat) (w : World) : World :=
  { w with arp_buf := map_delete w.arp_buf ip }

/-- The states of the ARP module that are reachable from `arp_init` by calls
of `arp_in` and `arp_out`, with entries of either table expiring in between. -/
inductive arp_reachable : World → Prop where
  | init (w : World) : arp_reachable (arp_init w)
  | arp_in (buf : buf_t) (src_mac : List Nat) {w : World} :
      arp_reachable w → arp_reachable (arp_in buf src_mac w)
  | arp_out (buf : BufArg) (ip : List Nat) {w : World} :
      arp_reachable w → arp_reachable (arp_out buf ip w).2
  | table_expire (ip : List Nat) {w : World} :
      arp_reachable w → arp_reachable (arp_table_expire ip w)
  | buf_expire (ip : List Nat) {w : World} :
      arp_reachable w → arp_reachable (arp_buf_expire ip w)

/-! ## ip.c, the send path -/

/-- `void ip_fragment_out(buf_t *buf, uint8_t *ip, net_protocol_t protocol, int id,
uint16_t offset, int mf)`.  The header fields are at their offsets in
`ip_hdr_t`: version and header length share byte 0 (version in the high
half), then tos 1, total length 2, id 4, flags and fragment offset 6, ttl 8,
protocol 9, checksum 10, source 12, destination 16. -/
def ip_fragment_out (buf : BufArg) (ip : List Nat) (protocol id offset mf : Nat) (w : World) :
    BufArg × World :=
  let b := buf_add_header (buf.get w) sizeof_ip_hdr_t
  let d := b.data
  let p := b.payload
  let p := store8 p d (load8 p d % 16 + 16 * IP_VERSION_4)
  let p := store8 p d (load8 p d / 16 * 16 + 5)
  let p := store8 p (d + 1) 0
  let p := store16 p (d + 2) (swap16 b.len)
  let p := store16 p (d + 4) (swap16 id)
  let p :=
    if mf ≠ 0 then store16 p (d + 6) (swap16 (IP_MORE_FRAGMENT ||| offset))
    else store16 p (d + 6) (swap16 offset)
  let p := store8 p (d + 8) IP_DEFALUT_TTL
  let p := store8 p (d + 9) protocol
  let p := memcpy p (d + 12) (peek w.net_if_ip 0 NET_IP_LEN)
  let p := memcpy p (d + 16) (peek ip 0 NET_IP_LEN)
  let p := store16 p (d + 10) 0
  let p := store16 p (d + 10) (checksum16 true (p.drop d) sizeof_ip_hdr_t)
  match buf.set { b with payload := p } w with
  | (buf, w) => arp_out buf ip w

/-- The `while (buf->len > 1480)` loop of `ip_out`, on `buf`, the local
`buf_piece` and the `uint16_t len_offset`; `none` when the fuel runs out
before the loop ends. -/
def ip_out_loop (ip : List Nat) (protocol : Nat) :
    Nat → BufArg → buf_t → Nat → World → Option (BufArg × buf_t × Nat × World)
  | 0, buf, buf_piece, len_offset, w =>
      if (buf.get w).len > 1480 then none else some (buf, buf_piece, len_offset, w)
  | fuel + 1, buf, buf_piece, len_offset, w =>
      if (buf.get w).len > 1480 then
        let buf_piece := buf_init buf_piece 1480
        let buf_piece := { buf_piece with
          payload := memcpy buf_piece.payload buf_piece.data
            (peek (buf.get w).payload (buf.get w).data 1480) }
        match ip_fragment_out (.loc buf_piece) ip protocol w.ip_id
            (len_offset / IP_HDR_OFFSET_PER_BYTE) 1 w with
        | (piece, w) =>
            match buf.set (buf_remove_header (buf.get w) 1480) w with
            | (buf, w) =>
                ip_out_loop ip protocol fuel buf (piece.get w) ((len_offset + 1480) % 2 ^ 16) w
      else some (buf, buf_piece, len_offset, w)

/-- `void ip_out(buf_t *buf, uint8_t *ip, net_protocol_t protocol)`; the static
`ip_id` is the field of the same name of the state. -/
def ip_out (buf : BufArg) (ip : List Nat) (protocol : Nat) (w : World) : Option (BufArg × World) :=
  if (buf.get w).len ≤ 1480 then
    match ip_fragment_out buf ip protocol w.ip_id 0 0 w with
    | (buf, w) => some (buf, { w with ip_id := (w.ip_id + 1) % 2 ^ 16 })
  else
    match ip_out_loop ip protocol (buf.get w).len buf buf_t.uninit 0 w with
    | none => none
    | some (buf, buf_piece, len_offset, w) =>
        if (buf.get w).len ≠ 0 then
          let buf_piece := buf_init buf_piece (buf.get w).len
          let buf_piece := { buf_piece with
            payload := memcpy buf_piece.payload buf_piece.data
              (peek (buf.get w).payload (buf.get w).data (buf.get w).len) }
          match ip_fragment_out (.loc buf_piece) ip protocol w.ip_id
              (len_offset / IP_HDR_OFFSET_PER_BYTE) 0 w with
          | (_, w) => some (buf, { w with ip_id := (w.ip_id + 1) % 2 ^ 16 })
        else some (buf, w)

/-! ## icmp.c -/

/-- `static void icmp_resp(buf_t *req_buf, uint8_t *src_ip)`; `icmp_hdr_t` has
type at 0, code at 1, checksum at 2, id at 4 and sequence number at 6. -/
def icmp_resp (req_buf : buf_t) (src_ip : List Nat) (w : World) : Option World :=
  let txbuf := buf_init buf_t.uninit req_buf.len
  let p := memcpy txbuf.payload txbuf.data (peek req_buf.payload req_buf.data req_buf.len)
  let d := txbuf.data
  let p := store8 p d ICMP_TYPE_ECHO_REPLY
  let p := store8 p (d + 1) 0
  let p := store16 p (d + 4) (load16 req_buf.payload (req_buf.data + 4))
  let p := store16 p (d + 6) (load16 req_buf.payload (req_buf.data + 6))
  let p := store16 p (d + 2) 0
  let p := store16 p (d + 2) (checksum16 true (p.drop d) txbuf.len)
  (ip_out (.loc { txbuf with payload := p }) src_ip NET_PROTOCOL_ICMP w).map Prod.snd

/-- `void icmp_in(buf_t *buf, uint8_t *src_ip)`. -/
def icmp_in (buf : buf_t) (src_ip : List Nat) (w : World) : Option World :=
  if buf.len < sizeof_icmp_hdr_t then some w
  else if load8 buf.payload buf.data = ICMP_TYPE_ECHO_REQUEST then icmp_resp buf src_ip w
  else some w

/-- `void icmp_unreachable(buf_t *recv_buf, uint8_t *src_ip, icmp_code_t code)`. -/
def icmp_unreachable (recv_buf : buf_t) (src_ip : List Nat) (code : Nat) (w : World) :
    Option World :=
  let txbuf := buf_init buf_t.uninit (sizeof_icmp_hdr_t + sizeof_ip_hdr_t + 8)
  let d := txbuf.data
  let p := txbuf.payload
  let p := store8 p d ICMP_TYPE_UNREACH
  let p := store8 p (d + 1) code
  let p := store16 p (d + 4) 0
  let p := store16 p (d + 6) 0
  let p := store16 p (d + 2) 0
  let p := memcpy p (d + sizeof_icmp_hdr_t)
    (peek recv_buf.payload recv_buf.data (sizeof_ip_hdr_t + 8))
  let p := store16 p (d + 2) (checksum16 true (p.drop d) txbuf.len)
  (ip_out (.loc { txbuf with payload := p }) src_ip NET_PROTOCOL_ICMP w).map Prod.snd

/-! ## udp.c -/

/-- `static uint16_t udp_checksum(buf_t *buf, uint8_t *src_ip, uint8_t *dst_ip)`:
the checksum and the buffer it leaves.  The addresses and the protocol come
from the 20 bytes that precede the UDP header in memory, not from the two
address arguments; `udp_peso_hdr_t` has the source address at 0, the
destination at 4, the zero byte at 8, the protocol at 9 and the length at 10;
`udp_hdr_t` has the ports at 0 and 2, the length at 4 and the checksum at 6. -/
def udp_checksum (buf : buf_t) (_src_ip _dst_ip : List Nat) : Nat × buf_t :=
  let udp_header := buf.data
  let ori_udp_head := buf.data
  let buf := buf_add_header buf sizeof_udp_peso_hdr_t
  let ip_hdr_save := peek buf.payload (ori_udp_head - sizeof_ip_hdr_t) sizeof_ip_hdr_t
  let peso_header := buf.data
  let p := buf.payload
  let p := memcpy p (peso_header + 4) (peek ip_hdr_save 16 NET_IP_LEN)
  let p := memcpy p peso_header (peek ip_hdr_save 12 NET_IP_LEN)
  let p := store8 p (peso_header + 8) 0
  let p := store8 p (peso_header + 9) (load8 ip_hdr_save 9)
  let p := store16 p (peso_header + 10) (load16 p (udp_header + 4))
  let buf := { buf with payload := p }
  let odd := buf.len % 2 = 1
  let buf := if odd then buf_add_padding buf 1 else buf
  let checksum := checksum16 true (buf.payload.drop buf.data) buf.len
  let buf := { buf with
    payload := memcpy buf.payload (ori_udp_head - sizeof_ip_hdr_t) ip_hdr_save }
  let buf := buf_remove_header buf sizeof_udp_peso_hdr_t
  let buf := if odd then buf_remove_padding buf 1 else buf
  (checksum, buf)

/-- `void udp_in(buf_t *buf, uint8_t *src_ip)`; `udp_table` maps a port to the
number that stands for the registered handler.  `src_ip` is passed by value:
the header it points into is the same before and after `udp_checksum`. -/
def udp_in (buf : buf_t) (src_ip : List Nat) (w : World) : Option World :=
  if buf.len < sizeof_udp_hdr_t then some w
  else
    let udp_hdr := buf.data
    let checksum16_field := load16 buf.payload (udp_hdr + 6)
    let buf := { buf with payload := store16 buf.payload (udp_hdr + 6) 0 }
    match udp_checksum buf src_ip w.net_if_ip with
    | (checksum, buf) =>
        if checksum16_field ≠ checksum then some w
        else
          let key := swap16 (load16 buf.payload (udp_hdr + 2))
          match map_get w.udp_table key with
          | none =>
              let buf := buf_add_header buf sizeof_ip_hdr_t
              icmp_unreachable buf src_ip ICMP_CODE_PORT_UNREACH w
          | some handler =>
              let buf := buf_remove_header buf sizeof_udp_hdr_t
              some (w.emit (Event.handler handler buf.bytes buf.len src_ip
                (swap16 (load16 buf.payload udp_hdr))))

/-- `void udp_out(buf_t *buf, uint16_t src_port, uint8_t *dst_ip, uint16_t dst_port)`;
the local `src_ip` is initialised from `NET_IF_IP`, the address `net_if_ip` holds. -/
def udp_out (buf : BufArg) (src_port : Nat) (dst_ip : List Nat) (dst_port : Nat) (w : World) :
    Option (BufArg × World) :=
  let b := buf_add_header (buf.get w) sizeof_udp_hdr_t
  let udp_header := b.data
  let p := b.payload
  let p := store16 p udp_header (swap16 src_port)
  let p := store16 p (udp_header + 2) (swap16 dst_port)
  let p := store16 p (udp_header + 4) (swap16 b.len)
  let p := store16 p (udp_header + 6) 0
  let src_ip := peek w.net_if_ip 0 NET_IP_LEN
  let b := buf_add_header { b with payload := p } sizeof_ip_hdr_t
  let ip_header := b.data
  let p := store8 b.payload (ip_header + 9) NET_PROTOCOL_UDP
  let p := memcpy p (ip_header + 12) (peek src_ip 0 NET_IP_LEN)
  let p := memcpy p (ip_header + 16) (peek dst_ip 0 NET_IP_LEN)
  let b := buf_remove_header { b with payload := p } sizeof_ip_hdr_t
  match udp_checksum b src_ip dst_ip with
  | (checksum, b) =>
      let b := { b with payload := store16 b.payload (udp_header + 6) checksum }
      match buf.set b w with
      | (buf, w) => ip_out buf dst_ip NET_PROTOCOL_UDP w

/-- `void udp_send(uint8_t *data, uint16_t len, uint16_t src_port, uint8_t *dst_ip,
uint16_t dst_port)`, on the global `txbuf`. -/
def udp_send (data : List Nat) (len src_port : Nat) (dst_ip : List Nat) (dst_port : Nat)
    (w : World) : Option World :=
  let w := { w with txbuf := buf_init w.txbuf len }
  let w := { w with txbuf := { w.txbuf with
    payload := memcpy w.txbuf.payload w.txbuf.data (peek data 0 len) } }
  (udp_out .global_txbuf src_port dst_ip dst_port w).map Prod.snd

/-! ## ip.c, the receive path -/

/-- Modelled from the spec: `net_in` of the missing `net.c`, which delivers
a payload to the input function registered for its protocol number:
`icmp_in` for ICMP (by `icmp_init`) and `udp_in` for UDP (by `udp_init`). -/
def net_in (buf : buf_t) (protocol : Nat) (src : List Nat) (w : World) : Option World :=
  let w := w.emit (Event.net_in buf.bytes protocol src)
  if protocol = NET_PROTOCOL_ICMP then icmp_in buf src w
  else if protocol = NET_PROTOCOL_UDP then udp_in buf src w
  else some w

/-- `void ip_in(buf_t *buf, uint8_t *src_mac)`. -/
def ip_in (buf : buf_t) (_src_mac : List Nat) (w : World) : Option World :=
  if buf.len < sizeof_ip_hdr_t then some w
  else
    let ip_h := buf.data
    if load8 buf.payload ip_h / 16 % 16 ≠ IP_VERSION_4 then some w
    else if load16 buf.payload (ip_h + 2) > swap16 65535 then some w
    else
      let ip_check_sum := load16 buf.payload (ip_h + 10)
      let buf := { buf with payload := store16 buf.payload (ip_h + 10) 0 }
      if ip_check_sum ≠ checksum16 true (buf.payload.drop buf.data) sizeof_ip_hdr_t then some w
      else
        let buf := { buf with payload := store16 buf.payload (ip_h + 10) ip_check_sum }
        if memcmp_ne w.net_if_ip (peek buf.payload (ip_h + 16) NET_IP_LEN) NET_IP_LEN then some w
        else
          let buf :=
            if swap16 (load16 buf.payload (ip_h + 2)) < buf.len then
              buf_remove_padding buf (buf.len - swap16 (load16 buf.payload (ip_h + 2)))
            else buf
          if load8 buf.payload (ip_h + 9) = NET_PROTOCOL_ICMP
              ∨ load8 buf.payload (ip_h + 9) = NET_PROTOCOL_UDP then
            let buf := buf_remove_header buf sizeof_ip_hdr_t
            net_in buf (load8 buf.payload (ip_h + 9)) (peek buf.payload (ip_h + 12) NET_IP_LEN) w
          else
            icmp_unreachable buf (peek buf.payload (ip_h + 12) NET_IP_LEN)
              ICMP_CODE_PROTOCOL_UNREACH w

/-! ## Functions used to state the results -/

/-- Closed form of the folded one's-complement sum: `0` for `0`, otherwise the
representative of `s` modulo `65535` in `1 .. 65535`. -/
def oc (s : Nat) : Nat := if s = 0 then 0 else (s - 1) % 65535 + 1

/-- The header `ip_fragment_out` writes, before the checksum is filled in. -/
def ip_header0 (total_len id flags_fragment protocol : Nat) (src dst : List Nat) : List Nat :=
  [0x45, 0, total_len / 256 % 256, total_len % 256, id / 256 % 256, id % 256,
    flags_fragment / 256 % 256, flags_fragment % 256, 64, protocol % 256, 0, 0] ++ src ++ dst

/-- The header `ip_fragment_out` writes. -/
def ip_header (total_len id flags_fragment protocol : Nat) (src dst : List Nat) : List Nat :=
  memcpy (ip_header0 total_len id flags_fragment protocol src dst) 10
    (write16 true (checksum16 true (ip_header0 total_len id flags_fragment protocol src dst) 20))

/-- Whether an event is a packet handed to the link layer. -/
def Event.is_ethernet_out : Event → Bool
  | .ethernet_out _ _ _ => true
  | _ => false

/-- Whether an event is an IP datagram handed to ARP. -/
def Event.is_arp_out : Event → Bool
  | .arp_out _ _ => true
  | _ => false

/-- The message `icmp_unreachable` builds, before the checksum is filled in. -/
def icmp_unreach_msg0 (code : Nat) (orig : List Nat) : List Nat :=
  [3, code % 256, 0, 0, 0, 0, 0, 0] ++ orig

/-- The message `icmp_unreachable` builds around the 28 bytes `orig`. -/
def icmp_unreach_msg (code : Nat) (orig : List Nat) : List Nat :=
  memcpy (icmp_unreach_msg0 code orig) 2
    (write16 true (checksum16 true (icmp_unreach_msg0 code orig) 36))

/-- The 20 bytes at `buf->data`, which `ip_in` reads as the IP header. -/
def ip_hdr_of (buf : buf_t) : List Nat := peek buf.payload buf.data 20

/-- The version field of an IP header. -/
def ip_version (hdr : List Nat) : Nat := load8 hdr 0 / 16 % 16

/-- The header-length field of an IP header, in 32-bit words. -/
def ip_hdr_len (hdr : List Nat) : Nat := load8 hdr 0 % 16

/-- The total-length field of an IP header, converted from big-endian. -/
def ip_total_len (hdr : List Nat) : Nat := swap16 (load16 hdr 2)

/-- The protocol field of an IP header. -/
def ip_protocol (hdr : List Nat) : Nat := load8 hdr 9

/-- The source address of an IP header. -/
def ip_src (hdr : List Nat) : List Nat := peek hdr 12 4

/-- The destination address of an IP header. -/
def ip_dst (hdr : List Nat) : List Nat := peek hdr 16 4

/-- Whether the checksum field of an IP header equals `checksum16` of the 20
header bytes computed with the checksum field zeroed. -/
def ip_checksum_ok (hdr : List Nat) : Bool :=
  decide (load16 hdr 10 = checksum16 true (store16 hdr 10 0) 20)

/-- The checks of `ip_in` that a received buffer passes before anything is
dispatched: at least 20 bytes, version 4, a valid header checksum, and this
host's address as destination. -/
def ip_in_accepts (buf : buf_t) (w : World) : Bool :=
  decide (20 ≤ buf.len) && decide (ip_version (ip_hdr_of buf) = 4)
    && ip_checksum_ok (ip_hdr_of buf) && decide (ip_dst (ip_hdr_of buf) = w.net_if_ip)

/-- The pseudo-header `udp_checksum` builds from the IP header `iph` that
precedes the UDP datagram `udp` in memory: source address, destination
address, a zero byte, the protocol number and the UDP length field. -/
def udp_pseudo_header (iph udp : List Nat) : List Nat :=
  peek iph 12 4 ++ peek iph 16 4 ++ [0, load8 iph 9] ++ peek udp 4 2

/-- The bytes the UDP checksum is computed over: the pseudo-header, the
datagram with its checksum field zeroed, and one zero byte when the length is
odd. -/
def udp_checksum_input (iph udp : List Nat) : List Nat :=
  udp_pseudo_header iph udp ++ store16 udp 6 0 ++ (if udp.length % 2 = 1 then [0] else [])

/-- The UDP checksum of the datagram `udp` that follows the IP header `iph`. -/
def udp_checksum_of (iph udp : List Nat) : Nat :=
  checksum16 true (udp_checksum_input iph udp) (udp_checksum_input iph udp).length

/-- The check of `udp_in`: at least 8 bytes, and a checksum field equal to
the recomputed checksum. -/
def udp_in_accepts (iph udp : List Nat) : Bool :=
  decide (8 ≤ udp.length) && decide (load16 udp 6 = udp_checksum_of iph udp)

/-- A host with address 10.0.0.2 and empty tables. -/
def host_b : World :=
  { net_if_ip := [10, 0, 0, 2], net_if_mac := [0xaa, 0xbb, 0xcc, 0xdd, 0xee, 0xff],
    txbuf := ⟨0, 0, []⟩, arp_table := [], arp_buf := [], udp_table := [], ip_id := 0,
    trace := [] }

/-- A received buffer of 28 bytes whose IP header (version 4, valid checksum,
protocol ICMP, from 10.0.0.1 to 10.0.0.2) declares a total length of 1000
bytes; the 8 bytes after the header are an ICMP echo reply. -/
def truncated_datagram : buf_t :=
  ⟨28, 0, [0x45, 0, 0x03, 0xe8, 0, 0, 0, 0, 0x40, 1, 0x63, 0x13, 10, 0, 0, 1, 10, 0, 0, 2,
    0, 0, 0xff, 0xff, 0, 0, 0, 0, 0, 0]⟩

/-- A received 28-byte datagram from 10.0.0.1 to 10.0.0.2 with protocol 6 and
a valid header checksum, in a buffer with room around it. -/
def tcp_datagram : buf_t :=
  ⟨28, 2, [0xee, 0xee,
    0x45, 0, 0, 0x1c, 0, 0, 0, 0, 0x40, 6, 0x66, 0xda, 10, 0, 0, 1, 10, 0, 0, 2,
    1, 2, 3, 4, 5, 6, 7, 8, 0xee, 0xee]⟩

/-- A host with address 10.0.0.2 on which handler 99 is bound to UDP port 53. -/
def host_b_dns : World := { host_b with udp_table := [(53, 99)] }

/-- The IP header of a UDP datagram of 11 bytes from 10.0.0.1 to 10.0.0.2. -/
def dns_ip_header : List Nat :=
  [0x45, 0, 0, 31, 0, 7, 0, 0, 0x40, 17, 0x66, 0xc5, 10, 0, 0, 1, 10, 0, 0, 2]

/-- A UDP datagram from port 1234 to port 53 with payload 1, 2, 3 and the
checksum 0xe2cc, which is correct below `dns_ip_header`. -/
def dns_datagram : List Nat := [0x04, 0xd2, 0, 53, 0, 11, 0xe2, 0xcc, 1, 2, 3]

/-- The UDP header `udp_out` writes, before the checksum is filled in. -/
def udp_header0 (src_port dst_port len : Nat) : List Nat :=
  [src_port / 256 % 256, src_port % 256, dst_port / 256 % 256, dst_port % 256,
    len / 256 % 256, len % 256, 0, 0]

/-- The bytes of the standard UDP checksum: the pseudo-header (source
address, destination address, zero, protocol 17, UDP length), the header with
zero checksum, the payload, and a zero byte when the payload length is odd. -/
def udp_pseudo_datagram (src_ip dst_ip : List Nat) (src_port dst_port : Nat)
    (payload : List Nat) : List Nat :=
  src_ip ++ dst_ip
    ++ [0, 17, (payload.length + 8) / 256 % 256, (payload.length + 8) % 256]
    ++ udp_header0 src_port dst_port (payload.length + 8) ++ payload
    ++ (if payload.length % 2 = 1 then [0] else [])

/-- The UDP datagram `udp_out` builds: header with the checksum of
`udp_pseudo_datagram` stored in host order, then the payload. -/
def udp_datagram (src_ip dst_ip : List Nat) (src_port dst_port : Nat) (payload : List Nat) :
    List Nat :=
  store16 (udp_header0 src_port dst_port (payload.length + 8) ++ payload) 6
    (checksum16 true (udp_pseudo_datagram src_ip dst_ip src_port dst_port payload)
      (udp_pseudo_datagram src_ip dst_ip src_port dst_port payload).length)

/-- A host with address 10.0.0.1 whose global `txbuf` holds the payload
1, 2, 3 with 28 bytes of room before it, and whose tables are empty. -/
def host_a : World :=
  { net_if_ip := [10, 0, 0, 1], net_if_mac := [1, 2, 3, 4, 5, 6],
    txbuf := ⟨3, 29, [0xee] ++ List.replicate 28 0 ++ [1, 2, 3] ++ [0xee, 0xee]⟩,
    arp_table := [], arp_buf := [], udp_table := [], ip_id := 7, trace := [] }

/-- A host with address 10.0.0.1 whose global `txbuf` holds a datagram of
3000 bytes, as `udp_send` leaves it for `ip_out`; the ARP cache and the
pending buffer are empty. -/
def host_a_3000 : World :=
  { net_if_ip := [10, 0, 0, 1], net_if_mac := [1, 2, 3, 4, 5, 6],
    txbuf := ⟨3000, 200, List.replicate 6400 5⟩,
    arp_table := [], arp_buf := [], udp_table := [], ip_id := 7, trace := [] }

/-- The datagrams handed to ARP with their destinations, in order. -/
def arp_outs (t : List Event) : List (List Nat × List Nat) :=
  t.filterMap fun e =>
    match e with
    | .arp_out datagram ip => some (datagram, ip)
    | _ => none

/-- Whether sending to `ip` leaves the buffer behind `buf` alone: a buffer of
the caller always, the global `txbuf` when `arp_out` has no request to send
(the address is resolved, or a datagram for it is already pending). -/
def BufArg.kept (buf : BufArg) (ip : List Nat) (w : World) : Bool :=
  match buf with
  | .loc _ => true
  | .global_txbuf => (map_get w.arp_table ip).isSome || (map_get w.arp_buf ip).isSome

/-- Fragment `i` of a datagram `body` as the specification describes it: the
bytes from `1480 * i`, at most 1480 of them, under a header with their number
plus 20 as total length, `185 * i` as fragment offset, and the "more
fragments" bit on every fragment but the last. -/
def ip_fragment (id protocol : Nat) (src dst body : List Nat) (i : Nat) : List Nat :=
  ip_header (((body.drop (1480 * i)).take 1480).length + 20) id
      (if i + 1 < (body.length + 1479) / 1480 then IP_MORE_FRAGMENT + 185 * i else 185 * i)
      protocol src dst
    ++ (body.drop (1480 * i)).take 1480

/-- The `⌈n / 1480⌉` fragments of a datagram of `n` bytes, in order. -/
def ip_fragments (id protocol : Nat) (src dst body : List Nat) : List (List Nat) :=
  (List.range ((body.length + 1479) / 1480)).map (ip_fragment id protocol src dst body)

/-- The packets handed to the link layer with their destination MAC and
ethertype, in order. -/
def frames (t : List Event) : List (List Nat × List Nat × Nat) :=
  t.filterMap fun e =>
    match e with
    | .ethernet_out packet mac protocol => some (packet, mac, protocol)
    | _ => none

/-- The 28 bytes of an ARP packet for Ethernet and IPv4: hardware type 1,
protocol type 0x0800, address lengths 6 and 4, the opcode, the sender's MAC
and IP, the target's MAC and IP; 16-bit fields big-endian. -/
def arp_packet (opcode : Nat) (sender_mac sender_ip target_mac target_ip : List Nat) : List Nat :=
  [0, 1, 8, 0, 6, 4, opcode / 256 % 256, opcode % 256]
    ++ sender_mac ++ sender_ip ++ target_mac ++ target_ip

/-- The first 28 bytes at `buf->data`: the ARP packet of a received buffer. -/
def arp_pkt_of (buf : buf_t) : List Nat := peek buf.payload buf.data 28

/-- The hardware type of an ARP packet, converted from big-endian. -/
def arp_hw_type (pkt : List Nat) : Nat := swap16 (load16 pkt 0)

/-- The protocol type of an ARP packet, converted from big-endian. -/
def arp_pro_type (pkt : List Nat) : Nat := swap16 (load16 pkt 2)

/-- The hardware address length of an ARP packet. -/
def arp_hw_len (pkt : List Nat) : Nat := load8 pkt 4

/-- The protocol address length of an ARP packet. -/
def arp_pro_len (pkt : List Nat) : Nat := load8 pkt 5

/-- The opcode of an ARP packet, converted from big-endian. -/
def arp_opcode (pkt : List Nat) : Nat := swap16 (load16 pkt 6)

/-- The sender IP of an ARP packet. -/
def arp_sender_ip (pkt : List Nat) : List Nat := peek pkt 14 4

/-- The sender MAC of an ARP packet. -/
def arp_sender_mac (pkt : List Nat) : List Nat := peek pkt 8 6

/-- The target MAC of an ARP packet. -/
def arp_target_mac (pkt : List Nat) : List Nat := peek pkt 18 6

/-- The target IP of an ARP packet. -/
def arp_target_ip (pkt : List Nat) : List Nat := peek pkt 24 4

/-- Whether a received buffer holds a well-formed ARP packet: at least 28
bytes, hardware type Ethernet, protocol type IPv4, address lengths 6 and 4,
and opcode REQUEST or REPLY. -/
def arp_well_formed (buf : buf_t) : Bool :=
  decide (28 ≤ buf.len) && decide (arp_hw_type (arp_pkt_of buf) = ARP_HW_ETHER)
    && decide (arp_pro_type (arp_pkt_of buf) = NET_PROTOCOL_IP)
    && decide (arp_hw_len (arp_pkt_of buf) = NET_MAC_LEN)
    && decide (arp_pro_len (arp_pkt_of buf) = NET_IP_LEN)
    && (decide (arp_opcode (arp_pkt_of buf) = ARP_REQUEST)
      || decide (arp_opcode (arp_pkt_of buf) = ARP_REPLY))

/-- The packets handed to the link layer with a given ethertype, with their
destination MAC, in order. -/
def frames_of (protocol : Nat) (t : List Event) : List (List Nat × List Nat) :=
  t.filterMap fun e =>
    match e with
    | .ethernet_out packet mac p => if p = protocol then some (packet, mac) else none
    | _ => none

/-- A host with address 10.0.0.1 and MAC 01:02:03:04:05:06 whose ARP cache is
empty and whose pending buffer holds the datagram 1, 2, 3 for 10.0.0.2. -/
def host_a_pending : World :=
  { net_if_ip := [10, 0, 0, 1], net_if_mac := [1, 2, 3, 4, 5, 6],
    txbuf := ⟨0, 0, List.replicate 200 0⟩,
    arp_table := [], arp_buf := [([10, 0, 0, 2], ⟨3, 0, [1, 2, 3]⟩)], udp_table := [],
    ip_id := 7, trace := [] }

/-- A received ARP reply: 10.0.0.2 is at aa:bb:cc:dd:ee:ff, for 10.0.0.1. -/
def arp_reply_b : buf_t :=
  ⟨28, 0, [0, 1, 8, 0, 6, 4, 0, 2, 0xaa, 0xbb, 0xcc, 0xdd, 0xee, 0xff, 10, 0, 0, 2,
    1, 2, 3, 4, 5, 6, 10, 0, 0, 1]⟩

/-- A received ARP request: 10.0.0.2 at aa:bb:cc:dd:ee:ff asks for 10.0.0.1. -/
def arp_request_b : buf_t :=
  ⟨28, 0, [0, 1, 8, 0, 6, 4, 0, 1, 0xaa, 0xbb, 0xcc, 0xdd, 0xee, 0xff, 10, 0, 0, 2,
    0, 0, 0, 0, 0, 0, 10, 0, 0, 1]⟩

/-- A received ARP packet with opcode 3, otherwise as `arp_reply_b`. -/
def arp_opcode3_b : buf_t :=
  ⟨28, 0, [0, 1, 8, 0, 6, 4, 0, 3, 0xaa, 0xbb, 0xcc, 0xdd, 0xee, 0xff, 10, 0, 0, 2,
    1, 2, 3, 4, 5, 6, 10, 0, 0, 1]⟩

/-- A received buffer of 28 bytes whose IP header (version 4, valid checksum,
protocol ICMP, from 10.0.0.1 to 10.0.0.2) declares a total length of 10
bytes, less than the header itself; 8 more bytes follow the header. -/
def short_total_datagram : buf_t :=
  ⟨28, 0, [0x45, 0, 0, 10, 0, 0, 0, 0, 0x40, 1, 0x66, 0xf1, 10, 0, 0, 1, 10, 0, 0, 2,
    8, 0, 0xf7, 0xff, 0, 0, 0, 0, 0, 0]⟩

/-- The echo reply `icmp_resp` builds from the request `msg`: type 0, code 0,
the rest of the request, and in the checksum field what `checksum16` returns
on the reply with a zero field; `stale` is what follows the reply in the
local buffer. -/
def icmp_echo_reply (msg stale : List Nat) : List Nat :=
  store16 ([0, 0, 0, 0] ++ msg.drop 4) 2
    (checksum16 true ([0, 0, 0, 0] ++ msg.drop 4 ++ stale) msg.length)

/-- A received ICMP echo request of 9 bytes from a compliant peer:
identifier 1, sequence number 1, the one payload byte 0x61, checksum 0x96fd. -/
def echo_request_odd : buf_t := ⟨9, 0, [8, 0, 0x96, 0xfd, 0, 1, 0, 1, 0x61]⟩

/-- The identification field of an IP datagram, converted from big-endian. -/
def ip_id_of (datagram : List Nat) : Nat := swap16 (load16 datagram 4)

/-! ## Checksum arithmetic -/

theorem oc_le (s : Nat) : oc s ≤ 0xffff := by
  unfold oc; split <;> omega

theorem oc_of_le {s : Nat} (h : s ≤ 0xffff) : oc s = s := by
  unfold oc; split <;> omega

theorem oc_oc_add (a b : Nat) : oc (oc a + b) = oc (a + b) := by
  unfold oc; split_ifs <;> omega

theorem carry_fold_eq {a w : Nat} (ha : a ≤ 0xffff) (hw : w ≤ 0xffff) :
    carry_fold ((a + w) % 2 ^ 32) = oc (a + w) := by
  unfold carry_fold oc; split_ifs <;> omega

theorem end_around_carry_eq : ∀ (fuel s : Nat), s ≤ fuel → end_around_carry fuel s = oc s
  | 0, s, h => by
      have : s = 0 := by omega
      subst this; rfl
  | fuel + 1, s, h => by
      unfold end_around_carry
      split_ifs with hc
      · rw [end_around_carry_eq fuel _ (by omega)]
        unfold oc; split_ifs <;> omega
      · rw [oc_of_le (by omega)]

theorem ones_complement_sum_eq (ws : List Nat) : ones_complement_sum ws = oc ws.sum :=
  end_around_carry_eq _ _ (Nat.le_refl _)

theorem read16_le_bound (le : Bool) {a b : Nat} (ha : a < 256) (hb : b < 256) :
    read16 le [a, b] ≤ 0xffff := by
  cases le <;> simp [read16] <;> omega

theorem checksum16_loop_even (le : Bool) :
    ∀ (l rest : List Nat) (cs : Nat), l.length % 2 = 0 → (∀ x ∈ l, x < 256) → cs ≤ 0xffff →
      checksum16_loop le l.length (l ++ rest) cs = (0, rest, oc (cs + (host_words le l).sum))
  | [], rest, cs, _, _, hcs => by
      simp [checksum16_loop, host_words, oc_of_le hcs]
  | [a], _, _, h, _, _ => by simp at h
  | a :: b :: t, rest, cs, h, hb, hcs => by
      have ha : a < 256 := hb a (by simp)
      have hb' : b < 256 := hb b (by simp)
      have ht : ∀ x ∈ t, x < 256 := fun x hx => hb x (by simp [hx])
      have hlen : t.length % 2 = 0 := by simp at h; omega
      have hw := read16_le_bound le ha hb'
      have hr : read16 le (a :: b :: t ++ rest) = read16 le [a, b] := by
        cases le <;> simp [read16]
      show checksum16_loop le (t.length + 2) _ _ = _
      rw [checksum16_loop, hr, carry_fold_eq hcs hw]
      simp only [List.cons_append, List.drop_succ_cons, List.drop_zero]
      rw [checksum16_loop_even le t rest _ hlen ht (oc_le _), oc_oc_add]
      simp [host_words, Nat.add_assoc]

theorem checksum16_even (le : Bool) (buf rest : List Nat) (heven : buf.length % 2 = 0)
    (hbytes : ∀ x ∈ buf, x < 256) :
    checksum16 le (buf ++ rest) buf.length = 0xffff - oc (host_words le buf).sum := by
  unfold checksum16
  rw [checksum16_loop_even le buf rest 0 heven hbytes (by omega)]
  have := oc_le (0 + (host_words le buf).sum)
  simp only [Nat.zero_add] at this ⊢
  simp only [ne_eq, not_true_eq_false, if_false]
  omega

theorem host_words_false : ∀ (l : List Nat), host_words false l = be_words l
  | [] => rfl
  | [a] => by simp [host_words, be_words, read16]
  | a :: b :: t => by simp [host_words, be_words, read16, host_words_false t]

theorem host_words_true_sum : ∀ (l : List Nat), (∀ x ∈ l, x < 256) → l.length % 2 = 0 →
    (host_words true l).sum % 65535 = (256 * (be_words l).sum) % 65535 ∧
    ((host_words true l).sum = 0 ↔ (be_words l).sum = 0)
  | [], _, _ => by simp [host_words, be_words]
  | [a], _, h => by simp at h
  | a :: b :: t, hb, h => by
      have ha : a < 256 := hb a (by simp)
      have hb' : b < 256 := hb b (by simp)
      have ht : ∀ x ∈ t, x < 256 := fun x hx => hb x (by simp [hx])
      have hlen : t.length % 2 = 0 := by simp at h; omega
      obtain ⟨h1, h2⟩ := host_words_true_sum t ht hlen
      simp only [host_words, be_words, read16, List.sum_cons, if_true, List.getD_cons_zero,
        List.getD_cons_succ]
      constructor <;> omega

theorem oc_pos {s : Nat} (h : s ≠ 0) : 1 ≤ oc s ∧ oc s % 65535 = s % 65535 := by
  unfold oc; rw [if_neg h]; omega

theorem oc_swap (sle sbe : Nat)
    (h1 : sle % 65535 = (256 * sbe) % 65535) (h2 : sle = 0 ↔ sbe = 0) :
    oc sle = oc sbe % 256 * 256 + oc sbe / 256 := by
  by_cases hz : sbe = 0
  · have : sle = 0 := h2.mpr hz
    subst hz; subst this; rfl
  · have hz' : sle ≠ 0 := fun h => hz (h2.mp h)
    obtain ⟨hx1, hx2⟩ := oc_pos hz
    obtain ⟨hy1, hy2⟩ := oc_pos hz'
    have hx3 := oc_le sbe
    have hy3 := oc_le sle
    generalize oc sle = y at *
    generalize oc sbe = x at *
    omega

theorem write16_checksum_le_eq_be (sle sbe : Nat)
    (h1 : sle % 65535 = (256 * sbe) % 65535) (h2 : sle = 0 ↔ sbe = 0) :
    write16 true (0xffff - oc sle) = write16 false (0xffff - oc sbe) := by
  have hs := oc_swap sle sbe h1 h2
  have hx3 := oc_le sbe
  unfold write16
  simp only [if_true, Bool.false_eq_true, if_false, List.cons.injEq, and_true]
  generalize oc sle = y at *
  generalize oc sbe = x at *
  obtain ⟨p, q, p', q', hx, hp, hq⟩ :
      ∃ p q p' q', x = 256 * p + q ∧ p + p' = 255 ∧ q + q' = 255 :=
    ⟨x / 256, x % 256, 255 - x / 256, 255 - x % 256, by omega, by omega, by omega⟩
  have hy : y = 256 * q + p := by omega
  have e1 : 65535 - y = 256 * q' + p' := by omega
  have e2 : 65535 - x = 256 * p' + q' := by omega
  have hp' : p' < 256 := by omega
  have hq' : q' < 256 := by omega
  rw [e1, e2, Nat.mul_add_mod, Nat.mul_add_mod, Nat.mul_add_div (by omega),
    Nat.mul_add_div (by omega), Nat.div_eq_of_lt hp', Nat.div_eq_of_lt hq',
    Nat.mod_eq_of_lt hp', Nat.mod_eq_of_lt hq']
  simp [Nat.mod_eq_of_lt hp', Nat.mod_eq_of_lt hq']

/-- C1. For every even-length byte buffer (whatever follows it in memory),
`checksum16` is the standard Internet checksum of the 16-bit words the host
reads: the 16-bit one's complement of their one's-complement sum, so folding
the carry after every addition agrees with summing in an unbounded integer and
folding at the end; on a big-endian host this is the checksum over big-endian
words, and on either host the two bytes stored for the result, in the byte
order the words were read in, are the two big-endian bytes of the checksum over
big-endian words. -/
theorem checksum16_is_internet_checksum (le : Bool) (buf rest : List Nat)
    (heven : buf.length % 2 = 0) (hbytes : ∀ x ∈ buf, x < 256) :
    checksum16 le (buf ++ rest) buf.length = internet_checksum (host_words le buf) ∧
    checksum16 false (buf ++ rest) buf.length = internet_checksum (be_words buf) ∧
    write16 le (checksum16 le (buf ++ rest) buf.length)
      = write16 false (internet_checksum (be_words buf)) := by
  have hbe : checksum16 false (buf ++ rest) buf.length = internet_checksum (be_words buf) := by
    rw [checksum16_even false buf rest heven hbytes, host_words_false]
    simp [internet_checksum, ones_complement_sum_eq]
  refine ⟨?_, hbe, ?_⟩
  · rw [checksum16_even le buf rest heven hbytes]
    simp [internet_checksum, ones_complement_sum_eq]
  · cases le
    · rw [hbe]
    · rw [checksum16_even true buf rest heven hbytes]
      obtain ⟨h1, h2⟩ := host_words_true_sum buf hbytes heven
      simpa [internet_checksum, ones_complement_sum_eq] using
        write16_checksum_le_eq_be _ _ h1 h2

theorem checksum16_is_internet_checksum_witness :
    checksum16 true ([0x45, 0x00, 0x00, 0x1c] ++ [7]) 4 = internet_checksum (host_words true [0x45, 0x00, 0x00, 0x1c]) ∧
    checksum16 false ([0x45, 0x00, 0x00, 0x1c] ++ [7]) 4 = internet_checksum (be_words [0x45, 0x00, 0x00, 0x1c]) ∧
    write16 true (checksum16 true ([0x45, 0x00, 0x00, 0x1c] ++ [7]) 4)
      = write16 false (internet_checksum (be_words [0x45, 0x00, 0x00, 0x1c])) :=
  checksum16_is_internet_checksum true [0x45, 0x00, 0x00, 0x1c] [7] (by decide) (by decide)


/-! ## Memory lemmas -/

@[simp] theorem swap16_mod (x : Nat) : swap16 x % 256 = x / 256 % 256 := by
  unfold swap16
  have hq : x / 256 % 256 < 256 := Nat.mod_lt _ (by omega)
  generalize x % 256 = p at *
  generalize x / 256 % 256 = q at *
  omega

@[simp] theorem swap16_div (x : Nat) : swap16 x / 256 % 256 = x % 256 := by
  unfold swap16
  have hp : x % 256 < 256 := Nat.mod_lt _ (by omega)
  have hq : x / 256 % 256 < 256 := Nat.mod_lt _ (by omega)
  generalize x % 256 = p at *
  generalize x / 256 % 256 = q at *
  omega

@[simp] theorem memcpy_append_add (pre rest src : List Nat) (k : Nat) :
    memcpy (pre ++ rest) (pre.length + k) src = pre ++ memcpy rest k src := by
  simp [memcpy, List.take_append, List.drop_append, Nat.add_assoc]

@[simp] theorem memcpy_append_length (pre rest src : List Nat) :
    memcpy (pre ++ rest) pre.length src = pre ++ memcpy rest 0 src := by
  simpa using memcpy_append_add pre rest src 0

@[simp] theorem memcpy_cons_succ (a : Nat) (l src : List Nat) (k : Nat) :
    memcpy (a :: l) (k + 1) src = a :: memcpy l k src := by
  simp [memcpy, Nat.add_right_comm]

@[simp] theorem memcpy_zero_cons (a x : Nat) (l src : List Nat) :
    memcpy (a :: l) 0 (x :: src) = x :: memcpy l 0 src := by
  simp [memcpy]

@[simp] theorem memcpy_zero_nil (l : List Nat) : memcpy l 0 [] = l := by
  simp [memcpy]


@[simp] theorem load8_append_add (pre rest : List Nat) (k : Nat) :
    load8 (pre ++ rest) (pre.length + k) = load8 rest k := by
  simp [load8, List.getD_eq_getElem?_getD, List.getElem?_append_right]

@[simp] theorem load8_append_length (pre rest : List Nat) :
    load8 (pre ++ rest) pre.length = load8 rest 0 := by
  simpa using load8_append_add pre rest 0

@[simp] theorem load8_cons_zero (a : Nat) (l : List Nat) : load8 (a :: l) 0 = a := rfl

@[simp] theorem load8_cons_succ (a : Nat) (l : List Nat) (k : Nat) :
    load8 (a :: l) (k + 1) = load8 l k := rfl

@[simp] theorem load16_append_add (pre rest : List Nat) (k : Nat) :
    load16 (pre ++ rest) (pre.length + k) = load16 rest k := by
  simp [load16]

@[simp] theorem load16_append_length (pre rest : List Nat) :
    load16 (pre ++ rest) pre.length = load16 rest 0 := by
  simpa using load16_append_add pre rest 0

@[simp] theorem load16_cons_zero (a b : Nat) (l : List Nat) :
    load16 (a :: b :: l) 0 = a + 256 * b := by
  simp [load16, read16]

@[simp] theorem load16_cons_succ (a : Nat) (l : List Nat) (k : Nat) :
    load16 (a :: l) (k + 1) = load16 l k := by
  simp [load16]

@[simp] theorem peek_append_add (pre rest : List Nat) (k n : Nat) :
    peek (pre ++ rest) (pre.length + k) n = peek rest k n := by
  simp [peek]

@[simp] theorem peek_append_length (pre rest : List Nat) (n : Nat) :
    peek (pre ++ rest) pre.length n = peek rest 0 n := by
  simpa using peek_append_add pre rest 0 n

@[simp] theorem peek_cons_succ (a : Nat) (l : List Nat) (k n : Nat) :
    peek (a :: l) (k + 1) n = peek l k n := by
  simp [peek]

@[simp] theorem peek_zero_cons (a : Nat) (l : List Nat) (n : Nat) :
    peek (a :: l) 0 (n + 1) = a :: peek l 0 n := by
  simp [peek]

@[simp] theorem peek_zero_zero (l : List Nat) : peek l 0 0 = [] := by
  simp [peek]

@[simp] theorem peek_nil (k n : Nat) : peek [] k n = [] := by
  simp [peek]

theorem peek_zero_append (l rest : List Nat) : peek (l ++ rest) 0 l.length = l := by
  simp [peek]

theorem checksum16_loop_append (le : Bool) :
    ∀ (l rest : List Nat) (cs : Nat), l.length % 2 = 0 →
      checksum16_loop le l.length (l ++ rest) cs
        = (0, rest, (checksum16_loop le l.length l cs).2.2)
  | [], rest, cs, _ => by simp [checksum16_loop]
  | [a], _, _, h => by simp at h
  | a :: b :: t, rest, cs, h => by
      have hlen : t.length % 2 = 0 := by simp at h; omega
      have hr : read16 le (a :: b :: t ++ rest) = read16 le (a :: b :: t) := by
        cases le <;> simp [read16]
      show checksum16_loop le (t.length + 2) _ _ = (0, rest, (checksum16_loop le (t.length + 2) _ _).2.2)
      rw [checksum16_loop, checksum16_loop, hr]
      simp only [List.cons_append, List.drop_succ_cons, List.drop_zero]
      exact checksum16_loop_append le t rest _ hlen

theorem checksum16_loop_even_fst (le : Bool) :
    ∀ (l : List Nat) (cs : Nat), l.length % 2 = 0 → (checksum16_loop le l.length l cs).1 = 0
  | [], cs, _ => by simp [checksum16_loop]
  | [a], _, h => by simp at h
  | a :: b :: t, cs, h => by
      have hlen : t.length % 2 = 0 := by simp at h; omega
      show (checksum16_loop le (t.length + 2) _ _).1 = 0
      rw [checksum16_loop]
      simp only [List.drop_succ_cons, List.drop_zero]
      exact checksum16_loop_even_fst le t _ hlen

theorem checksum16_append (le : Bool) (l rest : List Nat) (h : l.length % 2 = 0) :
    checksum16 le (l ++ rest) l.length = checksum16 le l l.length := by
  have h1 := checksum16_loop_append le l rest 0 h
  have h2 := checksum16_loop_even_fst le l 0 h
  unfold checksum16
  rw [h1]
  rcases hh : checksum16_loop le l.length l 0 with ⟨a, b, c⟩
  rw [hh] at h2
  simp only at h2
  subst h2
  simp

@[simp] theorem write16_true (v : Nat) : write16 true v = [v % 256, v / 256 % 256] := rfl

theorem version_ihl_byte (g : Nat) : ((g % 16 + 16 * 4) % 256 / 16 * 16 + 5) % 256 = 69 := by
  omega

@[simp] theorem checksum16_cons20 (le : Bool) (a0 a1 a2 a3 a4 a5 a6 a7 a8 a9 a10 a11 a12 a13 a14 a15 a16 a17 a18 a19 : Nat) (r0 : Nat) (rest : List Nat) :
    checksum16 le (a0 :: a1 :: a2 :: a3 :: a4 :: a5 :: a6 :: a7 :: a8 :: a9 :: a10 :: a11 :: a12 :: a13 :: a14 :: a15 :: a16 :: a17 :: a18 :: a19 :: r0 :: rest) 20 = checksum16 le [a0, a1, a2, a3, a4, a5, a6, a7, a8, a9, a10, a11, a12, a13, a14, a15, a16, a17, a18, a19] 20 :=
  checksum16_append le [a0, a1, a2, a3, a4, a5, a6, a7, a8, a9, a10, a11, a12, a13, a14, a15, a16, a17, a18, a19] (r0 :: rest) (by simp)

theorem checksum16_cons20_append (le : Bool) (a0 a1 a2 a3 a4 a5 a6 a7 a8 a9 a10 a11 a12 a13 a14 a15 a16 a17 a18 a19 : Nat) (rest : List Nat) :
    checksum16 le (a0 :: a1 :: a2 :: a3 :: a4 :: a5 :: a6 :: a7 :: a8 :: a9 :: a10 :: a11 :: a12 :: a13 :: a14 :: a15 :: a16 :: a17 :: a18 :: a19 :: rest) 20 = checksum16 le [a0, a1, a2, a3, a4, a5, a6, a7, a8, a9, a10, a11, a12, a13, a14, a15, a16, a17, a18, a19] 20 :=
  checksum16_append le [a0, a1, a2, a3, a4, a5, a6, a7, a8, a9, a10, a11, a12, a13, a14, a15, a16, a17, a18, a19] rest (by simp)

theorem list_explicit_4 (l : List Nat) (h : l.length = 4) :
    ∃ a0 a1 a2 a3 : Nat, l = [a0, a1, a2, a3] := by
  obtain ⟨a0, l, rfl⟩ := List.exists_cons_of_length_pos (by omega : 0 < l.length)
  simp only [List.length_cons] at h
  obtain ⟨a1, l, rfl⟩ := List.exists_cons_of_length_pos (by omega : 0 < l.length)
  simp only [List.length_cons] at h
  obtain ⟨a2, l, rfl⟩ := List.exists_cons_of_length_pos (by omega : 0 < l.length)
  simp only [List.length_cons] at h
  obtain ⟨a3, l, rfl⟩ := List.exists_cons_of_length_pos (by omega : 0 < l.length)
  simp only [List.length_cons] at h
  have : l = [] := List.length_eq_zero.mp (by omega)
  subst this
  exact ⟨a0, a1, a2, a3, rfl⟩

theorem list_explicit_20 (l : List Nat) (h : l.length = 20) :
    ∃ a0 a1 a2 a3 a4 a5 a6 a7 a8 a9 a10 a11 a12 a13 a14 a15 a16 a17 a18 a19 : Nat, l = [a0, a1, a2, a3, a4, a5, a6, a7, a8, a9, a10, a11, a12, a13, a14, a15, a16, a17, a18, a19] := by
  obtain ⟨a0, l, rfl⟩ := List.exists_cons_of_length_pos (by omega : 0 < l.length)
  simp only [List.length_cons] at h
  obtain ⟨a1, l, rfl⟩ := List.exists_cons_of_length_pos (by omega : 0 < l.length)
  simp only [List.length_cons] at h
  obtain ⟨a2, l, rfl⟩ := List.exists_cons_of_length_pos (by omega : 0 < l.length)
  simp only [List.length_cons] at h
  obtain ⟨a3, l, rfl⟩ := List.exists_cons_of_length_pos (by omega : 0 < l.length)
  simp only [List.length_cons] at h
  obtain ⟨a4, l, rfl⟩ := List.exists_cons_of_length_pos (by omega : 0 < l.length)
  simp only [List.length_cons] at h
  obtain ⟨a5, l, rfl⟩ := List.exists_cons_of_length_pos (by omega : 0 < l.length)
  simp only [List.length_cons] at h
  obtain ⟨a6, l, rfl⟩ := List.exists_cons_of_length_pos (by omega : 0 < l.length)
  simp only [List.length_cons] at h
  obtain ⟨a7, l, rfl⟩ := List.exists_cons_of_length_pos (by omega : 0 < l.length)
  simp only [List.length_cons] at h
  obtain ⟨a8, l, rfl⟩ := List.exists_cons_of_length_pos (by omega : 0 < l.length)
  simp only [List.length_cons] at h
  obtain ⟨a9, l, rfl⟩ := List.exists_cons_of_length_pos (by omega : 0 < l.length)
  simp only [List.length_cons] at h
  obtain ⟨a10, l, rfl⟩ := List.exists_cons_of_length_pos (by omega : 0 < l.length)
  simp only [List.length_cons] at h
  obtain ⟨a11, l, rfl⟩ := List.exists_cons_of_length_pos (by omega : 0 < l.length)
  simp only [List.length_cons] at h
  obtain ⟨a12, l, rfl⟩ := List.exists_cons_of_length_pos (by omega : 0 < l.length)
  simp only [List.length_cons] at h
  obtain ⟨a13, l, rfl⟩ := List.exists_cons_of_length_pos (by omega : 0 < l.length)
  simp only [List.length_cons] at h
  obtain ⟨a14, l, rfl⟩ := List.exists_cons_of_length_pos (by omega : 0 < l.length)
  simp only [List.length_cons] at h
  obtain ⟨a15, l, rfl⟩ := List.exists_cons_of_length_pos (by omega : 0 < l.length)
  simp only [List.length_cons] at h
  obtain ⟨a16, l, rfl⟩ := List.exists_cons_of_length_pos (by omega : 0 < l.length)
  simp only [List.length_cons] at h
  obtain ⟨a17, l, rfl⟩ := List.exists_cons_of_length_pos (by omega : 0 < l.length)
  simp only [List.length_cons] at h
  obtain ⟨a18, l, rfl⟩ := List.exists_cons_of_length_pos (by omega : 0 < l.length)
  simp only [List.length_cons] at h
  obtain ⟨a19, l, rfl⟩ := List.exists_cons_of_length_pos (by omega : 0 < l.length)
  simp only [List.length_cons] at h
  have : l = [] := List.length_eq_zero.mp (by omega)
  subst this
  exact ⟨a0, a1, a2, a3, a4, a5, a6, a7, a8, a9, a10, a11, a12, a13, a14, a15, a16, a17, a18, a19, rfl⟩

theorem peek_zero_of_length {l : List Nat} {n : Nat} (h : l.length = n) : peek l 0 n = l := by
  simp [peek, ← h]

theorem ip_fragment_out_eq (buf : BufArg) (ip : List Nat) (protocol id offset mf : Nat)
    (w : World) (pre g body post : List Nat)
    (hp : (buf.get w).payload = pre ++ g ++ body ++ post) (hg : g.length = 20)
    (hd : (buf.get w).data = pre.length + 20) (hl : (buf.get w).len = body.length)
    (hsrc : w.net_if_ip.length = 4) (hip : ip.length = 4) :
    ip_fragment_out buf ip protocol id offset mf w =
      arp_out (buf.set ⟨body.length + 20, pre.length,
          pre ++ ip_header (body.length + 20) id
            (if mf ≠ 0 then IP_MORE_FRAGMENT ||| offset else offset) protocol w.net_if_ip ip
            ++ body ++ post⟩ w).1 ip
        (buf.set ⟨body.length + 20, pre.length,
          pre ++ ip_header (body.length + 20) id
            (if mf ≠ 0 then IP_MORE_FRAGMENT ||| offset else offset) protocol w.net_if_ip ip
            ++ body ++ post⟩ w).2 := by
  obtain ⟨g0, g1, g2, g3, g4, g5, g6, g7, g8, g9, g10, g11, g12, g13, g14, g15, g16, g17, g18, g19, rfl⟩ := list_explicit_20 g hg
  obtain ⟨s0, s1, s2, s3, hs⟩ := list_explicit_4 _ hsrc
  obtain ⟨i0, i1, i2, i3, rfl⟩ := list_explicit_4 _ hip
  unfold ip_fragment_out
  simp only [buf_add_header, hd, hl, hp, hs, sizeof_ip_hdr_t]
  by_cases hmf : mf = 0
  · simp [hmf, store8, store16, NET_IP_LEN, ip_header, ip_header0,
      IP_VERSION_4, IP_DEFALUT_TTL, version_ihl_byte, checksum16_cons20_append]
  · simp [hmf, store8, store16, NET_IP_LEN, ip_header, ip_header0,
      IP_VERSION_4, IP_DEFALUT_TTL, version_ihl_byte, checksum16_cons20_append]

/-! ## The sum of the words of a buffer -/

theorem host_words_append (le : Bool) :
    ∀ (p q : List Nat), p.length % 2 = 0 → host_words le (p ++ q) = host_words le p ++ host_words le q
  | [], q, _ => by simp [host_words]
  | [a], _, h => by simp at h
  | a :: b :: t, q, h => by
      have hlen : t.length % 2 = 0 := by simp at h; omega
      simp [host_words, host_words_append le t q hlen]

theorem memcpy_split (pre mid post src : List Nat) (h : src.length = mid.length) :
    memcpy (pre ++ mid ++ post) pre.length src = pre ++ src ++ post := by
  simp [memcpy, h, List.take_append, List.drop_append]

theorem split_at (mem : List Nat) (off n : Nat) (h : off + n ≤ mem.length) :
    mem = mem.take off ++ peek mem off n ++ mem.drop (off + n) ∧
      (mem.take off).length = off ∧ (peek mem off n).length = n := by
  refine ⟨?_, by simp; omega, by simp [peek]; omega⟩
  unfold peek
  rw [List.append_assoc, ← List.drop_drop, List.take_append_drop, List.take_append_drop]

theorem read16_write16 (le : Bool) {v : Nat} (h : v ≤ 0xffff) :
    read16 le (write16 le v) = v := by
  cases le <;> simp [read16, write16] <;> omega

theorem write16_bytes (le : Bool) (v : Nat) : ∀ x ∈ write16 le v, x < 256 := by
  intro x hx
  cases le <;> simp [write16] at hx <;> omega

theorem checksum16_le_ffff (le : Bool) (data : List Nat) (len : Nat) :
    checksum16 le data len ≤ 0xffff := by
  unfold checksum16
  split
  exact Nat.le_of_lt_succ (Nat.mod_lt _ (by decide))

/-- The checksum of a buffer whose words sum to `s` besides one aligned field
holding the checksum of the same buffer with that field zero is `0`. -/
theorem oc_add_complement (s : Nat) : oc (s + (0xffff - oc s)) = 0xffff := by
  have h := oc_le s
  rw [← oc_oc_add]
  have : oc s + (0xffff - oc s) = 0xffff := by omega
  rw [this]
  rfl

/-- Filling an aligned checksum field: with an even-length `A` before the
field and an even-length `B` after it, the buffer that holds in the field the
checksum computed with the field zero has checksum `0`. -/
theorem checksum16_filled (le : Bool) (A B rest rest' : List Nat)
    (hlenA : A.length % 2 = 0) (hlenB : B.length % 2 = 0)
    (hAb : ∀ x ∈ A, x < 256) (hBb : ∀ x ∈ B, x < 256) :
    checksum16 le
      (A ++ write16 le (checksum16 le (A ++ [0, 0] ++ B ++ rest') (A ++ [0, 0] ++ B).length)
        ++ B ++ rest)
      (A ++ [0, 0] ++ B).length = 0 := by
  have hb0 : ∀ x ∈ A ++ [0, 0] ++ B, x < 256 := by
    intro x hx
    simp at hx
    rcases hx with hx | hx | hx
    · exact hAb x hx
    · omega
    · exact hBb x hx
  have hev0 : (A ++ [0, 0] ++ B).length % 2 = 0 := by simp; omega
  rw [checksum16_even le _ rest' hev0 hb0]
  generalize hc : 0xffff - oc (host_words le (A ++ [0, 0] ++ B)).sum = c
  have hc' : c ≤ 0xffff := by omega
  have hlen1 : (A ++ [0, 0] ++ B).length = (A ++ write16 le c ++ B).length := by
    cases le <;> simp [write16]
  rw [hlen1]
  have hb1 : ∀ x ∈ A ++ write16 le c ++ B, x < 256 := by
    intro x hx
    simp only [List.mem_append] at hx
    rcases hx with (hx | hx) | hx
    · exact hAb x hx
    · exact write16_bytes le c x hx
    · exact hBb x hx
  have hev1 : (A ++ write16 le c ++ B).length % 2 = 0 := by rw [← hlen1]; exact hev0
  rw [checksum16_even le _ rest hev1 hb1]
  have hwl : (write16 le c).length % 2 = 0 := by cases le <;> simp [write16]
  have hs1 : (host_words le (A ++ write16 le c ++ B)).sum
      = (host_words le (A ++ [0, 0] ++ B)).sum + c := by
    rw [List.append_assoc, List.append_assoc, host_words_append le A _ hlenA,
      host_words_append le A _ hlenA, host_words_append le _ B hwl,
      host_words_append le [0, 0] B (by simp)]
    have e1 : host_words le (write16 le c) = [c] := by
      have := read16_write16 le hc'
      cases le <;> simp [host_words, write16] at this ⊢ <;> simpa [read16] using this
    have e2 : host_words le [0, 0] = [0] := by cases le <;> simp [host_words, read16]
    rw [e1, e2]
    simp
    omega
  rw [hs1, ← hc, oc_add_complement]

/-- C2. Round-trip validation law: in an even-length byte buffer (whatever
follows it in memory) with a 16-bit-aligned field at byte offset `2 * k`, set
the field to zero, compute `checksum16` and store it in the field in host byte
order; `checksum16` of the resulting buffer is `0`. -/
theorem checksum16_round_trip (le : Bool) (buf rest : List Nat) (k : Nat)
    (heven : buf.length % 2 = 0) (hbytes : ∀ x ∈ buf, x < 256) (hk : 2 * k + 2 ≤ buf.length) :
    checksum16 le
      (memcpy (memcpy buf (2 * k) [0, 0]) (2 * k)
        (write16 le (checksum16 le (memcpy buf (2 * k) [0, 0] ++ rest) buf.length)) ++ rest)
      buf.length = 0 := by
  obtain ⟨hsplit, hA, hM⟩ := split_at buf (2 * k) 2 hk
  generalize buf.take (2 * k) = A at hsplit hA
  generalize peek buf (2 * k) 2 = M at hsplit hM
  generalize buf.drop (2 * k + 2) = B at hsplit
  subst hsplit
  have hAb : ∀ x ∈ A, x < 256 := fun x hx => hbytes x (by simp [hx])
  have hBb : ∀ x ∈ B, x < 256 := fun x hx => hbytes x (by simp [hx])
  have hlenB : B.length % 2 = 0 := by simp at heven; omega
  have hlenA : A.length % 2 = 0 := by omega
  have hz : memcpy (A ++ M ++ B) (2 * k) [0, 0] = A ++ [0, 0] ++ B := by
    rw [← hA]; exact memcpy_split A M B [0, 0] (by simp [hM])
  have hlen0 : (A ++ M ++ B).length = (A ++ [0, 0] ++ B).length := by simp [hM]; omega
  rw [hz, hlen0]
  have hw : ∀ c, memcpy (A ++ [0, 0] ++ B) (2 * k) (write16 le c) = A ++ write16 le c ++ B := by
    intro c
    rw [← hA]; exact memcpy_split A [0, 0] B _ (by cases le <;> simp [write16])
  rw [hw]
  exact checksum16_filled le A B rest rest hlenA hlenB hAb hBb

theorem checksum16_round_trip_witness :
    checksum16 true
      (memcpy (memcpy [0x45, 0, 0, 0x1c, 0xab, 0xcd] (2 * 1) [0, 0]) (2 * 1)
        (write16 true (checksum16 true
          (memcpy [0x45, 0, 0, 0x1c, 0xab, 0xcd] (2 * 1) [0, 0] ++ [9])
          [0x45, 0, 0, 0x1c, 0xab, 0xcd].length)) ++ [9])
      [0x45, 0, 0, 0x1c, 0xab, 0xcd].length = 0 :=
  checksum16_round_trip true [0x45, 0, 0, 0x1c, 0xab, 0xcd] [9] 1 (by decide) (by decide)
    (by decide)

/-! ## The send path -/

theorem BufArg.get_set (buf : BufArg) (b : buf_t) (w : World) :
    (buf.set b w).1.get (buf.set b w).2 = b := by
  cases buf <;> rfl

theorem BufArg.set_trace (buf : BufArg) (b : buf_t) (w : World) :
    (buf.set b w).2.trace = w.trace ∧ (buf.set b w).2.ip_id = w.ip_id
      ∧ (buf.set b w).2.net_if_ip = w.net_if_ip ∧ (buf.set b w).2.udp_table = w.udp_table
      ∧ (buf.set b w).2.arp_table = w.arp_table ∧ (buf.set b w).2.arp_buf = w.arp_buf
      ∧ (buf.set b w).2.net_if_mac = w.net_if_mac := by
  cases buf <;> simp [BufArg.set]

theorem arp_req_spec (ip : List Nat) (w : World) :
    ∃ e, (arp_req ip w).trace = w.trace ++ [e] ∧ e.is_ethernet_out = true
      ∧ (arp_req ip w).ip_id = w.ip_id ∧ (arp_req ip w).net_if_ip = w.net_if_ip
      ∧ (arp_req ip w).udp_table = w.udp_table ∧ (arp_req ip w).arp_table = w.arp_table
      ∧ (arp_req ip w).arp_buf = w.arp_buf := by
  simp [arp_req, ethernet_out, World.emit, Event.is_ethernet_out]

/-- What `arp_out` leaves behind: the hand-off itself, then at most packets
for the link layer; the configuration, the UDP table and `ip_id` are kept. -/
theorem arp_out_spec (buf : BufArg) (ip : List Nat) (w : World) :
    ∃ rest, (arp_out buf ip w).2.trace = w.trace ++ Event.arp_out (buf.get w).bytes ip :: rest
      ∧ rest.all Event.is_ethernet_out = true
      ∧ (arp_out buf ip w).2.ip_id = w.ip_id ∧ (arp_out buf ip w).2.net_if_ip = w.net_if_ip
      ∧ (arp_out buf ip w).2.udp_table = w.udp_table := by
  unfold arp_out
  simp only [World.emit]
  split
  · split
    · obtain ⟨e, h1, h2, h3, h4, h5, _⟩ := arp_req_spec ip
        { w with trace := w.trace ++ [Event.arp_out (buf.get w).bytes ip],
                 arp_buf := map_set w.arp_buf ip
                  (buf.get { w with trace := w.trace ++ [Event.arp_out (buf.get w).bytes ip] }) }
      refine ⟨[e], ?_, by simp [h2], ?_, ?_, ?_⟩
      · simpa using h1
      · simpa using h3
      · simpa using h4
      · simpa using h5
    · exact ⟨[], by simp, by simp, rfl, rfl, rfl⟩
  · rename_i mac _
    exact ⟨[Event.ethernet_out
      (buf.get { w with trace := w.trace ++ [Event.arp_out (buf.get w).bytes ip] }).bytes
      mac NET_PROTOCOL_IP], by simp [ethernet_out, World.emit], by simp [Event.is_ethernet_out],
      by simp [ethernet_out, World.emit], by simp [ethernet_out, World.emit],
      by simp [ethernet_out, World.emit]⟩

theorem BUF_MAX_LEN_eq : BUF_MAX_LEN = 131325 := rfl

/-- A freshly initialised local buffer of `n` bytes has room for an IP header
before the packet and for padding after it. -/
theorem buf_init_uninit (n : Nat) (hn : n + 20 ≤ 65662) :
    ∃ pre g post, buf_init buf_t.uninit n
        = ⟨n, pre.length + 20, pre ++ g ++ List.replicate n 0 ++ post⟩
      ∧ g.length = 20 ∧ 2 ≤ post.length := by
  have hB := BUF_MAX_LEN_eq
  refine ⟨List.replicate (BUF_MAX_LEN / 2 - n - 20) 0, List.replicate 20 0,
    List.replicate (BUF_MAX_LEN - BUF_MAX_LEN / 2) 0, ?_, by simp, by simp; omega⟩
  have hlen : buf_t.uninit.payload.length = BUF_MAX_LEN := List.length_replicate _ _
  have hpay : buf_t.uninit.payload
      = List.replicate (BUF_MAX_LEN / 2 - n - 20) 0 ++ List.replicate 20 0
          ++ List.replicate n 0 ++ List.replicate (BUF_MAX_LEN - BUF_MAX_LEN / 2) 0 := by
    have e : buf_t.uninit.payload = List.replicate BUF_MAX_LEN 0 := rfl
    rw [← List.replicate_add, ← List.replicate_add, ← List.replicate_add, e]
    exact congrArg (fun k => List.replicate k 0) (by omega)
  unfold buf_init
  rw [hlen, if_neg (by omega), ← hpay]
  have hd : BUF_MAX_LEN / 2 - n
      = (List.replicate (BUF_MAX_LEN / 2 - n - 20) 0).length + 20 := by
    simp only [List.length_replicate]
    omega
  rw [← hd]

theorem ip_header_length (total_len id flags_fragment protocol : Nat) (src dst : List Nat)
    (hs : src.length = 4) (hd : dst.length = 4) :
    (ip_header total_len id flags_fragment protocol src dst).length = 20 := by
  obtain ⟨s0, s1, s2, s3, rfl⟩ := list_explicit_4 _ hs
  obtain ⟨i0, i1, i2, i3, rfl⟩ := list_explicit_4 _ hd
  simp [ip_header, ip_header0]

theorem bytes_mk (pre body post : List Nat) (n : Nat) (h : body.length = n) :
    buf_t.bytes ⟨n, pre.length, pre ++ body ++ post⟩ = body := by
  subst h
  simp [buf_t.bytes, peek]

/-- A datagram of at most 1480 bytes leaves `ip_out` as one IP datagram: the
header of `ip_fragment_out` with offset 0 and no flag, then the bytes. -/
theorem ip_out_single (buf : BufArg) (ip : List Nat) (protocol : Nat) (w : World)
    (pre g body post : List Nat)
    (hp : (buf.get w).payload = pre ++ g ++ body ++ post) (hg : g.length = 20)
    (hd : (buf.get w).data = pre.length + 20) (hl : (buf.get w).len = body.length)
    (hsrc : w.net_if_ip.length = 4) (hip : ip.length = 4) (hle : body.length ≤ 1480) :
    ∃ r rest, ip_out buf ip protocol w = some r
      ∧ r.2.trace = w.trace
          ++ Event.arp_out (ip_header (body.length + 20) w.ip_id 0 protocol w.net_if_ip ip ++ body) ip
            :: rest
      ∧ rest.all Event.is_ethernet_out = true
      ∧ r.2.ip_id = (w.ip_id + 1) % 2 ^ 16 ∧ r.2.net_if_ip = w.net_if_ip
      ∧ r.2.udp_table = w.udp_table := by
  unfold ip_out
  rw [if_pos (by omega)]
  rw [ip_fragment_out_eq buf ip protocol w.ip_id 0 0 w pre g body post hp hg hd hl hsrc hip]
  simp only [ne_eq, not_true_eq_false, if_false]
  generalize hb : (⟨body.length + 20, pre.length,
    pre ++ ip_header (body.length + 20) w.ip_id 0 protocol w.net_if_ip ip ++ body ++ post⟩ : buf_t)
    = b'
  obtain ⟨rest, h1, h2, h3, h4, h5⟩ := arp_out_spec (buf.set b' w).1 ip (buf.set b' w).2
  obtain ⟨t1, t2, t3, t4, _⟩ := BufArg.set_trace buf b' w
  rw [BufArg.get_set] at h1
  refine ⟨_, rest, rfl, ?_, h2, ?_, ?_, ?_⟩
  · simp only [h1, t1]
    have hb' : b'.bytes
        = ip_header (body.length + 20) w.ip_id 0 protocol w.net_if_ip ip ++ body := by
      rw [← hb, List.append_assoc pre _ body]
      exact bytes_mk pre _ post _
        (by rw [List.length_append, ip_header_length _ _ _ _ _ _ hsrc hip]; omega)
    rw [hb']
  · simp only [h3, t2]
  · simp only [h4, t3]
  · simp only [h5, t4]

/-! ## ICMP unreachable -/

theorem list_explicit_28 (l : List Nat) (h : l.length = 28) :
    ∃ a0 a1 a2 a3 a4 a5 a6 a7 a8 a9 a10 a11 a12 a13 a14 a15 a16 a17 a18 a19 a20 a21 a22 a23 a24 a25 a26 a27 : Nat, l = [a0, a1, a2, a3, a4, a5, a6, a7, a8, a9, a10, a11, a12, a13, a14, a15, a16, a17, a18, a19, a20, a21, a22, a23, a24, a25, a26, a27] := by
  obtain ⟨a0, l, rfl⟩ := List.exists_cons_of_length_pos (by omega : 0 < l.length)
  simp only [List.length_cons] at h
  obtain ⟨a1, l, rfl⟩ := List.exists_cons_of_length_pos (by omega : 0 < l.length)
  simp only [List.length_cons] at h
  obtain ⟨a2, l, rfl⟩ := List.exists_cons_of_length_pos (by omega : 0 < l.length)
  simp only [List.length_cons] at h
  obtain ⟨a3, l, rfl⟩ := List.exists_cons_of_length_pos (by omega : 0 < l.length)
  simp only [List.length_cons] at h
  obtain ⟨a4, l, rfl⟩ := List.exists_cons_of_length_pos (by omega : 0 < l.length)
  simp only [List.length_cons] at h
  obtain ⟨a5, l, rfl⟩ := List.exists_cons_of_length_pos (by omega : 0 < l.length)
  simp only [List.length_cons] at h
  obtain ⟨a6, l, rfl⟩ := List.exists_cons_of_length_pos (by omega : 0 < l.length)
  simp only [List.length_cons] at h
  obtain ⟨a7, l, rfl⟩ := List.exists_cons_of_length_pos (by omega : 0 < l.length)
  simp only [List.length_cons] at h
  obtain ⟨a8, l, rfl⟩ := List.exists_cons_of_length_pos (by omega : 0 < l.length)
  simp only [List.length_cons] at h
  obtain ⟨a9, l, rfl⟩ := List.exists_cons_of_length_pos (by omega : 0 < l.length)
  simp only [List.length_cons] at h
  obtain ⟨a10, l, rfl⟩ := List.exists_cons_of_length_pos (by omega : 0 < l.length)
  simp only [List.length_cons] at h
  obtain ⟨a11, l, rfl⟩ := List.exists_cons_of_length_pos (by omega : 0 < l.length)
  simp only [List.length_cons] at h
  obtain ⟨a12, l, rfl⟩ := List.exists_cons_of_length_pos (by omega : 0 < l.length)
  simp only [List.length_cons] at h
  obtain ⟨a13, l, rfl⟩ := List.exists_cons_of_length_pos (by omega : 0 < l.length)
  simp only [List.length_cons] at h
  obtain ⟨a14, l, rfl⟩ := List.exists_cons_of_length_pos (by omega : 0 < l.length)
  simp only [List.length_cons] at h
  obtain ⟨a15, l, rfl⟩ := List.exists_cons_of_length_pos (by omega : 0 < l.length)
  simp only [List.length_cons] at h
  obtain ⟨a16, l, rfl⟩ := List.exists_cons_of_length_pos (by omega : 0 < l.length)
  simp only [List.length_cons] at h
  obtain ⟨a17, l, rfl⟩ := List.exists_cons_of_length_pos (by omega : 0 < l.length)
  simp only [List.length_cons] at h
  obtain ⟨a18, l, rfl⟩ := List.exists_cons_of_length_pos (by omega : 0 < l.length)
  simp only [List.length_cons] at h
  obtain ⟨a19, l, rfl⟩ := List.exists_cons_of_length_pos (by omega : 0 < l.length)
  simp only [List.length_cons] at h
  obtain ⟨a20, l, rfl⟩ := List.exists_cons_of_length_pos (by omega : 0 < l.length)
  simp only [List.length_cons] at h
  obtain ⟨a21, l, rfl⟩ := List.exists_cons_of_length_pos (by omega : 0 < l.length)
  simp only [List.length_cons] at h
  obtain ⟨a22, l, rfl⟩ := List.exists_cons_of_length_pos (by omega : 0 < l.length)
  simp only [List.length_cons] at h
  obtain ⟨a23, l, rfl⟩ := List.exists_cons_of_length_pos (by omega : 0 < l.length)
  simp only [List.length_cons] at h
  obtain ⟨a24, l, rfl⟩ := List.exists_cons_of_length_pos (by omega : 0 < l.length)
  simp only [List.length_cons] at h
  obtain ⟨a25, l, rfl⟩ := List.exists_cons_of_length_pos (by omega : 0 < l.length)
  simp only [List.length_cons] at h
  obtain ⟨a26, l, rfl⟩ := List.exists_cons_of_length_pos (by omega : 0 < l.length)
  simp only [List.length_cons] at h
  obtain ⟨a27, l, rfl⟩ := List.exists_cons_of_length_pos (by omega : 0 < l.length)
  simp only [List.length_cons] at h
  have : l = [] := List.length_eq_zero.mp (by omega)
  subst this
  exact ⟨a0, a1, a2, a3, a4, a5, a6, a7, a8, a9, a10, a11, a12, a13, a14, a15, a16, a17, a18, a19, a20, a21, a22, a23, a24, a25, a26, a27, rfl⟩

theorem checksum16_cons36_append (le : Bool) (a0 a1 a2 a3 a4 a5 a6 a7 a8 a9 a10 a11 a12 a13 a14 a15 a16 a17 a18 a19 a20 a21 a22 a23 a24 a25 a26 a27 a28 a29 a30 a31 a32 a33 a34 a35 : Nat) (rest : List Nat) :
    checksum16 le (a0 :: a1 :: a2 :: a3 :: a4 :: a5 :: a6 :: a7 :: a8 :: a9 :: a10 :: a11 :: a12 :: a13 :: a14 :: a15 :: a16 :: a17 :: a18 :: a19 :: a20 :: a21 :: a22 :: a23 :: a24 :: a25 :: a26 :: a27 :: a28 :: a29 :: a30 :: a31 :: a32 :: a33 :: a34 :: a35 :: rest) 36 = checksum16 le [a0, a1, a2, a3, a4, a5, a6, a7, a8, a9, a10, a11, a12, a13, a14, a15, a16, a17, a18, a19, a20, a21, a22, a23, a24, a25, a26, a27, a28, a29, a30, a31, a32, a33, a34, a35] 36 :=
  checksum16_append le [a0, a1, a2, a3, a4, a5, a6, a7, a8, a9, a10, a11, a12, a13, a14, a15, a16, a17, a18, a19, a20, a21, a22, a23, a24, a25, a26, a27, a28, a29, a30, a31, a32, a33, a34, a35] rest (by simp)

theorem peek_length (mem : List Nat) (off n : Nat) (h : off + n ≤ mem.length) :
    (peek mem off n).length = n := by
  simp [peek]; omega

/-- The message `icmp_unreachable` sends: one IP datagram with protocol ICMP
for `src_ip`, carrying the 36-byte message built around the first 28 bytes at
`recv_buf->data`. -/
theorem icmp_unreachable_spec (recv_buf : buf_t) (src_ip : List Nat) (code : Nat) (w : World)
    (hroom : recv_buf.data + 28 ≤ recv_buf.payload.length)
    (hsrc : w.net_if_ip.length = 4) (hip : src_ip.length = 4) :
    ∃ w' rest, icmp_unreachable recv_buf src_ip code w = some w'
      ∧ w'.trace = w.trace
          ++ Event.arp_out (ip_header 56 w.ip_id 0 NET_PROTOCOL_ICMP w.net_if_ip src_ip
              ++ icmp_unreach_msg code (peek recv_buf.payload recv_buf.data 28)) src_ip
            :: rest
      ∧ rest.all Event.is_ethernet_out = true
      ∧ w'.ip_id = (w.ip_id + 1) % 2 ^ 16 ∧ w'.net_if_ip = w.net_if_ip
      ∧ w'.udp_table = w.udp_table := by
  obtain ⟨pre, g, post, hinit, hg, hpost⟩ := buf_init_uninit 36 (by omega)
  obtain ⟨o0, o1, o2, o3, o4, o5, o6, o7, o8, o9, o10, o11, o12, o13, o14, o15, o16, o17, o18,
    o19, o20, o21, o22, o23, o24, o25, o26, o27, ho⟩ :=
    list_explicit_28 _ (peek_length recv_buf.payload recv_buf.data 28 hroom)
  obtain ⟨g0, g1, g2, g3, g4, g5, g6, g7, g8, g9, g10, g11, g12, g13, g14, g15, g16, g17, g18,
    g19, rfl⟩ := list_explicit_20 g hg
  unfold icmp_unreachable
  have e36 : sizeof_icmp_hdr_t + sizeof_ip_hdr_t + 8 = 36 := rfl
  rw [e36]
  generalize buf_init buf_t.uninit 36 = txbuf at hinit ⊢
  subst hinit
  simp only [sizeof_icmp_hdr_t, sizeof_ip_hdr_t, Nat.reduceAdd, ho]
  generalize hba : BufArg.loc _ = ba
  have hlen : (icmp_unreach_msg code [o0, o1, o2, o3, o4, o5, o6, o7, o8, o9, o10, o11, o12, o13,
      o14, o15, o16, o17, o18, o19, o20, o21, o22, o23, o24, o25, o26, o27]).length = 36 := by
    simp [icmp_unreach_msg, icmp_unreach_msg0]
  have hp : (ba.get w).payload = pre ++ [g0, g1, g2, g3, g4, g5, g6, g7, g8, g9, g10, g11, g12,
      g13, g14, g15, g16, g17, g18, g19]
      ++ icmp_unreach_msg code [o0, o1, o2, o3, o4, o5, o6, o7, o8, o9, o10, o11, o12, o13,
      o14, o15, o16, o17, o18, o19, o20, o21, o22, o23, o24, o25, o26, o27] ++ post := by
    rw [← hba]
    simp [BufArg.get, store8, store16, icmp_unreach_msg, icmp_unreach_msg0, ICMP_TYPE_UNREACH,
      Nat.add_assoc, List.replicate, checksum16_cons36_append]
  obtain ⟨r, rest, h1, h2, h3, h4, h5, h6⟩ := ip_out_single ba src_ip NET_PROTOCOL_ICMP w pre _ _
    post hp (by simp) (by rw [← hba]; rfl) (by rw [← hba, hlen]; rfl) hsrc hip (by omega)
  rw [hlen] at h2
  exact ⟨r.2, rest, by simp [h1], h2, h3, h4, h5, h6⟩

/-! ## ip_in -/

/-- A buffer whose packet lies inside its array, split at its first 20 bytes. -/
theorem buf_split_hdr (buf : buf_t) (hwf : buf.data + buf.len ≤ buf.payload.length)
    (hlen : 20 ≤ buf.len) :
    ∃ pre rest, buf = ⟨buf.len, pre.length, pre ++ ip_hdr_of buf ++ rest⟩
      ∧ (ip_hdr_of buf).length = 20 ∧ buf.len ≤ 20 + rest.length := by
  obtain ⟨h1, h2, h3⟩ := split_at buf.payload buf.data 20 (by omega)
  refine ⟨buf.payload.take buf.data, buf.payload.drop (buf.data + 20), ?_, h3, ?_⟩
  · rw [h2]
    unfold ip_hdr_of
    rw [← h1]
  · simp only [List.length_drop]
    omega

theorem remove_padding_min (len d tl : Nat) (p : List Nat) :
    (if tl < len then buf_remove_padding ⟨len, d, p⟩ (len - tl) else ⟨len, d, p⟩)
      = ⟨min tl len, d, p⟩ := by
  unfold buf_remove_padding
  split_ifs with h1 h2
  · simp at h2; omega
  · simp
    omega
  · simp
    omega

@[simp] theorem buf_remove_header_payload (b : buf_t) (n : Nat) :
    (buf_remove_header b n).payload = b.payload := by
  unfold buf_remove_header
  split <;> rfl

/-- The body of `ip_in` on a buffer of at least 20 bytes whose header bytes
are below 256. -/
theorem ip_in_unfold (len : Nat) (pre hdr rest : List Nat) (src_mac : List Nat) (w : World)
    (hlen : 20 ≤ len) (hh : hdr.length = 20) (hb : ∀ x ∈ hdr, x < 256)
    (hip : w.net_if_ip.length = 4) :
    ip_in ⟨len, pre.length, pre ++ hdr ++ rest⟩ src_mac w =
      if ip_version hdr ≠ 4 then some w
      else if ip_checksum_ok hdr = false then some w
      else if ip_dst hdr ≠ w.net_if_ip then some w
      else if ip_protocol hdr = NET_PROTOCOL_ICMP ∨ ip_protocol hdr = NET_PROTOCOL_UDP then
        net_in (buf_remove_header ⟨min (ip_total_len hdr) len, pre.length, pre ++ hdr ++ rest⟩ 20)
          (ip_protocol hdr) (ip_src hdr) w
      else
        icmp_unreachable ⟨min (ip_total_len hdr) len, pre.length, pre ++ hdr ++ rest⟩
          (ip_src hdr) ICMP_CODE_PROTOCOL_UNREACH w := by
  obtain ⟨h0, h1, h2, h3, h4, h5, h6, h7, h8, h9, h10, h11, h12, h13, h14, h15, h16, h17, h18,
    h19, rfl⟩ := list_explicit_20 hdr hh
  obtain ⟨s0, s1, s2, s3, hs⟩ := list_explicit_4 _ hip
  have b10 : h10 < 256 := hb h10 (by simp)
  have b11 : h11 < 256 := hb h11 (by simp)
  have b2 : h2 < 256 := hb h2 (by simp)
  have b3 : h3 < 256 := hb h3 (by simp)
  have e10 : (h10 + 256 * h11) % 256 = h10 := by omega
  have e11 : (h10 + 256 * h11) / 256 % 256 = h11 := by omega
  have e65 : swap16 65535 = 65535 := rfl
  have etl : ¬ (65535 < h2 + 256 * h3) := by omega
  unfold ip_in
  simp only [sizeof_ip_hdr_t, NET_IP_LEN, IP_VERSION_4]
  rw [if_neg (by omega)]
  simp only [store16, write16_true, load16_append_length, load16_append_add, load8_append_length,
    load8_append_add, memcpy_append_add, memcpy_append_length, List.append_assoc,
    List.cons_append, List.nil_append, load16_cons_zero, load16_cons_succ, load8_cons_zero,
    load8_cons_succ, memcpy_cons_succ, memcpy_zero_cons, memcpy_zero_nil, e10, e11, e65, etl,
    if_false, remove_padding_min, List.drop_append, List.drop_left, Nat.zero_mod, Nat.zero_div,
    checksum16_cons20_append, peek_append_add, peek_append_length, peek_cons_succ,
    peek_zero_cons, peek_zero_zero, ip_version, ip_checksum_ok, ip_dst, ip_protocol, ip_src,
    ip_total_len, hs, memcmp_ne, List.take_succ_cons, List.take_zero, buf_remove_header_payload]
  by_cases c1 : h0 / 16 % 16 = 4
  · by_cases c2 : h10 + 256 * h11 = checksum16 true
        [h0, h1, h2, h3, h4, h5, h6, h7, h8, h9, 0, 0, h12, h13, h14, h15, h16, h17, h18, h19] 20
    · by_cases c3 : [s0, s1, s2, s3] = [h16, h17, h18, h19]
      · simp [c1, c2, c3]
      · have c3' : ¬ [h16, h17, h18, h19] = [s0, s1, s2, s3] := fun h => c3 h.symm
        simp [c1, c2, c3, c3']
    · simp [c1, c2]
  · simp [c1]

/-! ## udp.c -/

theorem list_explicit_prefix_2 (l : List Nat) (h : 2 ≤ l.length) :
    ∃ a0 a1 : Nat, ∃ t : List Nat, l = a0 :: a1 :: t := by
  obtain ⟨a0, l, rfl⟩ := List.exists_cons_of_length_pos (by omega : 0 < l.length)
  simp only [List.length_cons] at h
  obtain ⟨a1, l, rfl⟩ := List.exists_cons_of_length_pos (by omega : 0 < l.length)
  simp only [List.length_cons] at h
  exact ⟨a0, a1, l, rfl⟩

theorem list_explicit_prefix_8 (l : List Nat) (h : 8 ≤ l.length) :
    ∃ a0 a1 a2 a3 a4 a5 a6 a7 : Nat, ∃ t : List Nat, l = a0 :: a1 :: a2 :: a3 :: a4 :: a5 :: a6 :: a7 :: t := by
  obtain ⟨a0, l, rfl⟩ := List.exists_cons_of_length_pos (by omega : 0 < l.length)
  simp only [List.length_cons] at h
  obtain ⟨a1, l, rfl⟩ := List.exists_cons_of_length_pos (by omega : 0 < l.length)
  simp only [List.length_cons] at h
  obtain ⟨a2, l, rfl⟩ := List.exists_cons_of_length_pos (by omega : 0 < l.length)
  simp only [List.length_cons] at h
  obtain ⟨a3, l, rfl⟩ := List.exists_cons_of_length_pos (by omega : 0 < l.length)
  simp only [List.length_cons] at h
  obtain ⟨a4, l, rfl⟩ := List.exists_cons_of_length_pos (by omega : 0 < l.length)
  simp only [List.length_cons] at h
  obtain ⟨a5, l, rfl⟩ := List.exists_cons_of_length_pos (by omega : 0 < l.length)
  simp only [List.length_cons] at h
  obtain ⟨a6, l, rfl⟩ := List.exists_cons_of_length_pos (by omega : 0 < l.length)
  simp only [List.length_cons] at h
  obtain ⟨a7, l, rfl⟩ := List.exists_cons_of_length_pos (by omega : 0 < l.length)
  simp only [List.length_cons] at h
  exact ⟨a0, a1, a2, a3, a4, a5, a6, a7, l, rfl⟩

theorem buf_add_padding_one (len d : Nat) (p : List Nat) (h : d + len + 1 < p.length) :
    buf_add_padding ⟨len, d, p⟩ 1 = ⟨len + 1, d, memcpy p (d + len) [0]⟩ := by
  unfold buf_add_padding
  rw [if_neg (by simp only [ge_iff_le, not_le]; exact h)]
  rfl

/-- The checksum `udp_checksum` computes for a datagram of at least 8 bytes
that follows a 20-byte IP header in memory, and the buffer it leaves: the
same packet, with one zero byte written after an odd-length datagram. -/
theorem udp_checksum_eq (pre iph udp post a b : List Nat)
    (hiph : iph.length = 20) (hudp : 8 ≤ udp.length) (hpost : 2 ≤ post.length)
    (hbi : ∀ x ∈ iph, x < 256) (hbu : ∀ x ∈ udp, x < 256)
    (hzero : peek udp 6 2 = [0, 0]) :
    udp_checksum ⟨udp.length, pre.length + 20, pre ++ iph ++ udp ++ post⟩ a b
      = (udp_checksum_of iph udp,
          ⟨udp.length, pre.length + 20,
            pre ++ iph ++ udp ++ (if udp.length % 2 = 1 then 0 :: post.tail else post)⟩) := by
  obtain ⟨h0, h1, h2, h3, h4, h5, h6, h7, h8, h9, h10, h11, h12, h13, h14, h15, h16, h17, h18,
    h19, rfl⟩ := list_explicit_20 iph hiph
  obtain ⟨u0, u1, u2, u3, u4, u5, u6, u7, pl, rfl⟩ := list_explicit_prefix_8 udp hudp
  obtain ⟨q0, q1, post, rfl⟩ := list_explicit_prefix_2 post hpost
  have b9 : h9 < 256 := hbi h9 (by simp)
  have b4 : u4 < 256 := hbu u4 (by simp)
  have b5 : u5 < 256 := hbu u5 (by simp)
  have e9 : h9 % 256 = h9 := by omega
  have e4 : (u4 + 256 * u5) % 256 = u4 := by omega
  have e5 : (u4 + 256 * u5) / 256 % 256 = u5 := by omega
  simp at hzero
  obtain ⟨rfl, rfl⟩ := hzero
  have hlt : ¬ (pre.length + 20 < 12) := by omega
  have hsub : pre.length + 20 - 12 = pre.length + 8 := by omega
  have hsub2 : pre.length + 20 - 20 = pre.length := by omega
  have hL : (u0 :: u1 :: u2 :: u3 :: u4 :: u5 :: 0 :: 0 :: pl).length = pl.length + 8 := by simp
  rw [hL]
  unfold udp_checksum
  simp only [sizeof_udp_peso_hdr_t, sizeof_ip_hdr_t, NET_IP_LEN, buf_add_header, hlt, if_false,
    hsub, hsub2]
  have hrm : ¬ (pl.length + 20 < 12) := by omega
  have hrm2 : pl.length + 20 - 12 = pl.length + 8 := by omega
  by_cases hodd : (pl.length + 8) % 2 = 1
  · have hodd' : (pl.length + 8 + 12) % 2 = 1 := by omega
    have hpad : ¬ (pre.length + 8 + (pl.length + 8 + 12) + 1 ≥
        (pre ++ [h0, h1, h2, h3, h4, h5, h6, h7, h8, h9, h10, h11, h12, h13, h14, h15, h16, h17,
          h18, h19] ++ u0 :: u1 :: u2 :: u3 :: u4 :: u5 :: 0 :: 0 :: pl ++ q0 :: q1 :: post).length) := by
      simp
      omega
    have hoff : pre.length + 8 + (pl.length + 8 + 12) = pre.length + (pl.length + 28) := by omega
    have hrm3 : ¬ (pl.length + 8 + 12 + 1 < 12) := by omega
    have hrm4 : pl.length + 8 + 12 + 1 - 12 = pl.length + 9 := by omega
    have hrm5 : ¬ (pl.length + 9 < 1) := by omega
    have hrm6 : pl.length + 9 - 1 = pl.length + 8 := by omega
    simp only [hodd', if_true]
    simp only [store8, store16, write16_true, load16_append_length, load16_append_add,
      load8_append_length, load8_append_add, memcpy_append_add, memcpy_append_length,
      List.append_assoc, List.cons_append, List.nil_append, load16_cons_zero, load16_cons_succ,
      load8_cons_zero, load8_cons_succ, memcpy_cons_succ, memcpy_zero_cons, memcpy_zero_nil, e9,
      e4, e5, List.drop_append, List.drop_left, Nat.zero_mod, Nat.zero_div, peek_append_add,
      peek_append_length, peek_cons_succ, peek_zero_cons, peek_zero_zero, List.take_succ_cons,
      List.take_zero, List.drop_succ_cons, List.drop_zero, Nat.add_assoc, Nat.reduceAdd]
    rw [buf_add_padding_one _ _ _ (by simp only [List.length_append, List.length_cons]; omega)]
    simp only [hoff, memcpy_append_add, memcpy_cons_succ,
      memcpy_append_length, memcpy_zero_cons, memcpy_zero_nil, List.drop_append,
      List.drop_succ_cons, List.drop_zero, buf_remove_header, buf_remove_padding, hrm3, hrm4,
      hrm5, hrm6, hodd, if_true, if_false, List.tail_cons, Nat.add_assoc, Nat.reduceAdd]
    have hX : udp_checksum_input
        [h0, h1, h2, h3, h4, h5, h6, h7, h8, h9, h10, h11, h12, h13, h14, h15, h16, h17, h18, h19]
        (u0 :: u1 :: u2 :: u3 :: u4 :: u5 :: 0 :: 0 :: pl)
        = h12 :: h13 :: h14 :: h15 :: h16 :: h17 :: h18 :: h19 :: 0 :: h9 :: u4 :: u5
            :: u0 :: u1 :: u2 :: u3 :: u4 :: u5 :: 0 :: 0 :: (pl ++ [0]) := by
      simp [udp_checksum_input, udp_pseudo_header, store16, hodd]
    have hXl : (h12 :: h13 :: h14 :: h15 :: h16 :: h17 :: h18 :: h19 :: 0 :: h9 :: u4 :: u5
            :: u0 :: u1 :: u2 :: u3 :: u4 :: u5 :: 0 :: 0 :: (pl ++ [0])).length
            = pl.length + 21 := by
      simp
    have hc := checksum16_append true _ (q1 :: post) (by rw [hXl]; omega :
      (h12 :: h13 :: h14 :: h15 :: h16 :: h17 :: h18 :: h19 :: 0 :: h9 :: u4 :: u5
            :: u0 :: u1 :: u2 :: u3 :: u4 :: u5 :: 0 :: 0 :: (pl ++ [0])).length % 2 = 0)
    rw [hXl] at hc
    simp only [List.cons_append, List.append_assoc, List.nil_append] at hc
    rw [udp_checksum_of, hX, hXl, hc]
  · have hodd' : ¬ (pl.length + 8 + 12) % 2 = 1 := by omega
    simp only [hodd', if_false]
    simp only [store8, store16, write16_true, load16_append_length, load16_append_add, load8_append_length,
      load8_append_add, memcpy_append_add, memcpy_append_length, List.append_assoc,
      List.cons_append, List.nil_append, load16_cons_zero, load16_cons_succ, load8_cons_zero,
      load8_cons_succ, memcpy_cons_succ, memcpy_zero_cons, memcpy_zero_nil, e9, e4, e5,
      List.drop_append, List.drop_left, Nat.zero_mod, Nat.zero_div,
      peek_append_add, peek_append_length, peek_cons_succ,
      peek_zero_cons, peek_zero_zero, List.take_succ_cons, List.take_zero, Nat.add_assoc, Nat.reduceAdd,
      List.drop_succ_cons, List.drop_zero, buf_remove_header, hrm, if_false, hrm2, hodd]
    have hX : udp_checksum_input
        [h0, h1, h2, h3, h4, h5, h6, h7, h8, h9, h10, h11, h12, h13, h14, h15, h16, h17, h18, h19]
        (u0 :: u1 :: u2 :: u3 :: u4 :: u5 :: 0 :: 0 :: pl)
        = h12 :: h13 :: h14 :: h15 :: h16 :: h17 :: h18 :: h19 :: 0 :: h9 :: u4 :: u5
            :: u0 :: u1 :: u2 :: u3 :: u4 :: u5 :: 0 :: 0 :: pl := by
      simp [udp_checksum_input, udp_pseudo_header, store16, hodd]
    have hXl : (h12 :: h13 :: h14 :: h15 :: h16 :: h17 :: h18 :: h19 :: 0 :: h9 :: u4 :: u5
            :: u0 :: u1 :: u2 :: u3 :: u4 :: u5 :: 0 :: 0 :: pl).length = pl.length + 20 := by
      simp
    have hc := checksum16_append true _ (q0 :: q1 :: post) (by rw [hXl]; omega :
      (h12 :: h13 :: h14 :: h15 :: h16 :: h17 :: h18 :: h19 :: 0 :: h9 :: u4 :: u5
            :: u0 :: u1 :: u2 :: u3 :: u4 :: u5 :: 0 :: 0 :: pl).length % 2 = 0)
    rw [hXl] at hc
    simp only [List.cons_append] at hc
    rw [udp_checksum_of, hX, hXl, hc]

/-- The body of `udp_in` on a datagram of at least 8 bytes that follows a
20-byte IP header in memory. -/
theorem udp_in_unfold (pre iph udp post src_ip : List Nat) (w : World)
    (hiph : iph.length = 20) (hudp : 8 ≤ udp.length) (hpost : 2 ≤ post.length)
    (hbi : ∀ x ∈ iph, x < 256) (hbu : ∀ x ∈ udp, x < 256) :
    udp_in ⟨udp.length, pre.length + 20, pre ++ iph ++ udp ++ post⟩ src_ip w =
      if load16 udp 6 ≠ udp_checksum_of iph udp then some w
      else
        match map_get w.udp_table (swap16 (load16 udp 2)) with
        | none =>
            icmp_unreachable ⟨udp.length + 20, pre.length,
              pre ++ iph ++ store16 udp 6 0
                ++ (if udp.length % 2 = 1 then 0 :: post.tail else post)⟩
              src_ip ICMP_CODE_PORT_UNREACH w
        | some handler =>
            some (w.emit (Event.handler handler (udp.drop 8) (udp.length - 8) src_ip
              (swap16 (load16 udp 0)))) := by
  obtain ⟨h0, h1, h2, h3, h4, h5, h6, h7, h8, h9, h10, h11, h12, h13, h14, h15, h16, h17, h18,
    h19, rfl⟩ := list_explicit_20 iph hiph
  obtain ⟨u0, u1, u2, u3, u4, u5, u6, u7, pl, rfl⟩ := list_explicit_prefix_8 udp hudp
  have key := udp_checksum_eq pre
    [h0, h1, h2, h3, h4, h5, h6, h7, h8, h9, h10, h11, h12, h13, h14, h15, h16, h17, h18, h19]
    (u0 :: u1 :: u2 :: u3 :: u4 :: u5 :: 0 :: 0 :: pl) post src_ip w.net_if_ip (by simp)
    (by simp) hpost hbi
    (by
      intro x hx
      simp only [List.mem_cons] at hx
      rcases hx with hx | hx | hx | hx | hx | hx | hx | hx | hx
      · exact hbu x (by simp [hx])
      · exact hbu x (by simp [hx])
      · exact hbu x (by simp [hx])
      · exact hbu x (by simp [hx])
      · exact hbu x (by simp [hx])
      · exact hbu x (by simp [hx])
      · omega
      · omega
      · exact hbu x (by simp [hx]))
    (by simp)
  have hof : udp_checksum_of
      [h0, h1, h2, h3, h4, h5, h6, h7, h8, h9, h10, h11, h12, h13, h14, h15, h16, h17, h18, h19]
      (u0 :: u1 :: u2 :: u3 :: u4 :: u5 :: 0 :: 0 :: pl)
      = udp_checksum_of
      [h0, h1, h2, h3, h4, h5, h6, h7, h8, h9, h10, h11, h12, h13, h14, h15, h16, h17, h18, h19]
      (u0 :: u1 :: u2 :: u3 :: u4 :: u5 :: u6 :: u7 :: pl) := by
    simp [udp_checksum_of, udp_checksum_input, udp_pseudo_header, store16]
  rw [hof] at key
  simp only [List.length_cons, List.append_assoc, List.cons_append, List.nil_append,
    Nat.add_assoc, Nat.reduceAdd] at key
  unfold udp_in
  simp only [sizeof_udp_hdr_t, sizeof_ip_hdr_t, List.length_cons, Nat.add_assoc, Nat.reduceAdd]
  rw [if_neg (by omega)]
  simp only [store16, write16_true, load16_append_length, load16_append_add, load8_append_length,
    load8_append_add, memcpy_append_add, memcpy_append_length, List.append_assoc,
    List.cons_append, List.nil_append, load16_cons_zero, load16_cons_succ, load8_cons_zero,
    load8_cons_succ, memcpy_cons_succ, memcpy_zero_cons, memcpy_zero_nil, Nat.zero_mod,
    Nat.zero_div, Nat.add_assoc, Nat.reduceAdd, key]
  have hah : ¬ (pre.length + 20 < 20) := by omega
  have hah2 : pre.length + 20 - 20 = pre.length := by omega
  have hrh : ¬ (pl.length + 8 < 8) := by omega
  have hrh2 : pl.length + 8 - 8 = pl.length := by omega
  by_cases hck : u6 + 256 * u7 ≠ udp_checksum_of
      [h0, h1, h2, h3, h4, h5, h6, h7, h8, h9, h10, h11, h12, h13, h14, h15, h16, h17, h18, h19]
      (u0 :: u1 :: u2 :: u3 :: u4 :: u5 :: u6 :: u7 :: pl)
  · rw [if_pos hck, if_pos hck]
  · rw [if_neg hck, if_neg hck]
    cases map_get w.udp_table (swap16 (u2 + 256 * u3)) with
    | none =>
        simp only [buf_add_header, hah, hah2, if_false, Nat.add_assoc, Nat.reduceAdd]
    | some handler =>
        simp only [buf_remove_header, hrh, hrh2, if_false, buf_t.bytes, peek_append_add,
          peek_cons_succ, Nat.add_assoc, Nat.reduceAdd, load16_append_add, load16_cons_succ,
          load16_cons_zero, List.drop_succ_cons, List.drop_zero, peek_zero_append]

/-! ## Claims on the receive path of IP -/

theorem buf_cases_hdr (buf : buf_t) (hwf : buf.data + buf.len ≤ buf.payload.length)
    (hlen : 20 ≤ buf.len) :
    ∃ pre hdr rest, buf = ⟨buf.len, pre.length, pre ++ hdr ++ rest⟩ ∧ ip_hdr_of buf = hdr
      ∧ hdr.length = 20 ∧ buf.payload = pre ++ hdr ++ rest ∧ buf.data = pre.length := by
  obtain ⟨pre, rest, h1, h2, _⟩ := buf_split_hdr buf hwf hlen
  refine ⟨pre, ip_hdr_of buf, rest, h1, rfl, h2, ?_, ?_⟩
  · exact congrArg buf_t.payload h1
  · exact congrArg buf_t.data h1

/-- C4. `ip_in` drops a received buffer, leaving the state of the stack as it
was (nothing dispatched to ICMP or UDP, no ICMP response, nothing sent), when
the buffer is shorter than 20 bytes, or the version field is not 4, or the
stored header checksum differs from `checksum16` of the 20 header bytes with
the checksum field zeroed, or the destination address is not this host's. -/
theorem ip_in_drops (buf : buf_t) (src_mac : List Nat) (w : World)
    (hwf : buf.data + buf.len ≤ buf.payload.length)
    (hb : ∀ x ∈ ip_hdr_of buf, x < 256) (hip : w.net_if_ip.length = 4)
    (h : buf.len < 20 ∨ ip_version (ip_hdr_of buf) ≠ 4
        ∨ ip_checksum_ok (ip_hdr_of buf) = false ∨ ip_dst (ip_hdr_of buf) ≠ w.net_if_ip) :
    ip_in buf src_mac w = some w := by
  by_cases hlen : buf.len < 20
  · unfold ip_in
    rw [if_pos (by simpa [sizeof_ip_hdr_t] using hlen)]
  · obtain ⟨pre, hdr, rest, hbuf, hhdr, hh, _, _⟩ := buf_cases_hdr buf hwf (by omega)
    rw [hhdr] at h hb
    have key := ip_in_unfold buf.len pre hdr rest src_mac w (by omega) hh hb hip
    rw [← hbuf] at key
    rw [key]
    rcases h with h | h | h | h
    · exact absurd h hlen
    · rw [if_pos h]
    · split_ifs <;> rfl
    · split_ifs <;> rfl

theorem ip_in_drops_witness :
    ip_in { truncated_datagram with payload := memcpy truncated_datagram.payload 10 [0, 0] }
      [] host_b = some host_b :=
  ip_in_drops { truncated_datagram with payload := memcpy truncated_datagram.payload 10 [0, 0] }
    [] host_b (by decide) (by decide) (by decide) (Or.inr (Or.inr (Or.inl (by decide))))

/-- C5. A received buffer of 28 bytes whose total-length field says 1000 is not
dropped: `ip_in` dispatches its 8 payload bytes to the upper layer (ICMP). -/
theorem ip_in_total_len_not_enforced :
    ip_total_len (ip_hdr_of truncated_datagram) = 1000 ∧ truncated_datagram.len = 28 ∧
    ip_in truncated_datagram [] host_b
      = some { host_b with
          trace := [Event.net_in [0, 0, 0xff, 0xff, 0, 0, 0, 0] NET_PROTOCOL_ICMP [10, 0, 0, 1]] } := by
  decide

/-- The message `icmp_unreachable` builds around 28 bytes: type 3, the code,
a checksum that verifies, zero identifier and sequence number, and the 28
bytes unchanged. -/
theorem icmp_unreach_msg_props (code : Nat) (orig : List Nat) (hlen : orig.length = 28)
    (hb : ∀ x ∈ orig, x < 256) (hcode : code < 256) :
    (icmp_unreach_msg code orig).length = 36
      ∧ load8 (icmp_unreach_msg code orig) 0 = ICMP_TYPE_UNREACH
      ∧ load8 (icmp_unreach_msg code orig) 1 = code
      ∧ peek (icmp_unreach_msg code orig) 4 4 = [0, 0, 0, 0]
      ∧ checksum16 true (icmp_unreach_msg code orig) 36 = 0
      ∧ peek (icmp_unreach_msg code orig) 8 28 = orig := by
  have hc : code % 256 = code := Nat.mod_eq_of_lt hcode
  have hck := checksum16_filled true [3, code] ([0, 0, 0, 0] ++ orig) [] [] (by simp)
    (by simp [hlen])
    (by intro x hx; simp at hx; omega)
    (by
      intro x hx
      simp only [List.mem_append, List.mem_cons, List.mem_singleton] at hx
      rcases hx with (hx | hx | hx | hx | hx) | hx
      · omega
      · omega
      · omega
      · omega
      · simp at hx
      · exact hb x hx)
  have hl : ([3, code] ++ [0, 0] ++ ([0, 0, 0, 0] ++ orig)).length = 36 := by simp [hlen]
  rw [hl] at hck
  simp only [List.append_nil, List.cons_append, List.nil_append, write16_true] at hck
  refine ⟨by simp [icmp_unreach_msg, icmp_unreach_msg0, hlen], ?_, ?_, ?_, ?_, ?_⟩
  · simp [icmp_unreach_msg, icmp_unreach_msg0, ICMP_TYPE_UNREACH]
  · simp [icmp_unreach_msg, icmp_unreach_msg0, hc]
  · simp [icmp_unreach_msg, icmp_unreach_msg0]
  · simpa [icmp_unreach_msg, icmp_unreach_msg0, hc] using hck
  · simp [icmp_unreach_msg, icmp_unreach_msg0, ← hlen, peek]

theorem peek_take (mem : List Nat) (off n m : Nat) (h : m ≤ n) :
    (peek mem off n).take m = peek mem off m := by
  simp [peek, List.take_take, Nat.min_eq_left h]

theorem ip_in_accepts_iff (buf : buf_t) (w : World) :
    ip_in_accepts buf w = true ↔
      20 ≤ buf.len ∧ ip_version (ip_hdr_of buf) = 4 ∧ ip_checksum_ok (ip_hdr_of buf) = true
        ∧ ip_dst (ip_hdr_of buf) = w.net_if_ip := by
  simp [ip_in_accepts, and_assoc]

/-- C9. A received datagram that passes the checks of `ip_in` and whose
protocol is neither ICMP nor UDP is dispatched to no upper layer; `ip_in`
hands exactly one IP datagram to ARP (what follows in the trace are packets
for the link layer only), addressed to the datagram's source address, with
protocol ICMP and total length 56, carrying a 36-byte message: type 3
(destination unreachable), code 2 (protocol unreachable), identifier and
sequence number zero, a checksum over which `checksum16` of the message is 0,
and as its first 20 embedded bytes the received IP header, checksum field
included. -/
theorem ip_in_protocol_unreachable (buf : buf_t) (src_mac : List Nat) (w : World)
    (hwf : buf.data + buf.len ≤ buf.payload.length)
    (hroom : buf.data + 28 ≤ buf.payload.length)
    (hb : ∀ x ∈ peek buf.payload buf.data 28, x < 256)
    (hip : w.net_if_ip.length = 4)
    (hacc : ip_in_accepts buf w = true)
    (hproto : ip_protocol (ip_hdr_of buf) ≠ NET_PROTOCOL_ICMP
      ∧ ip_protocol (ip_hdr_of buf) ≠ NET_PROTOCOL_UDP) :
    ∃ w' rest, ip_in buf src_mac w = some w'
      ∧ w'.trace = w.trace
          ++ Event.arp_out
              (ip_header 56 w.ip_id 0 NET_PROTOCOL_ICMP w.net_if_ip (ip_src (ip_hdr_of buf))
                ++ icmp_unreach_msg ICMP_CODE_PROTOCOL_UNREACH (peek buf.payload buf.data 28))
              (ip_src (ip_hdr_of buf))
            :: rest
      ∧ rest.all Event.is_ethernet_out = true
      ∧ (icmp_unreach_msg ICMP_CODE_PROTOCOL_UNREACH (peek buf.payload buf.data 28)).length = 36
      ∧ load8 (icmp_unreach_msg ICMP_CODE_PROTOCOL_UNREACH (peek buf.payload buf.data 28)) 0
          = ICMP_TYPE_UNREACH
      ∧ load8 (icmp_unreach_msg ICMP_CODE_PROTOCOL_UNREACH (peek buf.payload buf.data 28)) 1
          = ICMP_CODE_PROTOCOL_UNREACH
      ∧ peek (icmp_unreach_msg ICMP_CODE_PROTOCOL_UNREACH (peek buf.payload buf.data 28)) 4 4
          = [0, 0, 0, 0]
      ∧ checksum16 true
          (icmp_unreach_msg ICMP_CODE_PROTOCOL_UNREACH (peek buf.payload buf.data 28)) 36 = 0
      ∧ peek (icmp_unreach_msg ICMP_CODE_PROTOCOL_UNREACH (peek buf.payload buf.data 28)) 8 20
          = ip_hdr_of buf := by
  obtain ⟨hlen, hver, hck, hdst⟩ := (ip_in_accepts_iff buf w).mp hacc
  have horig : (peek buf.payload buf.data 28).length = 28 := peek_length _ _ _ hroom
  have hhdr_take : (peek buf.payload buf.data 28).take 20 = ip_hdr_of buf :=
    peek_take _ _ 28 20 (by omega)
  have hbh : ∀ x ∈ ip_hdr_of buf, x < 256 := by
    intro x hx
    rw [← hhdr_take] at hx
    exact hb x (List.mem_of_mem_take hx)
  obtain ⟨m1, m2, m3, m4, m5, m6⟩ := icmp_unreach_msg_props ICMP_CODE_PROTOCOL_UNREACH
    (peek buf.payload buf.data 28) horig hb (by decide)
  obtain ⟨pre, hdr, rest, hbuf, hhdr, hh, hpay, hdata⟩ := buf_cases_hdr buf hwf hlen
  have key := ip_in_unfold buf.len pre hdr rest src_mac w hlen hh (hhdr ▸ hbh) hip
  rw [← hbuf] at key
  rw [hhdr] at hver hck hdst hproto
  rw [if_neg (by simpa using hver), if_neg (by simp [hck]), if_neg (by simpa using hdst),
    if_neg (by simpa using hproto)] at key
  have hsrc : (ip_src hdr).length = 4 := by
    obtain ⟨h0, h1, h2, h3, h4, h5, h6, h7, h8, h9, h10, h11, h12, h13, h14, h15, h16, h17, h18,
      h19, rfl⟩ := list_explicit_20 hdr hh
    simp [ip_src]
  obtain ⟨w', rest', e1, e2, e3, _⟩ := icmp_unreachable_spec
    ⟨min (ip_total_len hdr) buf.len, pre.length, pre ++ hdr ++ rest⟩ (ip_src hdr)
    ICMP_CODE_PROTOCOL_UNREACH w (by rw [← hpay, ← hdata]; exact hroom) hip hsrc
  simp only at e2
  rw [← hpay, ← hdata] at e2
  refine ⟨w', rest', ?_, ?_, e3, m1, m2, m3, m4, m5, ?_⟩
  · rw [key, e1]
  · rw [hhdr]; exact e2
  · rw [← peek_take _ 8 28 20 (by omega), m6, hhdr_take]

theorem ip_in_protocol_unreachable_witness :
    ∃ w' rest, ip_in tcp_datagram [] host_b = some w'
      ∧ w'.trace = host_b.trace
          ++ Event.arp_out
              (ip_header 56 host_b.ip_id 0 NET_PROTOCOL_ICMP host_b.net_if_ip
                  (ip_src (ip_hdr_of tcp_datagram))
                ++ icmp_unreach_msg ICMP_CODE_PROTOCOL_UNREACH
                  (peek tcp_datagram.payload tcp_datagram.data 28))
              (ip_src (ip_hdr_of tcp_datagram))
            :: rest
      ∧ rest.all Event.is_ethernet_out = true
      ∧ (icmp_unreach_msg ICMP_CODE_PROTOCOL_UNREACH
          (peek tcp_datagram.payload tcp_datagram.data 28)).length = 36
      ∧ load8 (icmp_unreach_msg ICMP_CODE_PROTOCOL_UNREACH
          (peek tcp_datagram.payload tcp_datagram.data 28)) 0 = ICMP_TYPE_UNREACH
      ∧ load8 (icmp_unreach_msg ICMP_CODE_PROTOCOL_UNREACH
          (peek tcp_datagram.payload tcp_datagram.data 28)) 1 = ICMP_CODE_PROTOCOL_UNREACH
      ∧ peek (icmp_unreach_msg ICMP_CODE_PROTOCOL_UNREACH
          (peek tcp_datagram.payload tcp_datagram.data 28)) 4 4 = [0, 0, 0, 0]
      ∧ checksum16 true (icmp_unreach_msg ICMP_CODE_PROTOCOL_UNREACH
          (peek tcp_datagram.payload tcp_datagram.data 28)) 36 = 0
      ∧ peek (icmp_unreach_msg ICMP_CODE_PROTOCOL_UNREACH
          (peek tcp_datagram.payload tcp_datagram.data 28)) 8 20 = ip_hdr_of tcp_datagram :=
  ip_in_protocol_unreachable tcp_datagram [] host_b (by decide) (by decide) (by decide)
    (by decide) (by decide) (by decide)

/-! ## Claims on udp_in -/

theorem udp_in_accepts_iff (iph udp : List Nat) :
    udp_in_accepts iph udp = true ↔ 8 ≤ udp.length ∧ load16 udp 6 = udp_checksum_of iph udp := by
  simp [udp_in_accepts]

theorem swap16_load16 (l : List Nat) (k : Nat) (h0 : load8 l k < 256) (h1 : load8 l (k + 1) < 256) :
    swap16 (load16 l k) = 256 * load8 l k + load8 l (k + 1) := by
  have e : load16 l k = load8 l k + 256 * load8 l (k + 1) := by
    simp [load16, load8, read16, Nat.add_comm]
  rw [e]
  unfold swap16
  omega

theorem load8_lt (l : List Nat) (k : Nat) (hb : ∀ x ∈ l, x < 256) : load8 l k < 256 := by
  unfold load8
  by_cases h : k < l.length
  · rw [List.getD_eq_getElem _ _ h]
    exact hb _ (List.getElem_mem h)
  · rw [List.getD_eq_default _ _ (by omega)]
    omega

/-- C7. A UDP datagram of at least 8 bytes with a correct checksum whose
destination port (the header field converted from big-endian) has a registered
handler makes `udp_in` add exactly one event: that handler called with the
bytes after the 8-byte header, their number, the source address it was passed
and the source port (the header field converted from big-endian); no ICMP
message is sent. -/
theorem udp_in_delivers (pre iph udp post src_ip : List Nat) (w : World) (handler : Nat)
    (hiph : iph.length = 20) (hpost : 2 ≤ post.length)
    (hbi : ∀ x ∈ iph, x < 256) (hbu : ∀ x ∈ udp, x < 256)
    (hacc : udp_in_accepts iph udp = true)
    (hport : map_get w.udp_table (256 * load8 udp 2 + load8 udp 3) = some handler) :
    udp_in ⟨udp.length, pre.length + 20, pre ++ iph ++ udp ++ post⟩ src_ip w
      = some (w.emit (Event.handler handler (udp.drop 8) (udp.length - 8) src_ip
          (256 * load8 udp 0 + load8 udp 1))) := by
  obtain ⟨hlen, hck⟩ := (udp_in_accepts_iff iph udp).mp hacc
  rw [udp_in_unfold pre iph udp post src_ip w hiph hlen hpost hbi hbu, if_neg (by simpa using hck),
    swap16_load16 udp 2 (load8_lt _ _ hbu) (load8_lt _ _ hbu),
    swap16_load16 udp 0 (load8_lt _ _ hbu) (load8_lt _ _ hbu), hport]

theorem udp_in_delivers_witness :
    udp_in ⟨dns_datagram.length, [0xee].length + 20,
        [0xee] ++ dns_ip_header ++ dns_datagram ++ [0xee, 0xee]⟩ [10, 0, 0, 1] host_b_dns
      = some (host_b_dns.emit (Event.handler 99 (dns_datagram.drop 8) (dns_datagram.length - 8)
          [10, 0, 0, 1] (256 * load8 dns_datagram 0 + load8 dns_datagram 1))) :=
  udp_in_delivers [0xee] dns_ip_header dns_datagram [0xee, 0xee] [10, 0, 0, 1] host_b_dns 99
    (by decide) (by decide) (by decide) (by decide) (by decide) (by decide)

/-- What `udp_in` does with an accepted datagram whose destination port has
no handler: one IP datagram for ARP, addressed to `src_ip`, with the 36-byte
port-unreachable message built around the IP header and the first 8 bytes of
the datagram as `udp_in` left them, the checksum field zero. -/
theorem udp_in_port_unreachable (pre iph udp post src_ip : List Nat) (w : World)
    (hiph : iph.length = 20) (hpost : 2 ≤ post.length)
    (hbi : ∀ x ∈ iph, x < 256) (hbu : ∀ x ∈ udp, x < 256)
    (hsrc : w.net_if_ip.length = 4) (hip : src_ip.length = 4)
    (hacc : udp_in_accepts iph udp = true)
    (hport : map_get w.udp_table (256 * load8 udp 2 + load8 udp 3) = none) :
    ∃ w' rest,
      udp_in ⟨udp.length, pre.length + 20, pre ++ iph ++ udp ++ post⟩ src_ip w = some w'
      ∧ w'.trace = w.trace
          ++ Event.arp_out (ip_header 56 w.ip_id 0 NET_PROTOCOL_ICMP w.net_if_ip src_ip
              ++ icmp_unreach_msg ICMP_CODE_PORT_UNREACH (iph ++ peek udp 0 6 ++ [0, 0])) src_ip
            :: rest
      ∧ rest.all Event.is_ethernet_out = true := by
  obtain ⟨hlen, hck⟩ := (udp_in_accepts_iff iph udp).mp hacc
  rw [udp_in_unfold pre iph udp post src_ip w hiph hlen hpost hbi hbu, if_neg (by simpa using hck),
    swap16_load16 udp 2 (load8_lt _ _ hbu) (load8_lt _ _ hbu), hport]
  simp only
  obtain ⟨w', rest', e1, e2, e3, _⟩ := icmp_unreachable_spec
    ⟨udp.length + 20, pre.length,
      pre ++ iph ++ store16 udp 6 0 ++ (if udp.length % 2 = 1 then 0 :: post.tail else post)⟩
    src_ip ICMP_CODE_PORT_UNREACH w
    (by
      obtain ⟨u0, u1, u2, u3, u4, u5, u6, u7, pl, rfl⟩ := list_explicit_prefix_8 udp hlen
      simp [store16, hiph]
      omega) hsrc hip
  have hpeek : peek (pre ++ iph ++ store16 udp 6 0
      ++ (if udp.length % 2 = 1 then 0 :: post.tail else post)) pre.length 28
      = iph ++ peek udp 0 6 ++ [0, 0] := by
    obtain ⟨h0, h1, h2, h3, h4, h5, h6, h7, h8, h9, h10, h11, h12, h13, h14, h15, h16, h17, h18,
      h19, rfl⟩ := list_explicit_20 iph hiph
    obtain ⟨u0, u1, u2, u3, u4, u5, u6, u7, pl, rfl⟩ := list_explicit_prefix_8 udp hlen
    simp [store16]
  simp only [hpeek] at e2
  exact ⟨w', rest', e1, e2, e3⟩

/-- C8. On the datagram `dns_datagram`, received with checksum bytes 0xe2,
0xcc for a port without handler, `udp_in` emits one port-unreachable message
whose embedded UDP header ends in 0, 0: the 28 embedded bytes are not the
bytes as received. -/
theorem udp_in_unreachable_embeds_zeroed_checksum :
    ∃ w' rest,
      udp_in ⟨dns_datagram.length, [0xee].length + 20,
        [0xee] ++ dns_ip_header ++ dns_datagram ++ [0xee, 0xee]⟩ [10, 0, 0, 1] host_b = some w'
      ∧ w'.trace = host_b.trace
          ++ Event.arp_out (ip_header 56 host_b.ip_id 0 NET_PROTOCOL_ICMP host_b.net_if_ip
                [10, 0, 0, 1]
              ++ icmp_unreach_msg ICMP_CODE_PORT_UNREACH
                (dns_ip_header ++ [0x04, 0xd2, 0, 53, 0, 11] ++ [0, 0])) [10, 0, 0, 1]
            :: rest
      ∧ rest.all Event.is_ethernet_out = true
      ∧ peek (dns_ip_header ++ dns_datagram) 0 28
          = dns_ip_header ++ [0x04, 0xd2, 0, 53, 0, 11] ++ [0xe2, 0xcc] := by
  obtain ⟨w', rest, h1, h2, h3⟩ := udp_in_port_unreachable [0xee] dns_ip_header dns_datagram
    [0xee, 0xee] [10, 0, 0, 1] host_b (by decide) (by decide) (by decide) (by decide)
    (by decide) (by decide) (by decide) (by decide)
  exact ⟨w', rest, h1, h2, h3, by decide⟩

/-- Changing one byte of an even-length buffer changes the sum of its words
in one term: the byte counts once or 256 times, the rest stays. -/
theorem host_words_set (le : Bool) :
    ∀ (l : List Nat) (k : Nat), l.length % 2 = 0 → k < l.length →
      ∃ R wt, (wt = 1 ∨ wt = 256) ∧ (host_words le l).sum = wt * l.getD k 0 + R
        ∧ ∀ v, (host_words le (l.set k v)).sum = wt * v + R
  | [], k, _, hk => by simp at hk
  | [a], _, h, _ => by simp at h
  | a :: b :: t, 0, _, _ => by
      cases le
      · exact ⟨b + (host_words false t).sum, 256, Or.inr rfl,
          by simp [host_words, read16]; omega, by intro v; simp [host_words, read16]; omega⟩
      · exact ⟨256 * b + (host_words true t).sum, 1, Or.inl rfl,
          by simp [host_words, read16]; omega, by intro v; simp [host_words, read16]; omega⟩
  | a :: b :: t, 1, _, _ => by
      cases le
      · exact ⟨256 * a + (host_words false t).sum, 1, Or.inl rfl,
          by simp [host_words, read16]; omega, by intro v; simp [host_words, read16]; omega⟩
      · exact ⟨a + (host_words true t).sum, 256, Or.inr rfl,
          by simp [host_words, read16]; omega, by intro v; simp [host_words, read16]; omega⟩
  | a :: b :: t, k + 2, h, hk => by
      have hlen : t.length % 2 = 0 := by simp at h; omega
      obtain ⟨R, wt, hwt, h1, h2⟩ := host_words_set le t k hlen (by simp at hk; omega)
      refine ⟨read16 le [a, b] + R, wt, hwt, ?_, ?_⟩
      · simp only [host_words, List.sum_cons, List.getD_cons_succ, h1]
        omega
      · intro v
        simp only [List.set_cons_succ, host_words, List.sum_cons, h2 v]
        omega

theorem oc_ne_of_byte (R wt x v : Nat) (hwt : wt = 1 ∨ wt = 256) (hx : x < 256) (hv : v < 256)
    (hne : v ≠ x) : oc (wt * v + R) ≠ oc (wt * x + R) := by
  unfold oc
  rcases hwt with rfl | rfl <;> split_ifs <;> omega

/-- Replacing one byte of an even-length buffer by a different byte changes
its checksum. -/
theorem checksum16_set_ne (le : Bool) (l : List Nat) (k v : Nat) (heven : l.length % 2 = 0)
    (hb : ∀ x ∈ l, x < 256) (hk : k < l.length) (hv : v < 256) (hne : v ≠ l.getD k 0) :
    checksum16 le (l.set k v) l.length ≠ checksum16 le l l.length := by
  obtain ⟨R, wt, hwt, h1, h2⟩ := host_words_set le l k heven hk
  have hx : l.getD k 0 < 256 := by
    rw [List.getD_eq_getElem _ _ hk]
    exact hb _ (List.getElem_mem hk)
  have hb' : ∀ x ∈ l.set k v, x < 256 := by
    intro x hx'
    rcases List.mem_or_eq_of_mem_set hx' with h | h
    · exact hb x h
    · omega
  have e1 := checksum16_even le l [] heven hb
  have e2 := checksum16_even le (l.set k v) [] (by simpa using heven) hb'
  simp only [List.append_nil, List.length_set] at e1 e2
  rw [e1, e2, h1, h2 v]
  have := oc_ne_of_byte R wt (l.getD k 0) v hwt hx hv hne
  have := oc_le (wt * v + R)
  have := oc_le (wt * l.getD k 0 + R)
  omega

/-- The bytes the UDP checksum covers, for an explicit header and datagram. -/
theorem udp_checksum_input_explicit
    (h0 h1 h2 h3 h4 h5 h6 h7 h8 h9 h10 h11 h12 h13 h14 h15 h16 h17 h18 h19 : Nat)
    (u0 u1 u2 u3 u4 u5 u6 u7 : Nat) (pl : List Nat) :
    udp_checksum_input
        [h0, h1, h2, h3, h4, h5, h6, h7, h8, h9, h10, h11, h12, h13, h14, h15, h16, h17, h18, h19]
        (u0 :: u1 :: u2 :: u3 :: u4 :: u5 :: u6 :: u7 :: pl)
      = [h12, h13, h14, h15, h16, h17, h18, h19, 0, h9, u4, u5, u0, u1, u2, u3, u4, u5, 0, 0]
          ++ pl ++ (if (pl.length + 8) % 2 = 1 then [0] else []) := by
  simp [udp_checksum_input, udp_pseudo_header, store16]

/-- C6. If `udp_in` accepts a UDP datagram (at least 8 bytes, checksum field
equal to the recomputed pseudo-header checksum), then the datagram with any
single payload byte (any position from 8 on, the last byte of an odd-length
datagram included) replaced by a different byte fails the check, and `udp_in`
drops it leaving the state of the stack as it was: no handler is called and no
ICMP message is sent. -/
theorem udp_in_corrupt_payload_dropped (pre iph udp post src_ip : List Nat) (w : World)
    (i v : Nat) (hiph : iph.length = 20) (hpost : 2 ≤ post.length)
    (hbi : ∀ x ∈ iph, x < 256) (hbu : ∀ x ∈ udp, x < 256)
    (hacc : udp_in_accepts iph udp = true)
    (hi : 8 ≤ i) (hi' : i < udp.length) (hv : v < 256) (hne : v ≠ udp.getD i 0) :
    udp_in_accepts iph (udp.set i v) = false
      ∧ udp_in ⟨(udp.set i v).length, pre.length + 20, pre ++ iph ++ udp.set i v ++ post⟩
          src_ip w = some w := by
  obtain ⟨hlen, hck⟩ := (udp_in_accepts_iff iph udp).mp hacc
  have hbu' : ∀ x ∈ udp.set i v, x < 256 := by
    intro x hx'
    rcases List.mem_or_eq_of_mem_set hx' with h | h
    · exact hbu x h
    · omega
  have hmis : load16 (udp.set i v) 6 ≠ udp_checksum_of iph (udp.set i v) := by
    obtain ⟨h0, h1, h2, h3, h4, h5, h6, h7, h8, h9, h10, h11, h12, h13, h14, h15, h16, h17, h18,
      h19, rfl⟩ := list_explicit_20 iph hiph
    obtain ⟨u0, u1, u2, u3, u4, u5, u6, u7, pl, rfl⟩ := list_explicit_prefix_8 udp hlen
    obtain ⟨j, rfl⟩ : ∃ j, i = j + 8 := ⟨i - 8, by omega⟩
    have hj : j < pl.length := by simp at hi'; omega
    simp only [List.set_cons_succ, List.getD_cons_succ] at hne ⊢
    rw [show load16 (u0 :: u1 :: u2 :: u3 :: u4 :: u5 :: u6 :: u7 :: pl.set j v) 6
        = load16 (u0 :: u1 :: u2 :: u3 :: u4 :: u5 :: u6 :: u7 :: pl) 6 by simp, hck]
    unfold udp_checksum_of
    rw [udp_checksum_input_explicit, udp_checksum_input_explicit]
    simp only [List.length_set]
    generalize hpad : (if (pl.length + 8) % 2 = 1 then [0] else []) = pad
    have hpadb : ∀ x ∈ pad, x < 256 := by
      intro x hx
      rw [← hpad] at hx
      split_ifs at hx <;> simp at hx
      omega
    have hpadl : (pl.length + pad.length) % 2 = 0 := by
      rw [← hpad]
      split_ifs <;> simp <;> omega
    have hset : [h12, h13, h14, h15, h16, h17, h18, h19, 0, h9, u4, u5, u0, u1, u2, u3, u4, u5,
        0, 0] ++ pl.set j v ++ pad
        = ([h12, h13, h14, h15, h16, h17, h18, h19, 0, h9, u4, u5, u0, u1, u2, u3, u4, u5,
        0, 0] ++ pl ++ pad).set (j + 20) v := by
      simp [List.set_append, hj]
    have hlen' : ([h12, h13, h14, h15, h16, h17, h18, h19, 0, h9, u4, u5, u0, u1, u2, u3, u4,
        u5, 0, 0] ++ pl.set j v ++ pad).length
        = ([h12, h13, h14, h15, h16, h17, h18, h19, 0, h9, u4, u5, u0, u1, u2, u3, u4, u5,
        0, 0] ++ pl ++ pad).length := by simp
    rw [hlen', hset]
    apply Ne.symm
    apply checksum16_set_ne
    · simp; omega
    · intro x hx
      simp only [List.mem_append, List.mem_cons, List.mem_singleton] at hx
      rcases hx with (hx | hx) | hx
      · have b4 : u4 < 256 := hbu u4 (by simp)
        have b5 : u5 < 256 := hbu u5 (by simp)
        have b0 : u0 < 256 := hbu u0 (by simp)
        have b1 : u1 < 256 := hbu u1 (by simp)
        have b2 : u2 < 256 := hbu u2 (by simp)
        have b3 : u3 < 256 := hbu u3 (by simp)
        rcases hx with hx | hx | hx | hx | hx | hx | hx | hx | hx | hx | hx | hx | hx | hx | hx
          | hx | hx | hx | hx | hx | hx
        all_goals first
          | omega
          | exact hx ▸ hbi _ (by simp)
          | simp at hx
      · exact hbu x (by simp [hx])
      · exact hpadb x hx
    · simp; omega
    · exact hv
    · have e : ([h12, h13, h14, h15, h16, h17, h18, h19, 0, h9, u4, u5, u0, u1, u2, u3, u4, u5,
          0, 0] ++ pl ++ pad).getD (j + 20) 0 = pl.getD j 0 := by
        simp [List.getD_eq_getElem?_getD, List.getElem?_append_left hj]
      rw [e]
      exact hne
  refine ⟨?_, ?_⟩
  · rw [Bool.eq_false_iff]
    intro h
    exact hmis ((udp_in_accepts_iff iph _).mp h).2
  · rw [udp_in_unfold pre iph (udp.set i v) post src_ip w hiph (by simpa using hlen) hpost hbi
      hbu', if_pos hmis]

theorem udp_in_corrupt_payload_dropped_witness :
    udp_in_accepts dns_ip_header (dns_datagram.set 10 4) = false
      ∧ udp_in ⟨(dns_datagram.set 10 4).length, [0xee].length + 20,
          [0xee] ++ dns_ip_header ++ dns_datagram.set 10 4 ++ [0xee, 0xee]⟩
          [10, 0, 0, 1] host_b_dns = some host_b_dns :=
  udp_in_corrupt_payload_dropped [0xee] dns_ip_header dns_datagram [0xee, 0xee] [10, 0, 0, 1]
    host_b_dns 10 4 (by decide) (by decide) (by decide) (by decide) (by decide) (by decide)
    (by decide) (by decide) (by decide)

/-! ## udp_out and the round trip -/

theorem udp_checksum_of_pseudo (h0 h1 h2 h3 h4 h5 h6 h7 h8 h10 h11 s0 s1 s2 s3 d0 d1 d2 d3 : Nat)
    (src_port dst_port : Nat) (payload : List Nat) (c0 c1 : Nat) :
    udp_checksum_of
        [h0, h1, h2, h3, h4, h5, h6, h7, h8, 17, h10, h11, s0, s1, s2, s3, d0, d1, d2, d3]
        (src_port / 256 % 256 :: src_port % 256 :: dst_port / 256 % 256 :: dst_port % 256
          :: (payload.length + 8) / 256 % 256 :: (payload.length + 8) % 256 :: c0 :: c1
          :: payload)
      = checksum16 true
          (udp_pseudo_datagram [s0, s1, s2, s3] [d0, d1, d2, d3] src_port dst_port payload)
          (udp_pseudo_datagram [s0, s1, s2, s3] [d0, d1, d2, d3] src_port dst_port payload).length := by
  have hpar : ((payload.length + 8) % 2 = 1) ↔ (payload.length % 2 = 1) := by omega
  unfold udp_checksum_of
  rw [udp_checksum_input_explicit]
  simp only [udp_pseudo_datagram, udp_header0, hpar, List.append_assoc, List.cons_append,
    List.nil_append]

theorem udp_out_spec (buf : BufArg) (src_port dst_port : Nat) (dst_ip payload : List Nat)
    (w : World) (pre g post : List Nat)
    (hp : (buf.get w).payload = pre ++ g ++ payload ++ post) (hg : g.length = 28)
    (hd : (buf.get w).data = pre.length + 28) (hl : (buf.get w).len = payload.length)
    (hpost : 2 ≤ post.length) (hL : payload.length ≤ 1472)
    (hsrc : w.net_if_ip.length = 4) (hdst : dst_ip.length = 4)
    (hbg : ∀ x ∈ g, x < 256) (hbp : ∀ x ∈ payload, x < 256)
    (hbs : ∀ x ∈ w.net_if_ip, x < 256) (hbd : ∀ x ∈ dst_ip, x < 256) :
    ∃ r rest, udp_out buf src_port dst_ip dst_port w = some r
      ∧ r.2.trace = w.trace
          ++ Event.arp_out
              (ip_header (payload.length + 28) w.ip_id 0 NET_PROTOCOL_UDP w.net_if_ip dst_ip
                ++ udp_datagram w.net_if_ip dst_ip src_port dst_port payload) dst_ip
            :: rest
      ∧ rest.all Event.is_ethernet_out = true := by
  obtain ⟨g0, g1, g2, g3, g4, g5, g6, g7, g8, g9, g10, g11, g12, g13, g14, g15, g16, g17, g18,
    g19, g20, g21, g22, g23, g24, g25, g26, g27, rfl⟩ := list_explicit_28 g hg
  obtain ⟨s0, s1, s2, s3, hs⟩ := list_explicit_4 _ hsrc
  obtain ⟨d0, d1, d2, d3, rfl⟩ := list_explicit_4 _ hdst
  unfold udp_out
  simp only [sizeof_udp_hdr_t, sizeof_ip_hdr_t, NET_IP_LEN, NET_PROTOCOL_UDP, buf_add_header,
    buf_remove_header, hd, hl, hp, hs]
  have c1 : ¬ (pre.length + 28 < 8) := by omega
  have c2 : pre.length + 28 - 8 = pre.length + 20 := by omega
  have c3 : ¬ (pre.length + 20 < 20) := by omega
  have c4 : pre.length + 20 - 20 = pre.length := by omega
  have c5 : ¬ (payload.length + 8 + 20 < 20) := by omega
  have c6 : payload.length + 8 + 20 - 20 = payload.length + 8 := by omega
  simp only [c1, c2, c3, c4, c5, c6, if_false]
  simp only [store8, store16, write16_true, load16_append_length, load16_append_add,
    load8_append_length, load8_append_add, memcpy_append_add, memcpy_append_length,
    List.append_assoc, List.cons_append, List.nil_append, load16_cons_zero, load16_cons_succ,
    load8_cons_zero, load8_cons_succ, memcpy_cons_succ, memcpy_zero_cons, memcpy_zero_nil,
    Nat.zero_mod, Nat.zero_div, peek_append_add, peek_append_length, peek_cons_succ,
    peek_zero_cons, peek_zero_zero, swap16_mod, swap16_div, Nat.reduceMod, Nat.add_assoc,
    Nat.reduceAdd]
  have key := udp_checksum_eq pre
    [g0, g1, g2, g3, g4, g5, g6, g7, g8, 17, g10, g11, s0, s1, s2, s3, d0, d1, d2, d3]
    (udp_header0 src_port dst_port (payload.length + 8) ++ payload) post [s0, s1, s2, s3]
    [d0, d1, d2, d3] (by simp) (by simp [udp_header0]) hpost
    (by
      have hs' := hs ▸ hbs
      simp only [List.forall_mem_cons] at hbg hs' hbd ⊢
      simp only [List.not_mem_nil, false_imp_iff, implies_true, and_true] at hbg hs' hbd ⊢
      omega)
    (by
      intro x hx
      simp only [udp_header0, List.mem_append, List.mem_cons] at hx
      rcases hx with (hx | hx | hx | hx | hx | hx | hx | hx | hx) | hx
      · omega
      · omega
      · omega
      · omega
      · omega
      · omega
      · omega
      · omega
      · simp at hx
      · exact hbp x hx)
    (by simp [udp_header0])
  simp only [udp_header0, List.length_append, List.length_cons, List.length_nil,
    List.append_assoc, List.cons_append, List.nil_append, Nat.add_assoc, Nat.reduceAdd,
    Nat.zero_add] at key
  simp only [key]
  rw [udp_checksum_of_pseudo]
  simp only [memcpy_append_add, memcpy_cons_succ, memcpy_zero_cons, memcpy_zero_nil]
  generalize hb' : (⟨payload.length + 8, pre.length + 20, _⟩ : buf_t) = b'
  have hud : udp_datagram [s0, s1, s2, s3] [d0, d1, d2, d3] src_port dst_port payload
      = src_port / 256 % 256 :: src_port % 256 :: dst_port / 256 % 256 :: dst_port % 256
          :: (payload.length + 8) / 256 % 256 :: (payload.length + 8) % 256
          :: checksum16 true
              (udp_pseudo_datagram [s0, s1, s2, s3] [d0, d1, d2, d3] src_port dst_port payload)
              (udp_pseudo_datagram [s0, s1, s2, s3] [d0, d1, d2, d3] src_port dst_port
                payload).length % 256
          :: checksum16 true
              (udp_pseudo_datagram [s0, s1, s2, s3] [d0, d1, d2, d3] src_port dst_port payload)
              (udp_pseudo_datagram [s0, s1, s2, s3] [d0, d1, d2, d3] src_port dst_port
                payload).length / 256 % 256
          :: payload := by
    simp [udp_datagram, udp_header0, store16]
  have hudl : (udp_datagram [s0, s1, s2, s3] [d0, d1, d2, d3] src_port dst_port payload).length
      = payload.length + 8 := by
    rw [hud]; simp
  obtain ⟨t1, t2, t3, _⟩ := BufArg.set_trace buf b' w
  obtain ⟨r, rest, e1, e2, e3, _⟩ := ip_out_single (buf.set b' w).1 [d0, d1, d2, d3]
    17 (buf.set b' w).2 pre
    [g0, g1, g2, g3, g4, g5, g6, g7, g8, 17, g10, g11, s0, s1, s2, s3, d0, d1, d2, d3]
    (udp_datagram [s0, s1, s2, s3] [d0, d1, d2, d3] src_port dst_port payload)
    (if (payload.length + 8) % 2 = 1 then 0 :: post.tail else post)
    (by rw [BufArg.get_set, ← hb', hud]; simp)
    (by simp)
    (by rw [BufArg.get_set, ← hb'])
    (by rw [BufArg.get_set, ← hb', hudl])
    (by rw [t3, hs]; rfl) (by simp) (by rw [hudl]; omega)
  rw [hudl, t1, t2, t3, hs] at e2
  exact ⟨r, rest, e1, e2, e3⟩

theorem buf_remove_header_mk (len d n : Nat) (p : List Nat) (h : n ≤ len) :
    buf_remove_header ⟨len, d, p⟩ n = ⟨len - n, d + n, p⟩ := by
  unfold buf_remove_header
  rw [if_neg (by simp only [not_lt]; exact h)]

theorem swap16_be (x : Nat) (h : x < 65536) : swap16 (x / 256 % 256 + 256 * (x % 256)) = x := by
  unfold swap16
  obtain ⟨p, q, rfl, hq, hp⟩ : ∃ p q, x = 256 * p + q ∧ q < 256 ∧ p < 256 :=
    ⟨x / 256, x % 256, by omega, by omega, by omega⟩
  have e1 : (256 * p + q) / 256 % 256 = p := by omega
  have e2 : (256 * p + q) % 256 = q := by omega
  rw [e1, e2]
  omega

theorem load16_bytes (c : Nat) (h : c ≤ 0xffff) : c % 256 + 256 * (c / 256 % 256) = c := by
  omega

/-- The datagram `udp_out` hands to ARP, received by the host it is
addressed to: `ip_in` dispatches it to UDP and the handler bound to the
destination port is called with the payload, the sender's address and the
source port. -/
theorem ip_in_udp_datagram (src dst payload rpre rpost src_mac : List Nat)
    (src_port dst_port id handler : Nat) (w : World)
    (hsrc : src.length = 4) (hdst : dst.length = 4) (hL : payload.length ≤ 1472)
    (hsp : src_port < 65536) (hdp : dst_port < 65536)
    (hbs : ∀ x ∈ src, x < 256) (hbd : ∀ x ∈ dst, x < 256) (hbp : ∀ x ∈ payload, x < 256)
    (hrpost : 2 ≤ rpost.length) (hw : w.net_if_ip = dst)
    (hh : map_get w.udp_table dst_port = some handler) :
    ip_in ⟨payload.length + 28, rpre.length,
        rpre ++ (ip_header (payload.length + 28) id 0 NET_PROTOCOL_UDP src dst
          ++ udp_datagram src dst src_port dst_port payload) ++ rpost⟩ src_mac w
      = some ((w.emit (Event.net_in (udp_datagram src dst src_port dst_port payload)
            NET_PROTOCOL_UDP src)).emit
          (Event.handler handler payload payload.length src src_port)) := by
  obtain ⟨s0, s1, s2, s3, rfl⟩ := list_explicit_4 _ hsrc
  obtain ⟨d0, d1, d2, d3, rfl⟩ := list_explicit_4 _ hdst
  have hcu := checksum16_le_ffff true
    (udp_pseudo_datagram [s0, s1, s2, s3] [d0, d1, d2, d3] src_port dst_port payload)
    (udp_pseudo_datagram [s0, s1, s2, s3] [d0, d1, d2, d3] src_port dst_port payload).length
  generalize hcuv : checksum16 true
    (udp_pseudo_datagram [s0, s1, s2, s3] [d0, d1, d2, d3] src_port dst_port payload)
    (udp_pseudo_datagram [s0, s1, s2, s3] [d0, d1, d2, d3] src_port dst_port payload).length
    = cu at hcu
  have hud : udp_datagram [s0, s1, s2, s3] [d0, d1, d2, d3] src_port dst_port payload
      = src_port / 256 % 256 :: src_port % 256 :: dst_port / 256 % 256 :: dst_port % 256
          :: (payload.length + 8) / 256 % 256 :: (payload.length + 8) % 256
          :: cu % 256 :: cu / 256 % 256 :: payload := by
    simp [udp_datagram, udp_header0, store16, hcuv]
  have hci := checksum16_le_ffff true
    (ip_header0 (payload.length + 28) id 0 NET_PROTOCOL_UDP [s0, s1, s2, s3] [d0, d1, d2, d3]) 20
  generalize hciv : checksum16 true
    (ip_header0 (payload.length + 28) id 0 NET_PROTOCOL_UDP [s0, s1, s2, s3] [d0, d1, d2, d3]) 20
    = ci at hci
  have hih : ip_header (payload.length + 28) id 0 NET_PROTOCOL_UDP [s0, s1, s2, s3]
      [d0, d1, d2, d3]
      = [69, 0, (payload.length + 28) / 256 % 256, (payload.length + 28) % 256, id / 256 % 256,
          id % 256, 0, 0, 64, 17, ci % 256, ci / 256 % 256, s0, s1, s2, s3, d0, d1, d2, d3] := by
    simp [ip_header, hciv]
    simp [ip_header0, NET_PROTOCOL_UDP]
  have hi0 : ip_header0 (payload.length + 28) id 0 NET_PROTOCOL_UDP [s0, s1, s2, s3]
      [d0, d1, d2, d3]
      = [69, 0, (payload.length + 28) / 256 % 256, (payload.length + 28) % 256, id / 256 % 256,
          id % 256, 0, 0, 64, 17, 0, 0, s0, s1, s2, s3, d0, d1, d2, d3] := by
    simp [ip_header0, NET_PROTOCOL_UDP]
  rw [hi0] at hciv
  have hbh : ∀ x ∈ [69, 0, (payload.length + 28) / 256 % 256, (payload.length + 28) % 256,
      id / 256 % 256, id % 256, 0, 0, 64, 17, ci % 256, ci / 256 % 256, s0, s1, s2, s3, d0, d1,
      d2, d3], x < 256 := by
    simp only [List.forall_mem_cons] at hbs hbd ⊢
    simp only [List.not_mem_nil, false_imp_iff, implies_true, and_true] at hbs hbd ⊢
    omega
  have key := ip_in_unfold (payload.length + 28) rpre _
    (udp_datagram [s0, s1, s2, s3] [d0, d1, d2, d3] src_port dst_port payload ++ rpost) src_mac w
    (by omega) (by simp) hbh (by rw [hw]; rfl)
  rw [hih, List.append_assoc rpre, List.append_assoc, ← List.append_assoc rpre, key]
  have hver : ip_version [69, 0, (payload.length + 28) / 256 % 256, (payload.length + 28) % 256,
      id / 256 % 256, id % 256, 0, 0, 64, 17, ci % 256, ci / 256 % 256, s0, s1, s2, s3, d0, d1,
      d2, d3] = 4 := by simp [ip_version]
  have hcko : ip_checksum_ok [69, 0, (payload.length + 28) / 256 % 256,
      (payload.length + 28) % 256, id / 256 % 256, id % 256, 0, 0, 64, 17, ci % 256,
      ci / 256 % 256, s0, s1, s2, s3, d0, d1, d2, d3] = true := by
    simp [ip_checksum_ok, store16, hciv]
    omega
  have hdst' : ip_dst [69, 0, (payload.length + 28) / 256 % 256, (payload.length + 28) % 256,
      id / 256 % 256, id % 256, 0, 0, 64, 17, ci % 256, ci / 256 % 256, s0, s1, s2, s3, d0, d1,
      d2, d3] = w.net_if_ip := by simp [ip_dst, hw]
  have hpr : ip_protocol [69, 0, (payload.length + 28) / 256 % 256, (payload.length + 28) % 256,
      id / 256 % 256, id % 256, 0, 0, 64, 17, ci % 256, ci / 256 % 256, s0, s1, s2, s3, d0, d1,
      d2, d3] = NET_PROTOCOL_UDP := by simp [ip_protocol, NET_PROTOCOL_UDP]
  have hsr : ip_src [69, 0, (payload.length + 28) / 256 % 256, (payload.length + 28) % 256,
      id / 256 % 256, id % 256, 0, 0, 64, 17, ci % 256, ci / 256 % 256, s0, s1, s2, s3, d0, d1,
      d2, d3] = [s0, s1, s2, s3] := by simp [ip_src]
  have htl : ip_total_len [69, 0, (payload.length + 28) / 256 % 256,
      (payload.length + 28) % 256, id / 256 % 256, id % 256, 0, 0, 64, 17, ci % 256,
      ci / 256 % 256, s0, s1, s2, s3, d0, d1, d2, d3] = payload.length + 28 := by
    simp only [ip_total_len, load16_cons_succ, load16_cons_zero]
    exact swap16_be _ (by omega)
  rw [if_neg (by simp [hver]), if_neg (by simp [hcko]), if_neg (by simp [hdst']),
    if_pos (Or.inr hpr), hpr, hsr, htl, Nat.min_self]
  generalize hhdr : [69, 0, (payload.length + 28) / 256 % 256, (payload.length + 28) % 256,
      id / 256 % 256, id % 256, 0, 0, 64, 17, ci % 256, ci / 256 % 256, s0, s1, s2, s3, d0, d1,
      d2, d3] = hdr at hbh
  have hhl : hdr.length = 20 := by rw [← hhdr]; rfl
  have hudl : (udp_datagram [s0, s1, s2, s3] [d0, d1, d2, d3] src_port dst_port payload).length
      = payload.length + 8 := by
    rw [hud]; simp
  have hbu : ∀ x ∈ udp_datagram [s0, s1, s2, s3] [d0, d1, d2, d3] src_port dst_port payload,
      x < 256 := by
    rw [hud]
    intro x hx
    simp only [List.mem_cons] at hx
    rcases hx with hx | hx | hx | hx | hx | hx | hx | hx | hx
    · omega
    · omega
    · omega
    · omega
    · omega
    · omega
    · omega
    · omega
    · exact hbp x hx
  rw [buf_remove_header_mk _ _ _ _ (by omega)]
  unfold net_in
  simp only [NET_PROTOCOL_UDP, NET_PROTOCOL_ICMP, Nat.reduceEqDiff, if_false, if_true,
    Nat.add_sub_cancel, Nat.reduceSubDiff]
  have hbytes : buf_t.bytes ⟨payload.length + 8, rpre.length + 20,
      rpre ++ hdr ++ (udp_datagram [s0, s1, s2, s3] [d0, d1, d2, d3] src_port dst_port payload
        ++ rpost)⟩
      = udp_datagram [s0, s1, s2, s3] [d0, d1, d2, d3] src_port dst_port payload := by
    have := bytes_mk (rpre ++ hdr)
      (udp_datagram [s0, s1, s2, s3] [d0, d1, d2, d3] src_port dst_port payload) rpost
      (payload.length + 8) hudl
    simpa [hhl, List.append_assoc] using this
  rw [hbytes]
  have key2 := udp_in_unfold rpre hdr
    (udp_datagram [s0, s1, s2, s3] [d0, d1, d2, d3] src_port dst_port payload) rpost
    [s0, s1, s2, s3]
    (w.emit (Event.net_in
      (udp_datagram [s0, s1, s2, s3] [d0, d1, d2, d3] src_port dst_port payload) 17
      [s0, s1, s2, s3]))
    hhl (by omega) hrpost hbh hbu
  rw [hudl, List.append_assoc (rpre ++ hdr)] at key2
  rw [key2]
  have hck2 : load16 (udp_datagram [s0, s1, s2, s3] [d0, d1, d2, d3] src_port dst_port payload) 6
      = udp_checksum_of hdr
          (udp_datagram [s0, s1, s2, s3] [d0, d1, d2, d3] src_port dst_port payload) := by
    rw [hud, ← hhdr, udp_checksum_of_pseudo, hcuv]
    simp only [load16_cons_succ, load16_cons_zero]
    omega
  have hport : swap16 (load16
      (udp_datagram [s0, s1, s2, s3] [d0, d1, d2, d3] src_port dst_port payload) 2)
      = dst_port := by
    rw [hud]
    simp only [load16_cons_succ, load16_cons_zero]
    exact swap16_be _ hdp
  have hsport : swap16 (load16
      (udp_datagram [s0, s1, s2, s3] [d0, d1, d2, d3] src_port dst_port payload) 0)
      = src_port := by
    rw [hud]
    simp only [load16_cons_zero]
    exact swap16_be _ hsp
  have hdrop : (udp_datagram [s0, s1, s2, s3] [d0, d1, d2, d3] src_port dst_port payload).drop 8
      = payload := by
    rw [hud]; rfl
  rw [if_neg (by simp [hck2]), hport, hsport, hdrop]
  have hh' : map_get (w.emit (Event.net_in
      (udp_datagram [s0, s1, s2, s3] [d0, d1, d2, d3] src_port dst_port payload) 17
      [s0, s1, s2, s3])).udp_table dst_port = some handler := hh
  rw [hh']
  simp

/-- The fields of the header `ip_fragment_out` writes. -/
theorem ip_header_props (total_len id flags_fragment protocol : Nat) (src dst : List Nat)
    (hsrc : src.length = 4) (hdst : dst.length = 4)
    (hbs : ∀ x ∈ src, x < 256) (hbd : ∀ x ∈ dst, x < 256) (htl : total_len < 65536) :
    ip_version (ip_header total_len id flags_fragment protocol src dst) = 4
      ∧ ip_hdr_len (ip_header total_len id flags_fragment protocol src dst) = 5
      ∧ ip_total_len (ip_header total_len id flags_fragment protocol src dst) = total_len
      ∧ checksum16 true (ip_header total_len id flags_fragment protocol src dst) 20 = 0
      ∧ ip_checksum_ok (ip_header total_len id flags_fragment protocol src dst) = true
      ∧ ip_dst (ip_header total_len id flags_fragment protocol src dst) = dst := by
  obtain ⟨s0, s1, s2, s3, rfl⟩ := list_explicit_4 _ hsrc
  obtain ⟨d0, d1, d2, d3, rfl⟩ := list_explicit_4 _ hdst
  have hck := checksum16_filled true
    [69, 0, total_len / 256 % 256, total_len % 256, id / 256 % 256, id % 256,
      flags_fragment / 256 % 256, flags_fragment % 256, 64, protocol % 256]
    [s0, s1, s2, s3, d0, d1, d2, d3] [] [] (by simp) (by simp)
    (by
      simp only [List.forall_mem_cons]
      simp only [List.not_mem_nil, false_imp_iff, implies_true, and_true]
      omega)
    (by
      simp only [List.forall_mem_cons] at hbs hbd ⊢
      simp only [List.not_mem_nil, false_imp_iff, implies_true, and_true] at hbs hbd ⊢
      omega)
  simp only [List.append_nil, List.cons_append, List.nil_append, List.length_cons,
    List.length_nil, Nat.reduceAdd, write16_true] at hck
  have hci := checksum16_le_ffff true
    [69, 0, total_len / 256 % 256, total_len % 256, id / 256 % 256, id % 256,
      flags_fragment / 256 % 256, flags_fragment % 256, 64, protocol % 256, 0, 0,
      s0, s1, s2, s3, d0, d1, d2, d3] 20
  generalize hciv : checksum16 true
    [69, 0, total_len / 256 % 256, total_len % 256, id / 256 % 256, id % 256,
      flags_fragment / 256 % 256, flags_fragment % 256, 64, protocol % 256, 0, 0,
      s0, s1, s2, s3, d0, d1, d2, d3] 20 = ci at hci hck
  have hih : ip_header total_len id flags_fragment protocol [s0, s1, s2, s3] [d0, d1, d2, d3]
      = [69, 0, total_len / 256 % 256, total_len % 256, id / 256 % 256, id % 256,
          flags_fragment / 256 % 256, flags_fragment % 256, 64, protocol % 256,
          ci % 256, ci / 256 % 256, s0, s1, s2, s3, d0, d1, d2, d3] := by
    simp [ip_header, ip_header0, hciv]
  rw [hih]
  refine ⟨by simp [ip_version], by simp [ip_hdr_len], ?_, hck, ?_, by simp [ip_dst]⟩
  · simp only [ip_total_len, load16_cons_succ, load16_cons_zero]
    exact swap16_be _ htl
  · simp [ip_checksum_ok, store16, hciv]
    omega

/-- On a little-endian host the two bytes stored for `checksum16` of an
even-length buffer are the big-endian bytes of its Internet checksum. -/
theorem write16_checksum16_internet (l : List Nat) (heven : l.length % 2 = 0)
    (hb : ∀ x ∈ l, x < 256) :
    write16 true (checksum16 true l l.length)
      = write16 false (internet_checksum (be_words l)) := by
  have h := checksum16_even true l [] heven hb
  rw [List.append_nil] at h
  rw [h]
  obtain ⟨h1, h2⟩ := host_words_true_sum l hb heven
  simpa [internet_checksum, ones_complement_sum_eq] using write16_checksum_le_eq_be _ _ h1 h2

/-- The fields of the datagram `udp_out` builds. -/
theorem udp_datagram_props (src dst payload : List Nat) (src_port dst_port : Nat)
    (hsrc : src.length = 4) (hdst : dst.length = 4) (hL : payload.length + 8 < 65536)
    (hbs : ∀ x ∈ src, x < 256) (hbd : ∀ x ∈ dst, x < 256) (hbp : ∀ x ∈ payload, x < 256) :
    (udp_datagram src dst src_port dst_port payload).length = payload.length + 8
      ∧ swap16 (load16 (udp_datagram src dst src_port dst_port payload) 4) = payload.length + 8
      ∧ (udp_datagram src dst src_port dst_port payload).drop 8 = payload
      ∧ peek (udp_datagram src dst src_port dst_port payload) 6 2
          = write16 false (internet_checksum
              (be_words (udp_pseudo_datagram src dst src_port dst_port payload))) := by
  obtain ⟨s0, s1, s2, s3, rfl⟩ := list_explicit_4 _ hsrc
  obtain ⟨d0, d1, d2, d3, rfl⟩ := list_explicit_4 _ hdst
  have hpl : (udp_pseudo_datagram [s0, s1, s2, s3] [d0, d1, d2, d3] src_port dst_port
      payload).length % 2 = 0 := by
    unfold udp_pseudo_datagram udp_header0
    split_ifs <;> simp <;> omega
  have hpb : ∀ x ∈ udp_pseudo_datagram [s0, s1, s2, s3] [d0, d1, d2, d3] src_port dst_port
      payload, x < 256 := by
    intro x hx
    unfold udp_pseudo_datagram udp_header0 at hx
    simp only [List.forall_mem_cons] at hbs hbd
    simp only [List.mem_append, List.mem_cons, List.not_mem_nil, or_false] at hx
    rcases hx with (hx | hx) | hx
    · rcases hx with ((hx | hx) | hx) | hx
      · rcases hx with hx | hx | hx | hx <;> omega
      · rcases hx with hx | hx | hx | hx <;> omega
      · rcases hx with hx | hx | hx | hx <;> omega
      · rcases hx with hx | hx | hx | hx | hx | hx | hx | hx <;> omega
    · exact hbp x hx
    · split_ifs at hx <;> simp at hx
      omega
  have hint := write16_checksum16_internet _ hpl hpb
  generalize hcuv : checksum16 true
    (udp_pseudo_datagram [s0, s1, s2, s3] [d0, d1, d2, d3] src_port dst_port payload)
    (udp_pseudo_datagram [s0, s1, s2, s3] [d0, d1, d2, d3] src_port dst_port payload).length
    = cu at hint
  have hud : udp_datagram [s0, s1, s2, s3] [d0, d1, d2, d3] src_port dst_port payload
      = src_port / 256 % 256 :: src_port % 256 :: dst_port / 256 % 256 :: dst_port % 256
          :: (payload.length + 8) / 256 % 256 :: (payload.length + 8) % 256
          :: cu % 256 :: cu / 256 % 256 :: payload := by
    simp [udp_datagram, udp_header0, store16, hcuv]
  rw [hud]
  refine ⟨by simp, ?_, rfl, ?_⟩
  · simp only [load16_cons_succ, load16_cons_zero]
    exact swap16_be _ hL
  · rw [← hint]
    simp

/-- C10. Send/receive round trip.  For a payload of at most 1472 bytes in a
buffer with 28 bytes of room before it, `udp_out` hands ARP exactly one IP
datagram for `dst_ip` (what follows in the trace are packets for the link
layer only): the IP header of `ip_fragment_out` (version 4, header length 5,
total length payload + 28, a checksum over which `checksum16` of the 20 bytes
is 0) followed by the UDP datagram, whose length field is payload + 8 and
whose checksum bytes are the big-endian Internet checksum of the pseudo-header
(sender's address, destination address, 0, 17, payload + 8), the UDP header
with zero checksum and the payload zero-padded to even length.  A host whose
address is `dst_ip` and that has a handler bound to the destination port
accepts this datagram: `ip_in` dispatches it to UDP and `udp_in` calls the
handler with exactly the payload, the sender's address and the source port. -/
theorem udp_out_ip_in_round_trip (buf : BufArg) (src_port dst_port handler : Nat)
    (dst_ip payload pre g post rpre rpost src_mac : List Nat) (wa wb : World)
    (hp : (buf.get wa).payload = pre ++ g ++ payload ++ post) (hg : g.length = 28)
    (hd : (buf.get wa).data = pre.length + 28) (hl : (buf.get wa).len = payload.length)
    (hpost : 2 ≤ post.length) (hrpost : 2 ≤ rpost.length)
    (hL : payload.length ≤ 1472) (hsp : src_port < 65536) (hdp : dst_port < 65536)
    (hsrc : wa.net_if_ip.length = 4) (hdst : dst_ip.length = 4)
    (hbg : ∀ x ∈ g, x < 256) (hbp : ∀ x ∈ payload, x < 256)
    (hbs : ∀ x ∈ wa.net_if_ip, x < 256) (hbd : ∀ x ∈ dst_ip, x < 256)
    (hw : wb.net_if_ip = dst_ip) (hh : map_get wb.udp_table dst_port = some handler) :
    ∃ r rest,
      udp_out buf src_port dst_ip dst_port wa = some r
      ∧ r.2.trace = wa.trace
          ++ Event.arp_out
              (ip_header (payload.length + 28) wa.ip_id 0 NET_PROTOCOL_UDP wa.net_if_ip dst_ip
                ++ udp_datagram wa.net_if_ip dst_ip src_port dst_port payload) dst_ip
            :: rest
      ∧ rest.all Event.is_ethernet_out = true
      ∧ ip_version (ip_header (payload.length + 28) wa.ip_id 0 NET_PROTOCOL_UDP wa.net_if_ip
          dst_ip) = 4
      ∧ ip_hdr_len (ip_header (payload.length + 28) wa.ip_id 0 NET_PROTOCOL_UDP wa.net_if_ip
          dst_ip) = 5
      ∧ ip_total_len (ip_header (payload.length + 28) wa.ip_id 0 NET_PROTOCOL_UDP wa.net_if_ip
          dst_ip) = payload.length + 28
      ∧ checksum16 true (ip_header (payload.length + 28) wa.ip_id 0 NET_PROTOCOL_UDP
          wa.net_if_ip dst_ip) 20 = 0
      ∧ ip_in_accepts ⟨payload.length + 28, rpre.length,
          rpre ++ (ip_header (payload.length + 28) wa.ip_id 0 NET_PROTOCOL_UDP wa.net_if_ip dst_ip
            ++ udp_datagram wa.net_if_ip dst_ip src_port dst_port payload) ++ rpost⟩ wb = true
      ∧ swap16 (load16 (udp_datagram wa.net_if_ip dst_ip src_port dst_port payload) 4)
          = payload.length + 8
      ∧ peek (udp_datagram wa.net_if_ip dst_ip src_port dst_port payload) 6 2
          = write16 false (internet_checksum
              (be_words (udp_pseudo_datagram wa.net_if_ip dst_ip src_port dst_port payload)))
      ∧ ip_in ⟨payload.length + 28, rpre.length,
          rpre ++ (ip_header (payload.length + 28) wa.ip_id 0 NET_PROTOCOL_UDP wa.net_if_ip dst_ip
            ++ udp_datagram wa.net_if_ip dst_ip src_port dst_port payload) ++ rpost⟩ src_mac wb
          = some ((wb.emit (Event.net_in
                (udp_datagram wa.net_if_ip dst_ip src_port dst_port payload) NET_PROTOCOL_UDP
                wa.net_if_ip)).emit
              (Event.handler handler payload payload.length wa.net_if_ip src_port)) := by
  obtain ⟨r, rest, e1, e2, e3⟩ := udp_out_spec buf src_port dst_port dst_ip payload wa pre g post
    hp hg hd hl hpost hL hsrc hdst hbg hbp hbs hbd
  obtain ⟨i1, i2, i3, i4, i5, i6⟩ := ip_header_props (payload.length + 28) wa.ip_id 0
    NET_PROTOCOL_UDP wa.net_if_ip dst_ip hsrc hdst hbs hbd (by omega)
  obtain ⟨u1, u2, _, u4⟩ := udp_datagram_props wa.net_if_ip dst_ip payload src_port dst_port
    hsrc hdst (by omega) hbs hbd hbp
  have hrx := ip_in_udp_datagram wa.net_if_ip dst_ip payload rpre rpost src_mac src_port dst_port
    wa.ip_id handler wb hsrc hdst hL hsp hdp hbs hbd hbp hrpost hw hh
  have hhl := ip_header_length (payload.length + 28) wa.ip_id 0 NET_PROTOCOL_UDP wa.net_if_ip
    dst_ip hsrc hdst
  have hacc : ip_in_accepts ⟨payload.length + 28, rpre.length,
      rpre ++ (ip_header (payload.length + 28) wa.ip_id 0 NET_PROTOCOL_UDP wa.net_if_ip dst_ip
        ++ udp_datagram wa.net_if_ip dst_ip src_port dst_port payload) ++ rpost⟩ wb = true := by
    rw [ip_in_accepts_iff]
    have hhdr : ip_hdr_of ⟨payload.length + 28, rpre.length,
        rpre ++ (ip_header (payload.length + 28) wa.ip_id 0 NET_PROTOCOL_UDP wa.net_if_ip dst_ip
          ++ udp_datagram wa.net_if_ip dst_ip src_port dst_port payload) ++ rpost⟩
        = ip_header (payload.length + 28) wa.ip_id 0 NET_PROTOCOL_UDP wa.net_if_ip dst_ip := by
      simp [ip_hdr_of, peek, List.take_append_eq_append_take, hhl]
    rw [hhdr]
    exact ⟨by simp only; omega, i1, i5, by rw [i6, hw]⟩
  exact ⟨r, rest, e1, e2, e3, i1, i2, i3, i4, hacc, u2, u4, hrx⟩

theorem udp_out_ip_in_round_trip_witness :
    ∃ r rest,
      udp_out BufArg.global_txbuf 1234 [10, 0, 0, 2] 53 host_a = some r
      ∧ r.2.trace = host_a.trace
          ++ Event.arp_out
              (ip_header ([1, 2, 3].length + 28) host_a.ip_id 0 NET_PROTOCOL_UDP host_a.net_if_ip [10, 0, 0, 2]
                ++ udp_datagram host_a.net_if_ip [10, 0, 0, 2] 1234 53 [1, 2, 3]) [10, 0, 0, 2]
            :: rest
      ∧ rest.all Event.is_ethernet_out = true
      ∧ ip_version (ip_header ([1, 2, 3].length + 28) host_a.ip_id 0 NET_PROTOCOL_UDP host_a.net_if_ip
          [10, 0, 0, 2]) = 4
      ∧ ip_hdr_len (ip_header ([1, 2, 3].length + 28) host_a.ip_id 0 NET_PROTOCOL_UDP host_a.net_if_ip
          [10, 0, 0, 2]) = 5
      ∧ ip_total_len (ip_header ([1, 2, 3].length + 28) host_a.ip_id 0 NET_PROTOCOL_UDP host_a.net_if_ip
          [10, 0, 0, 2]) = [1, 2, 3].length + 28
      ∧ checksum16 true (ip_header ([1, 2, 3].length + 28) host_a.ip_id 0 NET_PROTOCOL_UDP
          host_a.net_if_ip [10, 0, 0, 2]) 20 = 0
      ∧ ip_in_accepts ⟨[1, 2, 3].length + 28, [0xee].length,
          [0xee] ++ (ip_header ([1, 2, 3].length + 28) host_a.ip_id 0 NET_PROTOCOL_UDP host_a.net_if_ip [10, 0, 0, 2]
            ++ udp_datagram host_a.net_if_ip [10, 0, 0, 2] 1234 53 [1, 2, 3]) ++ [0xee, 0xee]⟩ host_b_dns = true
      ∧ swap16 (load16 (udp_datagram host_a.net_if_ip [10, 0, 0, 2] 1234 53 [1, 2, 3]) 4)
          = [1, 2, 3].length + 8
      ∧ peek (udp_datagram host_a.net_if_ip [10, 0, 0, 2] 1234 53 [1, 2, 3]) 6 2
          = write16 false (internet_checksum
              (be_words (udp_pseudo_datagram host_a.net_if_ip [10, 0, 0, 2] 1234 53 [1, 2, 3])))
      ∧ ip_in ⟨[1, 2, 3].length + 28, [0xee].length,
          [0xee] ++ (ip_header ([1, 2, 3].length + 28) host_a.ip_id 0 NET_PROTOCOL_UDP host_a.net_if_ip [10, 0, 0, 2]
            ++ udp_datagram host_a.net_if_ip [10, 0, 0, 2] 1234 53 [1, 2, 3]) ++ [0xee, 0xee]⟩ [] host_b_dns
          = some ((host_b_dns.emit (Event.net_in
                (udp_datagram host_a.net_if_ip [10, 0, 0, 2] 1234 53 [1, 2, 3]) NET_PROTOCOL_UDP
                host_a.net_if_ip)).emit
              (Event.handler 99 [1, 2, 3] [1, 2, 3].length host_a.net_if_ip 1234)) :=
  udp_out_ip_in_round_trip BufArg.global_txbuf 1234 53 99 [10, 0, 0, 2] [1, 2, 3] [0xee]
    (List.replicate 28 0) [0xee, 0xee] [0xee] [0xee, 0xee] [] host_a host_b_dns (by decide)
    (by decide) (by decide) (by decide) (by decide) (by decide) (by decide) (by decide)
    (by decide) (by decide) (by decide) (by decide) (by decide) (by decide) (by decide)
    (by decide) (by decide)

/-! ## ip_out and the shared transmit buffer -/

theorem map_get_map_set {κ α : Type} [DecidableEq κ] (map : List (κ × α)) (key : κ) (value : α) :
    map_get (map_set map key value) key = some value := by
  simp [map_get, map_set]

theorem ip_fragment_out_loc (b : buf_t) (ip : List Nat) (protocol id offset mf : Nat)
    (w : World) :
    ∃ b', ip_fragment_out (.loc b) ip protocol id offset mf w = arp_out (.loc b') ip w :=
  ⟨_, rfl⟩

/-- `arp_req` sends one broadcast packet from the global `txbuf`, which it
leaves holding the 28-byte request, and keeps the tables. -/
theorem arp_req_effect (ip : List Nat) (w : World) (hcap : 28 < w.txbuf.payload.length / 2) :
    (arp_req ip w).trace = w.trace
        ++ [Event.ethernet_out (arp_req ip w).txbuf.bytes ether_broadcast_mac NET_PROTOCOL_ARP]
      ∧ (arp_req ip w).txbuf.len = 28 ∧ (arp_req ip w).arp_table = w.arp_table
      ∧ (arp_req ip w).arp_buf = w.arp_buf ∧ (arp_req ip w).ip_id = w.ip_id := by
  refine ⟨?_, ?_, rfl, rfl, rfl⟩
  · simp [arp_req, ethernet_out, World.emit, BufArg.get]
  · simp only [arp_req, ethernet_out, World.emit, BufArg.get, buf_init, sizeof_arp_pkt_t]
    rw [if_neg (by omega)]

/-- `arp_out` on a local buffer for a destination that is neither resolved
nor pending: the datagram is stored and a request goes out through the global
`txbuf`, which then holds the 28-byte request. -/
theorem arp_out_miss (b : buf_t) (ip : List Nat) (w : World)
    (h1 : map_get w.arp_table ip = none) (h2 : map_get w.arp_buf ip = none)
    (hcap : 28 < w.txbuf.payload.length / 2) :
    ∃ req w', arp_out (.loc b) ip w = (.loc b, w')
      ∧ w'.trace = w.trace
          ++ [Event.arp_out b.bytes ip, Event.ethernet_out req ether_broadcast_mac NET_PROTOCOL_ARP]
      ∧ w'.txbuf.len = 28 ∧ w'.arp_table = w.arp_table
      ∧ map_get w'.arp_buf ip = some b ∧ w'.ip_id = w.ip_id := by
  unfold arp_out
  simp only [World.emit, BufArg.get, h1, h2]
  obtain ⟨e1, e2, e3, e4, e5⟩ := arp_req_effect ip
    { w with arp_buf := map_set w.arp_buf ip b,
             trace := w.trace ++ [Event.arp_out b.bytes ip] } hcap
  refine ⟨(arp_req ip
    { w with arp_buf := map_set w.arp_buf ip b,
             trace := w.trace ++ [Event.arp_out b.bytes ip] }).txbuf.bytes,
    _, rfl, ?_, e2, e3, ?_, e5⟩
  · rw [e1]
    simp
  · rw [e4]
    exact map_get_map_set _ _ _

/-- `arp_out` on a local buffer for a destination that is pending: nothing
but the hand-off itself is recorded. -/
theorem arp_out_pending (b b0 : buf_t) (ip : List Nat) (w : World)
    (h1 : map_get w.arp_table ip = none) (h2 : map_get w.arp_buf ip = some b0) :
    arp_out (.loc b) ip w = (.loc b, w.emit (Event.arp_out b.bytes ip)) := by
  unfold arp_out
  simp only [World.emit, BufArg.get, h1, h2]

theorem ip_out_loop_exit (ip : List Nat) (protocol fuel : Nat) (buf : BufArg) (piece : buf_t)
    (len_offset : Nat) (w : World) (h : ¬ (buf.get w).len > 1480) :
    ip_out_loop ip protocol fuel buf piece len_offset w = some (buf, piece, len_offset, w) := by
  cases fuel <;> simp only [ip_out_loop, h, if_false]

/-- When the datagram to fragment lives in the global `txbuf` and its
destination is neither resolved nor pending, `ip_out` hands ARP two datagrams
whatever the length: the first fragment, whose ARP request overwrites `txbuf`,
and then a last fragment cut from the request that `txbuf` now holds. -/
theorem ip_out_txbuf_unresolved (ip : List Nat) (protocol : Nat) (w : World)
    (hlen : 1480 < w.txbuf.len) (h1 : map_get w.arp_table ip = none)
    (h2 : map_get w.arp_buf ip = none) (hcap : 28 < w.txbuf.payload.length / 2) :
    ∃ d1 d2 req r, ip_out .global_txbuf ip protocol w = some r
      ∧ r.2.trace = w.trace
          ++ [Event.arp_out d1 ip, Event.ethernet_out req ether_broadcast_mac NET_PROTOCOL_ARP,
              Event.arp_out d2 ip] := by
  unfold ip_out
  generalize buf_t.uninit = u
  simp only [BufArg.get]
  rw [if_neg (by omega)]
  obtain ⟨k, hk⟩ : ∃ k, w.txbuf.len = k + 1 := ⟨w.txbuf.len - 1, by omega⟩
  rw [hk]
  unfold ip_out_loop
  simp only [BufArg.get]
  rw [if_pos (by omega)]
  generalize hpiece : ({ buf_init u 1480 with
    payload := memcpy (buf_init u 1480).payload (buf_init u 1480).data
      (peek w.txbuf.payload w.txbuf.data 1480) } : buf_t) = piece
  obtain ⟨b', hb'⟩ := ip_fragment_out_loc piece ip protocol w.ip_id
    (0 / IP_HDR_OFFSET_PER_BYTE) 1 w
  obtain ⟨req, w1, ha, ht, hl1, hat, hab, hid⟩ := arp_out_miss b' ip w h1 h2 hcap
  rw [hb', ha]
  simp only [BufArg.get, BufArg.set]
  have hrem : buf_remove_header w1.txbuf 1480 = w1.txbuf := by
    unfold buf_remove_header
    rw [if_pos (by omega)]
  rw [hrem]
  have heta : ({ w1 with txbuf := w1.txbuf } : World) = w1 := rfl
  rw [heta, ip_out_loop_exit ip protocol k .global_txbuf b' _ w1
    (by simp only [BufArg.get]; omega)]
  simp only [BufArg.get]
  rw [if_pos (by omega)]
  generalize hpiece2 : ({ buf_init b' w1.txbuf.len with
    payload := memcpy (buf_init b' w1.txbuf.len).payload (buf_init b' w1.txbuf.len).data
      (peek w1.txbuf.payload w1.txbuf.data w1.txbuf.len) } : buf_t) = piece2
  obtain ⟨b'', hb''⟩ := ip_fragment_out_loc piece2 ip protocol w1.ip_id
    ((0 + 1480) % 2 ^ 16 / IP_HDR_OFFSET_PER_BYTE) 0 w1
  rw [hb'', arp_out_pending b'' b' ip w1 (by rw [hat]; exact h1) hab]
  refine ⟨b'.bytes, b''.bytes, req, _, rfl, ?_⟩
  simp [World.emit, ht]

/-- C3. With a datagram of 3000 bytes in the global `txbuf` (where `udp_send`
puts it) and a destination that is neither resolved nor pending, the
specification asks for three fragments, and `ip_out` hands ARP two datagrams:
after the first fragment the ARP request has overwritten `txbuf`, and what
follows is cut from the request. -/
theorem ip_out_3000_from_txbuf_emits_two :
    host_a_3000.txbuf.len = 3000
      ∧ (ip_fragments host_a_3000.ip_id NET_PROTOCOL_UDP host_a_3000.net_if_ip [10, 0, 0, 2]
          host_a_3000.txbuf.bytes).length = 3
      ∧ ∃ d1 d2 req r, ip_out .global_txbuf [10, 0, 0, 2] NET_PROTOCOL_UDP host_a_3000 = some r
        ∧ r.2.trace = host_a_3000.trace
            ++ [Event.arp_out d1 [10, 0, 0, 2],
                Event.ethernet_out req ether_broadcast_mac NET_PROTOCOL_ARP,
                Event.arp_out d2 [10, 0, 0, 2]]
        ∧ (arp_outs r.2.trace).length = 2 := by
  have hpay : host_a_3000.txbuf.payload.length = 6400 := by
    rw [show host_a_3000.txbuf.payload = List.replicate 6400 5 from rfl, List.length_replicate]
  refine ⟨rfl, ?_, ?_⟩
  · have hb : host_a_3000.txbuf.bytes.length = 3000 :=
      peek_length _ _ _ (by rw [hpay]; decide)
    rw [ip_fragments, List.length_map, List.length_range, hb]
  · obtain ⟨d1, d2, req, r, h1, h2⟩ :=
      ip_out_txbuf_unresolved [10, 0, 0, 2] NET_PROTOCOL_UDP host_a_3000 (by decide)
        (by decide) (by decide) (by rw [hpay]; decide)
    refine ⟨d1, d2, req, r, h1, h2, ?_⟩
    rw [h2]
    rfl

/-! ## ip_out: fragmentation when the buffer is left alone -/

theorem arp_outs_append (s t : List Event) : arp_outs (s ++ t) = arp_outs s ++ arp_outs t := by
  simp [arp_outs, List.filterMap_append]

theorem arp_outs_ethernet (t : List Event) (h : t.all Event.is_ethernet_out = true) :
    arp_outs t = [] := by
  induction t with
  | nil => rfl
  | cons e t ih =>
      simp only [List.all_cons, Bool.and_eq_true] at h
      cases e <;> simp_all [arp_outs, Event.is_ethernet_out]

theorem BufArg.kept_set (buf : BufArg) (b : buf_t) (ip : List Nat) (w : World) :
    (buf.set b w).1.kept ip (buf.set b w).2 = buf.kept ip w := by
  cases buf <;> rfl

/-- `arp_out` on a local buffer, seen from a buffer `buf` that is kept: one
hand-off, then at most packets for the link layer, and `buf` is as before. -/
theorem arp_out_loc_kept (buf : BufArg) (b : buf_t) (ip : List Nat) (w : World)
    (hk : buf.kept ip w = true) :
    ∃ rest w', arp_out (.loc b) ip w = (.loc b, w')
      ∧ w'.trace = w.trace ++ Event.arp_out b.bytes ip :: rest
      ∧ rest.all Event.is_ethernet_out = true
      ∧ w'.ip_id = w.ip_id ∧ w'.net_if_ip = w.net_if_ip
      ∧ buf.get w' = buf.get w ∧ buf.kept ip w' = true := by
  unfold arp_out
  simp only [World.emit, BufArg.get]
  cases h1 : map_get w.arp_table ip with
  | some mac =>
      refine ⟨[Event.ethernet_out b.bytes mac NET_PROTOCOL_IP], _, rfl, ?_, rfl, rfl, rfl, ?_, ?_⟩
      · simp [ethernet_out, World.emit, BufArg.get]
      · cases buf <;> rfl
      · cases buf
        · simp [BufArg.kept, ethernet_out, World.emit, h1]
        · rfl
  | none =>
      cases h2 : map_get w.arp_buf ip with
      | some b0 =>
          refine ⟨[], _, rfl, rfl, rfl, rfl, rfl, ?_, ?_⟩
          · cases buf <;> rfl
          · cases buf
            · simp [BufArg.kept, h2]
            · rfl
      | none =>
          cases buf with
          | global_txbuf => simp [BufArg.kept, h1, h2] at hk
          | loc b1 =>
              obtain ⟨e, t1, t2, t3, t4, _⟩ := arp_req_spec ip
                { w with trace := w.trace ++ [Event.arp_out b.bytes ip],
                         arp_buf := map_set w.arp_buf ip b }
              refine ⟨[e], _, rfl, ?_, by simp [t2], ?_, ?_, rfl, rfl⟩
              · simpa using t1
              · simpa using t3
              · simpa using t4

/-- The local `buf_piece` after `buf_init` and `memcpy`: the chunk with room
for a header before it, whatever the buffer held. -/
theorem piece_init (piece : buf_t) (chunk : List Nat) (n : Nat) (hn : chunk.length = n)
    (hlen : piece.payload.length = BUF_MAX_LEN) (hm : n ≤ 1480) :
    ∃ pre g post,
      ({ buf_init piece n with
          payload := memcpy (buf_init piece n).payload (buf_init piece n).data chunk } : buf_t)
        = ⟨n, pre.length + 20, pre ++ g ++ chunk ++ post⟩
      ∧ g.length = 20 ∧ (pre ++ g ++ chunk ++ post).length = BUF_MAX_LEN := by
  have hB := BUF_MAX_LEN_eq
  have hhalf : piece.payload.length / 2 = 65662 := by rw [hlen, hB]
  unfold buf_init
  rw [if_neg (by rw [hhalf]; omega), hhalf]
  refine ⟨piece.payload.take (65662 - n - 20), (piece.payload.drop (65662 - n - 20)).take 20,
    piece.payload.drop 65662, ?_, ?_, ?_⟩
  · have e1 : 65662 - n = (List.take (65662 - n - 20) piece.payload).length + 20 := by
      rw [List.length_take, hlen, hB]; omega
    have e2 : List.take (65662 - n) piece.payload
        = List.take (65662 - n - 20) piece.payload
          ++ List.take 20 (List.drop (65662 - n - 20) piece.payload) := by
      rw [← List.take_add]
      congr 1
      omega
    simp only [memcpy, hn]
    rw [← e1, e2, show 65662 - n + n = 65662 by omega]
  · rw [List.length_take, List.length_drop, hlen, hB]; omega
  · simp only [List.length_append, List.length_take, List.length_drop, hlen, hB, hn]; omega

theorem ip_out_loop_succ (ip : List Nat) (protocol fuel : Nat) (buf : BufArg)
    (piece piece1 : buf_t) (len_offset : Nat) (w w1 : World) (h : (buf.get w).len > 1480)
    (hf : ip_fragment_out (.loc { buf_init piece 1480 with
            payload := memcpy (buf_init piece 1480).payload (buf_init piece 1480).data
              (peek (buf.get w).payload (buf.get w).data 1480) }) ip protocol w.ip_id
            (len_offset / IP_HDR_OFFSET_PER_BYTE) 1 w = (.loc piece1, w1)) :
    ip_out_loop ip protocol (fuel + 1) buf piece len_offset w
      = ip_out_loop ip protocol fuel (buf.set (buf_remove_header (buf.get w1) 1480) w1).1 piece1
          ((len_offset + 1480) % 2 ^ 16) (buf.set (buf_remove_header (buf.get w1) 1480) w1).2 := by
  rw [ip_out_loop, if_pos h]
  simp only [hf]
  rfl

theorem more_fragment_or (x : Nat) (h : x < 8192) :
    IP_MORE_FRAGMENT ||| x = IP_MORE_FRAGMENT + x := by
  have e := Nat.mul_add_lt_is_or (show x < 2 ^ 13 from h) 1
  simpa [IP_MORE_FRAGMENT] using e.symm

/-- The loop of `ip_out` on a buffer that is kept: `m` rounds hand ARP the `m`
full fragments with the "more fragments" bit in order, and leave the rest of
the datagram in the buffer. -/
theorem ip_out_loop_spec (ip : List Nat) (protocol id : Nat) (src P : List Nat)
    (hsrc : src.length = 4) (hip : ip.length = 4) :
    ∀ (m fuel : Nat) (buf : BufArg) (piece : buf_t) (j d n : Nat) (w : World),
      (buf.get w).payload = P → (buf.get w).data = d → (buf.get w).len = n → d + n ≤ P.length →
      1480 * m < n → n ≤ 1480 * (m + 1) → m ≤ fuel → 1480 * (j + m) < 65536 →
      piece.payload.length = BUF_MAX_LEN → w.ip_id = id → w.net_if_ip = src →
      buf.kept ip w = true →
      ∃ buf' piece' w',
        ip_out_loop ip protocol fuel buf piece (1480 * j) w
            = some (buf', piece', 1480 * (j + m), w')
          ∧ (buf'.get w').payload = P ∧ (buf'.get w').data = d + 1480 * m
          ∧ (buf'.get w').len = n - 1480 * m
          ∧ piece'.payload.length = BUF_MAX_LEN ∧ w'.ip_id = id ∧ w'.net_if_ip = src
          ∧ buf'.kept ip w' = true
          ∧ arp_outs w'.trace = arp_outs w.trace
              ++ (List.range m).map (fun i =>
                  (ip_header 1500 id (IP_MORE_FRAGMENT + 185 * (j + i)) protocol src ip
                    ++ peek P (d + 1480 * i) 1480, ip)) := by
  intro m
  induction m with
  | zero =>
      intro fuel buf piece j d n w hP hd hn _ _ h2 _ _ hpl hid hs hk
      refine ⟨buf, piece, w, ?_, hP, by simpa using hd, by simpa using hn, hpl, hid, hs, hk,
        by simp⟩
      rw [ip_out_loop_exit ip protocol fuel buf piece _ w (by rw [hn]; omega)]
      rfl
  | succ m ih =>
      intro fuel buf piece j d n w hP hd hn hroom h1 h2 hfuel hj hpl hid hs hk
      obtain ⟨f, rfl⟩ : ∃ f, fuel = f + 1 := ⟨fuel - 1, by omega⟩
      have hgt : (buf.get w).len > 1480 := by rw [hn]; omega
      have hchunk : (peek P d 1480).length = 1480 := peek_length _ _ _ (by omega)
      generalize hc : peek P d 1480 = chunk at hchunk
      obtain ⟨pre, g, post, hpi, hg, hpl1⟩ := piece_init piece chunk 1480 hchunk hpl (le_refl _)
      have hfrag := ip_fragment_out_eq (.loc ⟨1480, pre.length + 20, pre ++ g ++ chunk ++ post⟩)
        ip protocol id (185 * j) 1 w pre g chunk post rfl hg rfl
        hchunk.symm (by rw [hs]; exact hsrc) hip
      have hoff : 1480 * j / IP_HDR_OFFSET_PER_BYTE = 185 * j := by
        simp only [IP_HDR_OFFSET_PER_BYTE]; omega
      rw [hchunk, hs, if_pos (by decide), more_fragment_or _ (by omega)] at hfrag
      generalize hb : (⟨1500, pre.length,
        pre ++ ip_header 1500 id (IP_MORE_FRAGMENT + 185 * j) protocol src ip ++ chunk ++ post⟩
          : buf_t) = b1 at hfrag
      obtain ⟨rest, w1, ha, ht, hall, hid1, hs1, hget, hk1⟩ := arp_out_loc_kept buf b1 ip w hk
      have hfrag1 : ip_fragment_out (.loc { buf_init piece 1480 with
            payload := memcpy (buf_init piece 1480).payload (buf_init piece 1480).data
              (peek (buf.get w).payload (buf.get w).data 1480) }) ip protocol w.ip_id
            (1480 * j / IP_HDR_OFFSET_PER_BYTE) 1 w = (.loc b1, w1) := by
        rw [hP, hd, hc, hpi, hid, hoff, hfrag]
        exact ha
      rw [ip_out_loop_succ ip protocol f buf piece b1 (1480 * j) w w1 hgt hfrag1]
      have hhdr := ip_header_length 1500 id (IP_MORE_FRAGMENT + 185 * j) protocol src ip hsrc hip
      have hb1len : b1.payload.length = BUF_MAX_LEN := by
        rw [← hpl1, ← hb]
        simp only [List.length_append, hhdr, hg]
      have hb1bytes : b1.bytes
          = ip_header 1500 id (IP_MORE_FRAGMENT + 185 * j) protocol src ip ++ chunk := by
        rw [← hb, List.append_assoc pre _ chunk]
        exact bytes_mk pre _ post _ (by rw [List.length_append, hhdr, hchunk])
      have hbw : buf.get w = ⟨n, d, P⟩ := by
        cases hq : buf.get w
        rw [hq] at hP hd hn
        simp only at hP hd hn
        rw [hP, hd, hn]
      have hb2 : buf_remove_header (buf.get w1) 1480 = ⟨n - 1480, d + 1480, P⟩ := by
        rw [hget, hbw]
        unfold buf_remove_header
        rw [if_neg (by simp only; omega)]
      obtain ⟨t1, t2, t3, _⟩ := BufArg.set_trace buf (buf_remove_header (buf.get w1) 1480) w1
      obtain ⟨buf', piece', w', hl, hP', hd', hn', hpl', hid', hs', hk', htr⟩ :=
        ih f (buf.set (buf_remove_header (buf.get w1) 1480) w1).1 b1 (j + 1) (d + 1480)
          (n - 1480) (buf.set (buf_remove_header (buf.get w1) 1480) w1).2
          (by rw [BufArg.get_set, hb2]) (by rw [BufArg.get_set, hb2])
          (by rw [BufArg.get_set, hb2]) (by omega) (by omega) (by omega) (by omega) (by omega)
          hb1len (by rw [t2, hid1, hid]) (by rw [t3, hs1, hs])
          (by rw [BufArg.kept_set]; exact hk1)
      have e1 : (1480 * j + 1480) % 2 ^ 16 = 1480 * (j + 1) := by omega
      have e2 : 1480 * (j + 1 + m) = 1480 * (j + (m + 1)) := by omega
      rw [e1, hl, e2]
      refine ⟨buf', piece', w', rfl, hP', by rw [hd']; omega, by rw [hn']; omega, hpl', hid',
        hs', hk', ?_⟩
      rw [htr, t1, ht, List.range_succ_eq_map, List.map_cons, List.map_map,
        show w.trace ++ Event.arp_out b1.bytes ip :: rest
          = w.trace ++ ([Event.arp_out b1.bytes ip] ++ rest) from rfl,
        arp_outs_append, arp_outs_append, arp_outs_ethernet rest hall, hb1bytes]
      simp only [List.append_nil, List.append_assoc, Nat.add_zero, Nat.mul_zero, hc]
      have ea : arp_outs [Event.arp_out
          (ip_header 1500 id (IP_MORE_FRAGMENT + 185 * j) protocol src ip ++ chunk) ip]
          = [(ip_header 1500 id (IP_MORE_FRAGMENT + 185 * j) protocol src ip ++ chunk, ip)] := rfl
      rw [ea, List.singleton_append]
      refine congrArg (fun l => arp_outs w.trace
        ++ (ip_header 1500 id (IP_MORE_FRAGMENT + 185 * j) protocol src ip ++ chunk, ip) :: l) ?_
      apply List.map_congr_left
      intro i _
      simp only [Function.comp, Nat.succ_eq_add_one]
      rw [show j + 1 + i = j + (i + 1) by omega,
        show d + 1480 + 1480 * i = d + 1480 * (i + 1) by omega]

theorem peek_mid (pre body post : List Nat) (a b : Nat) (h : a + b ≤ body.length) :
    peek (pre ++ body ++ post) (pre.length + a) b = (body.drop a).take b := by
  rw [List.append_assoc, peek_append_add]
  unfold peek
  rw [List.drop_append_of_le_length (by omega), List.take_append_of_le_length]
  rw [List.length_drop]
  omega

/-- The fragments `ip_out` sends, in the words of the specification. -/
theorem ip_fragments_eq (id protocol : Nat) (src dst pre body post : List Nat) (m : Nat)
    (h1 : 1480 * m < body.length) (h2 : body.length ≤ 1480 * (m + 1)) :
    ip_fragments id protocol src dst body
      = (List.range m).map (fun i =>
            ip_header 1500 id (IP_MORE_FRAGMENT + 185 * (0 + i)) protocol src dst
              ++ peek (pre ++ body ++ post) (pre.length + 1480 * i) 1480)
        ++ [ip_header (body.length - 1480 * m + 20) id (185 * m) protocol src dst
              ++ peek (pre ++ body ++ post) (pre.length + 1480 * m) (body.length - 1480 * m)] := by
  have hk : (body.length + 1479) / 1480 = m + 1 := by omega
  unfold ip_fragments
  rw [hk, List.range_succ, List.map_append, List.map_singleton]
  congr 1
  · apply List.map_congr_left
    intro i hi
    rw [List.mem_range] at hi
    unfold ip_fragment
    rw [hk, if_pos (by omega), peek_mid pre body post _ _ (by omega), Nat.zero_add]
    have hlen : ((body.drop (1480 * i)).take 1480).length = 1480 := by
      rw [List.length_take, List.length_drop]
      omega
    rw [hlen]
  · unfold ip_fragment
    rw [hk, if_neg (by omega), peek_mid pre body post _ _ (by omega)]
    have e : (body.drop (1480 * m)).take 1480
        = (body.drop (1480 * m)).take (body.length - 1480 * m) := by
      rw [List.take_of_length_le (by rw [List.length_drop]; omega),
        List.take_of_length_le (by rw [List.length_drop])]
    have hlen : ((body.drop (1480 * m)).take (body.length - 1480 * m)).length
        = body.length - 1480 * m := by
      rw [List.length_take, List.length_drop]
      omega
    rw [e, hlen]

/-- A datagram of more than 1480 and at most 65535 bytes, in a buffer that is
kept, leaves `ip_out` as the `⌈n / 1480⌉` fragments of the specification, in
order, and `ip_id` is advanced once. -/
theorem ip_out_fragments (buf : BufArg) (ip : List Nat) (protocol : Nat) (w : World)
    (pre body post : List Nat)
    (hp : (buf.get w).payload = pre ++ body ++ post) (hd : (buf.get w).data = pre.length)
    (hl : (buf.get w).len = body.length) (hsrc : w.net_if_ip.length = 4) (hip : ip.length = 4)
    (h1 : 1480 < body.length) (h2 : body.length ≤ 65535) (hk : buf.kept ip w = true) :
    ∃ r, ip_out buf ip protocol w = some r
      ∧ arp_outs r.2.trace = arp_outs w.trace
          ++ (ip_fragments w.ip_id protocol w.net_if_ip ip body).map (fun d => (d, ip))
      ∧ r.2.ip_id = (w.ip_id + 1) % 2 ^ 16 := by
  have hu : buf_t.uninit.payload.length = BUF_MAX_LEN := List.length_replicate _ _
  unfold ip_out
  generalize buf_t.uninit = u at hu
  rw [if_neg (by omega)]
  obtain ⟨m, hm1, hm2⟩ : ∃ m, 1480 * m < body.length ∧ body.length ≤ 1480 * (m + 1) :=
    ⟨(body.length - 1) / 1480, by omega, by omega⟩
  obtain ⟨buf', piece', w', hloop, hP', hd', hn', hpl', hid', hs', hk', htr⟩ :=
    ip_out_loop_spec ip protocol w.ip_id w.net_if_ip (pre ++ body ++ post) hsrc hip m
      (buf.get w).len buf u 0 pre.length body.length w hp hd hl
      (by simp only [List.length_append]; omega) hm1 hm2 (by omega) (by omega) hu rfl rfl hk
  rw [Nat.mul_zero] at hloop
  rw [hloop]
  simp only
  rw [if_pos (by omega)]
  have hchunk : (peek (pre ++ body ++ post) (pre.length + 1480 * m)
      (body.length - 1480 * m)).length = body.length - 1480 * m :=
    peek_length _ _ _ (by simp only [List.length_append]; omega)
  generalize hc : peek (pre ++ body ++ post) (pre.length + 1480 * m) (body.length - 1480 * m)
    = chunk at hchunk
  obtain ⟨q, g, post1, hpi, hg, hpl1⟩ :=
    piece_init piece' chunk (body.length - 1480 * m) hchunk hpl' (by omega)
  have hfrag := ip_fragment_out_eq
    (.loc ⟨body.length - 1480 * m, q.length + 20, q ++ g ++ chunk ++ post1⟩)
    ip protocol w.ip_id (185 * m) 0 w' q g chunk post1 rfl hg rfl
    hchunk.symm (by rw [hs']; exact hsrc) hip
  have hoff : 1480 * (0 + m) / IP_HDR_OFFSET_PER_BYTE = 185 * m := by
    simp only [IP_HDR_OFFSET_PER_BYTE]; omega
  rw [hchunk, hs', if_neg (by decide)] at hfrag
  generalize hb : (⟨body.length - 1480 * m + 20, q.length,
    q ++ ip_header (body.length - 1480 * m + 20) w.ip_id (185 * m) protocol w.net_if_ip ip
      ++ chunk ++ post1⟩ : buf_t) = b1 at hfrag
  obtain ⟨rest, w1, ha, ht, hall, hid1, hs1, hget, hk1⟩ := arp_out_loc_kept buf' b1 ip w' hk'
  rw [hn', hP', hd', hc, hpi, hid', hoff, hfrag]
  simp only [BufArg.set, ha]
  have hhdr := ip_header_length (body.length - 1480 * m + 20) w.ip_id (185 * m) protocol
    w.net_if_ip ip hsrc hip
  have hb1bytes : b1.bytes
      = ip_header (body.length - 1480 * m + 20) w.ip_id (185 * m) protocol w.net_if_ip ip
          ++ chunk := by
    rw [← hb, List.append_assoc q _ chunk]
    exact bytes_mk q _ post1 _ (by rw [List.length_append, hhdr, hchunk]; omega)
  refine ⟨_, rfl, ?_, ?_⟩
  · simp only
    rw [ht, show w'.trace ++ Event.arp_out b1.bytes ip :: rest
          = w'.trace ++ ([Event.arp_out b1.bytes ip] ++ rest) from rfl,
      arp_outs_append, arp_outs_append, arp_outs_ethernet rest hall, hb1bytes, htr,
      ip_fragments_eq w.ip_id protocol w.net_if_ip ip pre body post m hm1 hm2, hc]
    simp only [List.append_nil, List.append_assoc, List.map_append, List.map_map,
      List.map_singleton, Function.comp]
    rfl
  · simp only
    rw [hid1, hid']

theorem ip_out_fragments_witness :
    ∃ r, ip_out (.loc ⟨3000, 200, List.replicate 6400 5⟩) [10, 0, 0, 2] NET_PROTOCOL_UDP host_a
          = some r
      ∧ arp_outs r.2.trace = arp_outs host_a.trace
          ++ (ip_fragments host_a.ip_id NET_PROTOCOL_UDP host_a.net_if_ip [10, 0, 0, 2]
                (List.replicate 3000 5)).map (fun d => (d, [10, 0, 0, 2]))
      ∧ r.2.ip_id = (host_a.ip_id + 1) % 2 ^ 16 :=
  ip_out_fragments (.loc ⟨3000, 200, List.replicate 6400 5⟩) [10, 0, 0, 2] NET_PROTOCOL_UDP host_a
    (List.replicate 200 5) (List.replicate 3000 5) (List.replicate 3200 5)
    (by
      show List.replicate 6400 5 = _
      rw [← List.replicate_add, ← List.replicate_add])
    (by rw [List.length_replicate]; rfl) (by rw [List.length_replicate]; rfl) rfl rfl
    (by rw [List.length_replicate]; decide) (by rw [List.length_replicate]; decide) rfl

/-- The payloads of the fragments, put together in order, are the datagram. -/
theorem ip_fragment_payloads (k : Nat) :
    ∀ body : List Nat, body.length ≤ 1480 * k →
      ((List.range k).map (fun i => (body.drop (1480 * i)).take 1480)).flatten = body := by
  induction k with
  | zero =>
      intro body h
      have : body = [] := List.length_eq_zero.mp (by omega)
      subst this
      rfl
  | succ k ih =>
      intro body h
      rw [List.range_succ_eq_map, List.map_cons, List.map_map, List.flatten_cons]
      have e : (List.range k).map ((fun i => (body.drop (1480 * i)).take 1480) ∘ Nat.succ)
          = (List.range k).map (fun i => ((body.drop 1480).drop (1480 * i)).take 1480) := by
        apply List.map_congr_left
        intro i _
        simp only [Function.comp, Nat.succ_eq_add_one, List.drop_drop]
        rw [show 1480 * (i + 1) = 1480 + 1480 * i by omega]
      rw [e, ih (body.drop 1480) (by rw [List.length_drop]; omega)]
      simp

/-! ## checksum16 on an odd length, and ip_prefix_match -/

theorem checksum16_loop_split (le : Bool) :
    ∀ (l rest : List Nat) (n cs : Nat), l.length % 2 = 0 →
      checksum16_loop le (l.length + n) (l ++ rest) cs
        = checksum16_loop le n rest (checksum16_loop le l.length l cs).2.2
  | [], rest, n, cs, _ => by simp [checksum16_loop]
  | [a], _, _, _, h => by simp at h
  | a :: b :: t, rest, n, cs, h => by
      have hlen : t.length % 2 = 0 := by simp at h; omega
      have hr : read16 le (a :: b :: t ++ rest) = read16 le (a :: b :: t) := by
        cases le <;> simp [read16]
      have e : (a :: b :: t).length + n = (t.length + n) + 2 := by
        simp only [List.length_cons]; omega
      rw [e]
      show checksum16_loop le (t.length + n + 2) _ _
        = checksum16_loop le n rest (checksum16_loop le (t.length + 2) _ _).2.2
      rw [checksum16_loop, checksum16_loop, hr]
      simp only [List.cons_append, List.drop_succ_cons, List.drop_zero]
      exact checksum16_loop_split le t rest n _ hlen

/-- On a little-endian host the odd tail of `checksum16` adds the byte that
follows the buffer, not the last byte of the buffer: the result is the
checksum of the buffer with its last byte replaced by the byte after it. -/
theorem checksum16_odd_tail (l rest : List Nat) (b x : Nat) (hl : l.length % 2 = 0)
    (hb : b < 256) :
    checksum16 true (l ++ b :: x :: rest) (l.length + 1)
      = checksum16 true (l ++ [x, 0]) (l.length + 2) := by
  unfold checksum16
  rw [checksum16_loop_split true l _ 1 0 hl, checksum16_loop_split true l _ 2 0 hl]
  have e : (b + 256 * x) / 256 = x := by omega
  simp [checksum16_loop, read16, e]

/-- C17. A buffer of three bytes 0x12, 0x34, 0x56: the specification asks for
the checksum of 0x12, 0x34, 0x56, 0x00, whatever follows the buffer.  On a
little-endian host `checksum16` adds the byte after the buffer in place of
0x56, so the result changes with that byte and misses the asked value even
when that byte is zero; on a big-endian host it adds 0x56 as a low byte. -/
theorem checksum16_odd_length_wrong :
    checksum16 true [0x12, 0x34, 0x56, 0x00] 4 = 0xcb97
      ∧ checksum16 true ([0x12, 0x34, 0x56] ++ [0xaa]) 3 = 0xcb43
      ∧ checksum16 true ([0x12, 0x34, 0x56] ++ [0xbb]) 3 = 0xcb32
      ∧ checksum16 true ([0x12, 0x34, 0x56] ++ [0x00]) 3 = 0xcbed
      ∧ checksum16 false [0x12, 0x34, 0x56, 0x00] 4 = 0x97cb
      ∧ checksum16 false ([0x12, 0x34, 0x56] ++ [0xaa]) 3 = 0xed75 := by
  decide

set_option maxRecDepth 100000 in
/-- The bit loop on one byte started at count 0: it stops at the first set
bit from the top, and runs all eight rounds exactly on the zero byte. -/
theorem ip_prefix_match_inner_byte :
    ∀ f, f < 256 →
      (ip_prefix_match_inner 8 0 f).2 ≤ 8
        ∧ (∀ s, s < (ip_prefix_match_inner 8 0 f).2 → f.testBit (7 - s) = false)
        ∧ ((ip_prefix_match_inner 8 0 f).1 = true →
            (ip_prefix_match_inner 8 0 f).2 < 8
              ∧ f.testBit (7 - (ip_prefix_match_inner 8 0 f).2) = true)
        ∧ ((ip_prefix_match_inner 8 0 f).1 = false →
            (ip_prefix_match_inner 8 0 f).2 = 8 ∧ f = 0) := by
  decide

theorem ip_prefix_match_inner_count :
    ∀ (j c f : Nat), c + j < 256 →
      ip_prefix_match_inner j c f
        = ((ip_prefix_match_inner j 0 f).1, c + (ip_prefix_match_inner j 0 f).2)
  | 0, c, f, _ => rfl
  | j + 1, c, f, h => by
      rw [ip_prefix_match_inner, ip_prefix_match_inner]
      by_cases hb : f &&& (1 <<< 7) ≠ 0
      · rw [if_pos hb, if_pos hb]
        rfl
      · rw [if_neg hb, if_neg hb, ip_prefix_match_inner_count j ((c + 1) % 2 ^ 8) _ (by omega),
          ip_prefix_match_inner_count j ((0 + 1) % 2 ^ 8) _ (by omega)]
        simp only [Nat.zero_add, Prod.mk.injEq, true_and]
        omega

theorem ip_bit_agree (a b : List Nat) (k s : Nat) (hs : s ≤ 8)
    (hpre : ∀ j, j < k → a.getD j 0 = b.getD j 0)
    (hz : ∀ t, t < s → (a.getD k 0 ^^^ b.getD k 0).testBit (7 - t) = false) :
    ∀ i, i < 8 * k + s → ip_bit a i = ip_bit b i := by
  intro i hi
  unfold ip_bit
  by_cases hk : i / 8 < k
  · rw [hpre _ hk]
  · have e : i / 8 = k := by omega
    have h := hz (i % 8) (by omega)
    rw [Nat.testBit_xor] at h
    rw [e]
    revert h
    cases (a.getD k 0).testBit (7 - i % 8) <;> cases (b.getD k 0).testBit (7 - i % 8) <;> simp

theorem ip_bit_differ (a b : List Nat) (k s : Nat) (hs : s < 8)
    (h : (a.getD k 0 ^^^ b.getD k 0).testBit (7 - s) = true) :
    ip_bit a (8 * k + s) ≠ ip_bit b (8 * k + s) := by
  unfold ip_bit
  rw [show (8 * k + s) / 8 = k by omega, show (8 * k + s) % 8 = s by omega]
  rw [Nat.testBit_xor] at h
  revert h
  cases (a.getD k 0).testBit (7 - s) <;> cases (b.getD k 0).testBit (7 - s) <;> simp

/-- The byte loop of `ip_prefix_match` entered at byte `i` with the first `i`
bytes equal and `count = 8 * i`. -/
theorem ip_prefix_match_loop_spec (a b : List Nat)
    (ha : ∀ j, a.getD j 0 < 256) (hb : ∀ j, b.getD j 0 < 256) :
    ∀ (n i : Nat), 8 * (i + n) < 256 → (∀ j, j < i → a.getD j 0 = b.getD j 0) →
      ip_prefix_match_loop a b n i (8 * i) ≤ 8 * (i + n)
        ∧ (∀ t, t < ip_prefix_match_loop a b n i (8 * i) → ip_bit a t = ip_bit b t)
        ∧ (ip_prefix_match_loop a b n i (8 * i) < 8 * (i + n) →
            ip_bit a (ip_prefix_match_loop a b n i (8 * i))
              ≠ ip_bit b (ip_prefix_match_loop a b n i (8 * i)))
        ∧ (ip_prefix_match_loop a b n i (8 * i) = 8 * (i + n) →
            ∀ j, j < i + n → a.getD j 0 = b.getD j 0)
  | 0, i, _, hpre => by
      refine ⟨Nat.le_refl _, ?_, fun h => absurd h (Nat.lt_irrefl _), fun _ j hj => hpre j hj⟩
      exact ip_bit_agree a b i 0 (by omega) hpre (fun t ht => absurd ht (Nat.not_lt_zero _))
  | n + 1, i, hn, hpre => by
      have hf : a.getD i 0 ^^^ b.getD i 0 < 256 :=
        Nat.xor_lt_two_pow (show a.getD i 0 < 2 ^ 8 from ha i) (hb i)
      obtain ⟨h1, h2, h3, h4⟩ := ip_prefix_match_inner_byte _ hf
      rw [ip_prefix_match_loop]
      rw [show (a.getD i 0 ^^^ b.getD i 0) % 2 ^ 8 = a.getD i 0 ^^^ b.getD i 0 from
        Nat.mod_eq_of_lt hf, ip_prefix_match_inner_count 8 (8 * i) _ (by omega)]
      rcases hr : ip_prefix_match_inner 8 0 (a.getD i 0 ^^^ b.getD i 0) with ⟨t, s⟩
      rw [hr] at h1 h2 h3 h4
      simp only at h1 h2 h3 h4
      cases t with
      | true =>
          obtain ⟨h5, h6⟩ := h3 rfl
          simp only
          refine ⟨by omega, ip_bit_agree a b i s h1 hpre h2, fun _ => ip_bit_differ a b i s h5 h6,
            fun h => by omega⟩
      | false =>
          obtain ⟨h5, h6⟩ := h4 rfl
          subst h5
          have hi : a.getD i 0 = b.getD i 0 := Nat.xor_eq_zero.mp h6
          simp only
          have hpre1 : ∀ j, j < i + 1 → a.getD j 0 = b.getD j 0 := by
            intro j hj
            by_cases hji : j < i
            · exact hpre j hji
            · rw [show j = i by omega]
              exact hi
          have ih := ip_prefix_match_loop_spec a b ha hb n (i + 1) (by omega) hpre1
          rw [show 8 * (i + 1) = 8 * i + 8 by omega,
            show i + 1 + n = i + (n + 1) by omega] at ih
          exact ih

theorem getD_lt_of_forall (l : List Nat) (h : ∀ x ∈ l, x < 256) (j : Nat) : l.getD j 0 < 256 := by
  rw [List.getD_eq_getElem?_getD]
  cases hj : l[j]? with
  | none => simp
  | some x => exact h x (List.getElem?_mem hj)

/-- C18. For two 4-byte addresses `ip_prefix_match` returns the number of
leading bits (most significant bit of byte 0 first) on which they agree: it is
at most 32, the first that many bits are identical, no larger `k` up to 32 has
the first `k` bits identical, it is 32 exactly when the addresses are equal,
and it is the same for the two orders of the arguments. -/
theorem ip_prefix_match_leading_bits (a b : List Nat) (hla : a.length = 4) (hlb : b.length = 4)
    (ha : ∀ x ∈ a, x < 256) (hb : ∀ x ∈ b, x < 256) :
    ip_prefix_match a b ≤ 32
      ∧ (∀ i, i < ip_prefix_match a b → ip_bit a i = ip_bit b i)
      ∧ (∀ k, k ≤ 32 → (∀ i, i < k → ip_bit a i = ip_bit b i) → k ≤ ip_prefix_match a b)
      ∧ (ip_prefix_match a b = 32 ↔ a = b)
      ∧ ip_prefix_match b a = ip_prefix_match a b := by
  obtain ⟨p1, p2, p3, p4⟩ := ip_prefix_match_loop_spec a b (getD_lt_of_forall a ha)
    (getD_lt_of_forall b hb) 4 0 (by omega) (fun j hj => absurd hj (Nat.not_lt_zero _))
  obtain ⟨q1, q2, q3, _⟩ := ip_prefix_match_loop_spec b a (getD_lt_of_forall b hb)
    (getD_lt_of_forall a ha) 4 0 (by omega) (fun j hj => absurd hj (Nat.not_lt_zero _))
  have e : ip_prefix_match_loop a b 4 0 (8 * 0) = ip_prefix_match a b := rfl
  have e' : ip_prefix_match_loop b a 4 0 (8 * 0) = ip_prefix_match b a := rfl
  rw [e] at p1 p2 p3 p4
  rw [e'] at q1 q2 q3
  have hmax : ∀ k, k ≤ 32 → (∀ i, i < k → ip_bit a i = ip_bit b i) → k ≤ ip_prefix_match a b := by
    intro k hk hag
    by_contra hlt
    exact p3 (by omega) (hag _ (by omega))
  refine ⟨by omega, p2, hmax, ⟨fun h => ?_, fun h => ?_⟩, ?_⟩
  · have hget := p4 (by omega)
    apply List.ext_getElem (by rw [hla, hlb])
    intro j h1 h2
    have := hget j (by omega)
    rwa [List.getD_eq_getElem _ _ h1, List.getD_eq_getElem _ _ h2] at this
  · by_contra hne
    exact p3 (by omega) (by rw [h])
  · apply Nat.le_antisymm
    · exact hmax _ (by omega) (fun i hi => (q2 i hi).symm)
    · by_contra hlt
      exact q3 (by omega) (p2 _ (by omega)).symm

theorem ip_prefix_match_leading_bits_witness :
    ip_prefix_match [10, 0, 0, 1] [10, 0, 1, 1] ≤ 32
      ∧ (∀ i, i < ip_prefix_match [10, 0, 0, 1] [10, 0, 1, 1] →
          ip_bit [10, 0, 0, 1] i = ip_bit [10, 0, 1, 1] i)
      ∧ (∀ k, k ≤ 32 → (∀ i, i < k → ip_bit [10, 0, 0, 1] i = ip_bit [10, 0, 1, 1] i) →
          k ≤ ip_prefix_match [10, 0, 0, 1] [10, 0, 1, 1])
      ∧ (ip_prefix_match [10, 0, 0, 1] [10, 0, 1, 1] = 32 ↔ [10, 0, 0, 1] = [10, 0, 1, 1])
      ∧ ip_prefix_match [10, 0, 1, 1] [10, 0, 0, 1] = ip_prefix_match [10, 0, 0, 1] [10, 0, 1, 1] :=
  ip_prefix_match_leading_bits [10, 0, 0, 1] [10, 0, 1, 1] rfl rfl (by decide) (by decide)

/-! ## arp.c -/

theorem map_get_map_set_ne {κ α : Type} [DecidableEq κ] (map : List (κ × α)) (key key' : κ)
    (value : α) (h : key' ≠ key) :
    map_get (map_set map key value) key' = map_get (map_delete map key) key' := by
  simp [map_get, map_set, List.find?_cons, Ne.symm h]

theorem map_get_map_delete {κ α : Type} [DecidableEq κ] (map : List (κ × α)) (key : κ) :
    map_get (map_delete map key) key = none := by
  induction map with
  | nil => rfl
  | cons e t ih =>
      unfold map_delete at ih ⊢
      by_cases he : e.1 = key
      · simpa [List.filter_cons, he] using ih
      · simp only [List.filter_cons, ne_eq, he, not_false_eq_true, decide_True, if_true]
        simp only [map_get, List.find?_cons, he, decide_False] at ih ⊢
        exact ih

theorem map_get_map_delete_ne {κ α : Type} [DecidableEq κ] (map : List (κ × α)) (key key' : κ)
    (h : key' ≠ key) :
    map_get (map_delete map key) key' = map_get map key' := by
  induction map with
  | nil => rfl
  | cons e t ih =>
      unfold map_delete at ih ⊢
      by_cases he : e.1 = key
      · have he' : ¬ e.1 = key' := fun h' => h (h'.symm.trans he)
        simp only [List.filter_cons, ne_eq, he, not_true_eq_false, decide_False, if_false]
        simp only [map_get, List.find?_cons, he', decide_False] at ih ⊢
        simpa using ih
      · simp only [List.filter_cons, ne_eq, he, not_false_eq_true, decide_True, if_true]
        by_cases he' : e.1 = key'
        · simp [map_get, List.find?_cons, he']
        · simp only [map_get, List.find?_cons, he', decide_False] at ih ⊢
          simpa using ih

theorem peek_memcpy (mem src : List Nat) (off : Nat) (h : off ≤ mem.length) :
    peek (memcpy mem off src) off src.length = src := by
  unfold peek memcpy
  rw [List.append_assoc, List.drop_append_of_le_length (by rw [List.length_take]; omega),
    List.drop_of_length_le (by rw [List.length_take]; omega), List.nil_append,
    List.take_left]

theorem list_explicit_6 (l : List Nat) (h : l.length = 6) :
    ∃ a0 a1 a2 a3 a4 a5 : Nat, l = [a0, a1, a2, a3, a4, a5] := by
  obtain ⟨a0, l, rfl⟩ := List.exists_cons_of_length_pos (by omega : 0 < l.length)
  simp only [List.length_cons] at h
  obtain ⟨a1, l, rfl⟩ := List.exists_cons_of_length_pos (by omega : 0 < l.length)
  simp only [List.length_cons] at h
  obtain ⟨a2, l, rfl⟩ := List.exists_cons_of_length_pos (by omega : 0 < l.length)
  simp only [List.length_cons] at h
  obtain ⟨a3, l, rfl⟩ := List.exists_cons_of_length_pos (by omega : 0 < l.length)
  simp only [List.length_cons] at h
  obtain ⟨a4, l, rfl⟩ := List.exists_cons_of_length_pos (by omega : 0 < l.length)
  simp only [List.length_cons] at h
  obtain ⟨a5, l, rfl⟩ := List.exists_cons_of_length_pos (by omega : 0 < l.length)
  simp only [List.length_cons] at h
  have : l = [] := List.length_eq_zero.mp (by omega)
  subst this
  exact ⟨a0, a1, a2, a3, a4, a5, rfl⟩

/-- The request `arp_req` builds. -/
theorem arp_req_head (target_ip : List Nat) (w : World) (hip : w.net_if_ip.length = 4)
    (hmac : w.net_if_mac.length = 6) (ht : target_ip.length = 4) :
    peek (memcpy (store16 (arp_init_pkt w) 6 (swap16 ARP_REQUEST)) 24
        (peek target_ip 0 NET_IP_LEN)) 0 sizeof_arp_pkt_t
      = arp_packet ARP_REQUEST w.net_if_mac w.net_if_ip [0, 0, 0, 0, 0, 0] target_ip := by
  obtain ⟨s0, s1, s2, s3, hs⟩ := list_explicit_4 _ hip
  obtain ⟨m0, m1, m2, m3, m4, m5, hm⟩ := list_explicit_6 _ hmac
  obtain ⟨t0, t1, t2, t3, rfl⟩ := list_explicit_4 _ ht
  simp [arp_init_pkt, arp_packet, hs, hm, store16, memcpy, peek, swap16, ARP_REQUEST,
    ARP_HW_ETHER, NET_PROTOCOL_IP, NET_MAC_LEN, NET_IP_LEN, sizeof_arp_pkt_t]

/-- The reply `arp_resp` builds. -/
theorem arp_resp_head (target_ip target_mac : List Nat) (w : World)
    (hip : w.net_if_ip.length = 4) (hmac : w.net_if_mac.length = 6)
    (ht : target_ip.length = 4) (htm : target_mac.length = 6) :
    peek (memcpy (memcpy (store16 (arp_init_pkt w) 6 (swap16 ARP_REPLY)) 24
        (peek target_ip 0 NET_IP_LEN)) 18 (peek target_mac 0 NET_MAC_LEN)) 0 sizeof_arp_pkt_t
      = arp_packet ARP_REPLY w.net_if_mac w.net_if_ip target_mac target_ip := by
  obtain ⟨s0, s1, s2, s3, hs⟩ := list_explicit_4 _ hip
  obtain ⟨m0, m1, m2, m3, m4, m5, hm⟩ := list_explicit_6 _ hmac
  obtain ⟨t0, t1, t2, t3, rfl⟩ := list_explicit_4 _ ht
  obtain ⟨n0, n1, n2, n3, n4, n5, rfl⟩ := list_explicit_6 _ htm
  simp [arp_init_pkt, arp_packet, hs, hm, store16, memcpy, peek, swap16, ARP_REPLY,
    ARP_HW_ETHER, NET_PROTOCOL_IP, NET_MAC_LEN, NET_IP_LEN, sizeof_arp_pkt_t]

theorem arp_packet_length (opcode : Nat) (sm si tm ti : List Nat) (h1 : sm.length = 6)
    (h2 : si.length = 4) (h3 : tm.length = 6) (h4 : ti.length = 4) :
    (arp_packet opcode sm si tm ti).length = 28 := by
  simp [arp_packet, h1, h2, h3, h4]

theorem txbuf_bytes_after_init (txbuf : buf_t) (pkt : List Nat) (hpkt : pkt.length = 28)
    (hcap : 28 < txbuf.payload.length / 2) :
    buf_t.bytes { buf_init txbuf sizeof_arp_pkt_t with
        payload := memcpy (buf_init txbuf sizeof_arp_pkt_t).payload
          (buf_init txbuf sizeof_arp_pkt_t).data pkt } = pkt := by
  unfold buf_init
  simp only [sizeof_arp_pkt_t]
  rw [if_neg (by omega)]
  simp only [buf_t.bytes]
  rw [← hpkt]
  exact peek_memcpy _ _ _ (by omega)

/-- `arp_req` hands the link layer one broadcast frame, the request for
`target_ip`, and keeps both tables. -/
theorem arp_req_frame (target_ip : List Nat) (w : World)
    (hcap : 28 < w.txbuf.payload.length / 2) (hip : w.net_if_ip.length = 4)
    (hmac : w.net_if_mac.length = 6) (ht : target_ip.length = 4) :
    (arp_req target_ip w).trace = w.trace
        ++ [Event.ethernet_out
            (arp_packet ARP_REQUEST w.net_if_mac w.net_if_ip [0, 0, 0, 0, 0, 0] target_ip)
            ether_broadcast_mac NET_PROTOCOL_ARP]
      ∧ (arp_req target_ip w).arp_table = w.arp_table
      ∧ (arp_req target_ip w).arp_buf = w.arp_buf := by
  refine ⟨?_, rfl, rfl⟩
  have hb := txbuf_bytes_after_init w.txbuf _
    (arp_packet_length ARP_REQUEST w.net_if_mac w.net_if_ip [0, 0, 0, 0, 0, 0] target_ip hmac hip
      rfl ht) hcap
  have hh := arp_req_head target_ip w hip hmac ht
  unfold arp_req
  simp only [ethernet_out, World.emit, BufArg.get]
  have e : arp_init_pkt { w with txbuf := buf_init w.txbuf sizeof_arp_pkt_t } = arp_init_pkt w := rfl
  rw [e, hh, hb]

/-- `arp_resp` hands the link layer one frame for `target_mac`, the reply to
`target_ip`, and keeps both tables. -/
theorem arp_resp_frame (target_ip target_mac : List Nat) (w : World)
    (hcap : 28 < w.txbuf.payload.length / 2) (hip : w.net_if_ip.length = 4)
    (hmac : w.net_if_mac.length = 6) (ht : target_ip.length = 4) (htm : target_mac.length = 6) :
    (arp_resp target_ip target_mac w).trace = w.trace
        ++ [Event.ethernet_out
            (arp_packet ARP_REPLY w.net_if_mac w.net_if_ip target_mac target_ip)
            target_mac NET_PROTOCOL_ARP]
      ∧ (arp_resp target_ip target_mac w).arp_table = w.arp_table
      ∧ (arp_resp target_ip target_mac w).arp_buf = w.arp_buf := by
  refine ⟨?_, rfl, rfl⟩
  have hb := txbuf_bytes_after_init w.txbuf _
    (arp_packet_length ARP_REPLY w.net_if_mac w.net_if_ip target_mac target_ip hmac hip
      htm ht) hcap
  have hh := arp_resp_head target_ip target_mac w hip hmac ht htm
  unfold arp_resp
  simp only [ethernet_out, World.emit, BufArg.get]
  have e : arp_init_pkt { w with txbuf := buf_init w.txbuf sizeof_arp_pkt_t } = arp_init_pkt w := rfl
  rw [e, hh, hb]

theorem swap16_pair (a b : Nat) (ha : a < 256) (hb : b < 256) :
    swap16 (a + 256 * b) = 256 * a + b := by
  unfold swap16
  omega

/-- The body of `arp_in` on a buffer of at least 28 bytes whose packet bytes
are below 256. -/
theorem arp_in_unfold (len : Nat) (pre pkt rest : List Nat) (src_mac : List Nat) (w : World)
    (hlen : 28 ≤ len) (hp : pkt.length = 28) (hb : ∀ x ∈ pkt, x < 256)
    (hip : w.net_if_ip.length = 4) :
    arp_in ⟨len, pre.length, pre ++ pkt ++ rest⟩ src_mac w =
      if arp_hw_type pkt ≠ ARP_HW_ETHER then w
      else if arp_pro_type pkt ≠ NET_PROTOCOL_IP then w
      else if arp_hw_len pkt ≠ NET_MAC_LEN then w
      else if arp_pro_len pkt ≠ NET_IP_LEN then w
      else if arp_opcode pkt ≠ ARP_REQUEST ∧ arp_opcode pkt ≠ ARP_REPLY then w
      else if arp_opcode pkt = ARP_REQUEST ∧ arp_target_ip pkt = w.net_if_ip then
        arp_resp (arp_sender_ip pkt) src_mac
          (match map_get w.arp_buf (arp_sender_ip pkt) with
          | some uncommit_buf =>
              { w with
                arp_table := map_set w.arp_table (arp_sender_ip pkt) (peek src_mac 0 NET_MAC_LEN),
                trace := w.trace ++ [Event.ethernet_out uncommit_buf.bytes src_mac NET_PROTOCOL_IP],
                arp_buf := map_delete w.arp_buf (arp_sender_ip pkt) }
          | none =>
              { w with
                arp_table := map_set w.arp_table (arp_sender_ip pkt)
                  (peek src_mac 0 NET_MAC_LEN) })
      else
        (match map_get w.arp_buf (arp_sender_ip pkt) with
          | some uncommit_buf =>
              { w with
                arp_table := map_set w.arp_table (arp_sender_ip pkt) (peek src_mac 0 NET_MAC_LEN),
                trace := w.trace ++ [Event.ethernet_out uncommit_buf.bytes src_mac NET_PROTOCOL_IP],
                arp_buf := map_delete w.arp_buf (arp_sender_ip pkt) }
          | none =>
              { w with
                arp_table := map_set w.arp_table (arp_sender_ip pkt)
                  (peek src_mac 0 NET_MAC_LEN) }) := by
  obtain ⟨a0, a1, a2, a3, a4, a5, a6, a7, a8, a9, a10, a11, a12, a13, a14, a15, a16, a17, a18,
    a19, a20, a21, a22, a23, a24, a25, a26, a27, rfl⟩ := list_explicit_28 pkt hp
  obtain ⟨s0, s1, s2, s3, hs⟩ := list_explicit_4 _ hip
  have b0 : a0 < 256 := hb a0 (by simp)
  have b1 : a1 < 256 := hb a1 (by simp)
  have b2 : a2 < 256 := hb a2 (by simp)
  have b3 : a3 < 256 := hb a3 (by simp)
  have b6 : a6 < 256 := hb a6 (by simp)
  have b7 : a7 < 256 := hb a7 (by simp)
  unfold arp_in
  simp only [sizeof_arp_pkt_t]
  rw [if_neg (by omega)]
  simp only [load16_append_length, load16_append_add, load8_append_length,
    load8_append_add, List.append_assoc, List.cons_append, List.nil_append, load16_cons_zero,
    load16_cons_succ, load8_cons_zero, load8_cons_succ, peek_append_add, peek_append_length,
    peek_cons_succ, peek_zero_cons, peek_zero_zero, arp_hw_type, arp_pro_type, arp_hw_len,
    arp_pro_len, arp_opcode, arp_sender_ip, arp_target_ip, NET_IP_LEN, hs, memcmp_ne,
    List.take_succ_cons, List.take_zero, swap16_pair _ _ b0 b1, swap16_pair _ _ b2 b3,
    swap16_pair _ _ b6 b7, ethernet_out, World.emit, BufArg.get]
  have e1 : swap16 ARP_HW_ETHER = 256 := rfl
  have e2 : swap16 NET_PROTOCOL_IP = 8 := rfl
  have e3 : swap16 ARP_REQUEST = 256 := rfl
  have e4 : swap16 ARP_REPLY = 512 := rfl
  rw [e1, e2, e3, e4]
  simp only [ARP_HW_ETHER, NET_PROTOCOL_IP, ARP_REQUEST, ARP_REPLY, NET_MAC_LEN]
  have c1 : a0 + 256 * a1 = 256 ↔ 256 * a0 + a1 = 1 := by constructor <;> intro h <;> omega
  have c2 : a2 + 256 * a3 = 8 ↔ 256 * a2 + a3 = 2048 := by constructor <;> intro h <;> omega
  have c3 : a6 + 256 * a7 = 256 ↔ 256 * a6 + a7 = 1 := by constructor <;> intro h <;> omega
  have c4 : a6 + 256 * a7 = 512 ↔ 256 * a6 + a7 = 2 := by constructor <;> intro h <;> omega
  simp only [ne_eq, c1, c2, c3, c4]
  cases map_get w.arp_buf [a14, a15, a16, a17] <;>
    simp only [List.take_succ_cons, List.take_zero, decide_eq_false_iff_not, not_not,
      decide_not, Bool.not_eq_false']  <;> simp only [decide_eq_true_eq]

theorem buf_cases_arp (buf : buf_t) (hwf : buf.data + buf.len ≤ buf.payload.length)
    (hlen : 28 ≤ buf.len) :
    ∃ pre rest, buf = ⟨buf.len, pre.length, pre ++ arp_pkt_of buf ++ rest⟩
      ∧ (arp_pkt_of buf).length = 28 := by
  obtain ⟨h1, h2, h3⟩ := split_at buf.payload buf.data 28 (by omega)
  refine ⟨buf.payload.take buf.data, buf.payload.drop (buf.data + 28), ?_, h3⟩
  rw [h2]
  unfold arp_pkt_of
  rw [← h1]

/-- C12. `arp_in` leaves the state of the stack as it was (the ARP cache and
the pending buffer unchanged, nothing handed to the link layer) when the
received buffer is shorter than the 28-byte ARP packet, or its hardware type
is not Ethernet, or its protocol type is not IPv4, or its hardware length is
not 6, or its protocol length is not 4, or its opcode is neither REQUEST nor
REPLY. -/
theorem arp_in_drops_malformed (buf : buf_t) (src_mac : List Nat) (w : World)
    (hwf : buf.data + buf.len ≤ buf.payload.length)
    (hb : ∀ x ∈ arp_pkt_of buf, x < 256) (hip : w.net_if_ip.length = 4)
    (h : buf.len < 28 ∨ arp_hw_type (arp_pkt_of buf) ≠ ARP_HW_ETHER
        ∨ arp_pro_type (arp_pkt_of buf) ≠ NET_PROTOCOL_IP
        ∨ arp_hw_len (arp_pkt_of buf) ≠ NET_MAC_LEN
        ∨ arp_pro_len (arp_pkt_of buf) ≠ NET_IP_LEN
        ∨ (arp_opcode (arp_pkt_of buf) ≠ ARP_REQUEST
            ∧ arp_opcode (arp_pkt_of buf) ≠ ARP_REPLY)) :
    arp_in buf src_mac w = w := by
  by_cases hlen : buf.len < 28
  · unfold arp_in
    rw [if_pos (by simpa [sizeof_arp_pkt_t] using hlen)]
  · obtain ⟨pre, rest, hbuf, hp⟩ := buf_cases_arp buf hwf (by omega)
    have key := arp_in_unfold buf.len pre (arp_pkt_of buf) rest src_mac w (by omega) hp hb hip
    rw [← hbuf] at key
    rw [key]
    rcases h with h | h | h | h | h | h
    · exact absurd h hlen
    · rw [if_pos h]
    · split_ifs <;> rfl
    · split_ifs <;> rfl
    · split_ifs <;> rfl
    · split_ifs <;> rfl

theorem arp_in_drops_malformed_witness :
    arp_in arp_opcode3_b [0xaa, 0xbb, 0xcc, 0xdd, 0xee, 0xff] host_a_pending = host_a_pending :=
  arp_in_drops_malformed arp_opcode3_b [0xaa, 0xbb, 0xcc, 0xdd, 0xee, 0xff] host_a_pending
    (by decide) (by decide) (by decide)
    (Or.inr (Or.inr (Or.inr (Or.inr (Or.inr ⟨by decide, by decide⟩)))))

theorem map_delete_of_none {κ α : Type} [DecidableEq κ] (map : List (κ × α)) (key : κ)
    (h : map_get map key = none) : map_delete map key = map := by
  induction map with
  | nil => rfl
  | cons e t ih =>
      unfold map_delete at ih ⊢
      by_cases he : e.1 = key
      · simp [map_get, List.find?_cons, he] at h
      · simp only [map_get, List.find?_cons, he, decide_False] at h ih
        simp only [List.filter_cons, ne_eq, he, not_false_eq_true, decide_True, if_true]
        rw [ih (by simpa [map_get] using h)]

theorem arp_well_formed_iff (buf : buf_t) :
    arp_well_formed buf = true ↔
      28 ≤ buf.len ∧ arp_hw_type (arp_pkt_of buf) = ARP_HW_ETHER
        ∧ arp_pro_type (arp_pkt_of buf) = NET_PROTOCOL_IP
        ∧ arp_hw_len (arp_pkt_of buf) = NET_MAC_LEN
        ∧ arp_pro_len (arp_pkt_of buf) = NET_IP_LEN
        ∧ (arp_opcode (arp_pkt_of buf) = ARP_REQUEST
            ∨ arp_opcode (arp_pkt_of buf) = ARP_REPLY) := by
  simp [arp_well_formed, and_assoc]

/-- What `arp_in` does with a well-formed packet from sender IP `X` and source
MAC `M`: the cache maps `X` to `M`, a datagram pending for `X` is handed to
the link layer for `M` and removed, and a request for this host's address is
answered by one reply to `M`. -/
theorem arp_in_accepted (buf : buf_t) (src_mac : List Nat) (w : World)
    (hwf : buf.data + buf.len ≤ buf.payload.length)
    (hb : ∀ x ∈ arp_pkt_of buf, x < 256) (hip : w.net_if_ip.length = 4)
    (hmac : w.net_if_mac.length = 6) (hsm : src_mac.length = 6)
    (hcap : 28 < w.txbuf.payload.length / 2) (hacc : arp_well_formed buf = true) :
    (arp_in buf src_mac w).trace = w.trace
        ++ (match map_get w.arp_buf (arp_sender_ip (arp_pkt_of buf)) with
            | some uncommit_buf =>
                [Event.ethernet_out uncommit_buf.bytes src_mac NET_PROTOCOL_IP]
            | none => [])
        ++ (if arp_opcode (arp_pkt_of buf) = ARP_REQUEST
              ∧ arp_target_ip (arp_pkt_of buf) = w.net_if_ip then
            [Event.ethernet_out
              (arp_packet ARP_REPLY w.net_if_mac w.net_if_ip src_mac
                (arp_sender_ip (arp_pkt_of buf))) src_mac NET_PROTOCOL_ARP]
            else [])
      ∧ (arp_in buf src_mac w).arp_table
          = map_set w.arp_table (arp_sender_ip (arp_pkt_of buf)) src_mac
      ∧ (arp_in buf src_mac w).arp_buf
          = map_delete w.arp_buf (arp_sender_ip (arp_pkt_of buf)) := by
  obtain ⟨hlen, a1, a2, a3, a4, a5⟩ := (arp_well_formed_iff buf).mp hacc
  obtain ⟨pre, rest, hbuf, hp⟩ := buf_cases_arp buf hwf hlen
  have key := arp_in_unfold buf.len pre (arp_pkt_of buf) rest src_mac w hlen hp hb hip
  rw [← hbuf] at key
  have hX : (arp_sender_ip (arp_pkt_of buf)).length = 4 := by
    unfold arp_sender_ip
    exact peek_length _ _ _ (by omega)
  have hpm : peek src_mac 0 NET_MAC_LEN = src_mac := peek_zero_of_length hsm
  rw [key, if_neg (by simp [a1]), if_neg (by simp [a2]), if_neg (by simp [a3]),
    if_neg (by simp [a4]), if_neg (by rcases a5 with h | h <;> simp [h]), hpm]
  cases hq : map_get w.arp_buf (arp_sender_ip (arp_pkt_of buf)) with
  | none =>
      by_cases hr : arp_opcode (arp_pkt_of buf) = ARP_REQUEST
          ∧ arp_target_ip (arp_pkt_of buf) = w.net_if_ip
      · rw [if_pos hr, if_pos hr]
        obtain ⟨t1, t2, t3⟩ := arp_resp_frame (arp_sender_ip (arp_pkt_of buf)) src_mac
          { w with arp_table := map_set w.arp_table (arp_sender_ip (arp_pkt_of buf)) src_mac }
          hcap hip hmac hX hsm
        refine ⟨?_, t2, ?_⟩
        · rw [t1]
          simp
        · rw [t3, map_delete_of_none _ _ hq]
      · rw [if_neg hr, if_neg hr]
        refine ⟨by simp, rfl, ?_⟩
        rw [map_delete_of_none _ _ hq]
  | some D =>
      by_cases hr : arp_opcode (arp_pkt_of buf) = ARP_REQUEST
          ∧ arp_target_ip (arp_pkt_of buf) = w.net_if_ip
      · rw [if_pos hr, if_pos hr]
        obtain ⟨t1, t2, t3⟩ := arp_resp_frame (arp_sender_ip (arp_pkt_of buf)) src_mac
          { w with
            arp_table := map_set w.arp_table (arp_sender_ip (arp_pkt_of buf)) src_mac,
            trace := w.trace ++ [Event.ethernet_out D.bytes src_mac NET_PROTOCOL_IP],
            arp_buf := map_delete w.arp_buf (arp_sender_ip (arp_pkt_of buf)) }
          hcap hip hmac hX hsm
        exact ⟨t1, t2, t3⟩
      · rw [if_neg hr, if_neg hr]
        exact ⟨by simp, rfl, rfl⟩

theorem frames_of_append (protocol : Nat) (s t : List Event) :
    frames_of protocol (s ++ t) = frames_of protocol s ++ frames_of protocol t := by
  simp [frames_of, List.filterMap_append]

/-- The fields of the packet `arp_packet` lays out. -/
theorem arp_packet_fields (opcode : Nat) (sm si tm ti : List Nat) (ho : opcode < 65536)
    (h1 : sm.length = 6) (h2 : si.length = 4) (h3 : tm.length = 6) (h4 : ti.length = 4) :
    arp_hw_type (arp_packet opcode sm si tm ti) = ARP_HW_ETHER
      ∧ arp_pro_type (arp_packet opcode sm si tm ti) = NET_PROTOCOL_IP
      ∧ arp_hw_len (arp_packet opcode sm si tm ti) = NET_MAC_LEN
      ∧ arp_pro_len (arp_packet opcode sm si tm ti) = NET_IP_LEN
      ∧ arp_opcode (arp_packet opcode sm si tm ti) = opcode
      ∧ arp_sender_mac (arp_packet opcode sm si tm ti) = sm
      ∧ arp_sender_ip (arp_packet opcode sm si tm ti) = si
      ∧ arp_target_mac (arp_packet opcode sm si tm ti) = tm
      ∧ arp_target_ip (arp_packet opcode sm si tm ti) = ti := by
  obtain ⟨m0, m1, m2, m3, m4, m5, rfl⟩ := list_explicit_6 _ h1
  obtain ⟨s0, s1, s2, s3, rfl⟩ := list_explicit_4 _ h2
  obtain ⟨n0, n1, n2, n3, n4, n5, rfl⟩ := list_explicit_6 _ h3
  obtain ⟨t0, t1, t2, t3, rfl⟩ := list_explicit_4 _ h4
  have e : swap16 (opcode / 256 % 256 + 256 * (opcode % 256)) = opcode := swap16_be opcode ho
  refine ⟨?_, ?_, rfl, rfl, ?_, rfl, rfl, rfl, rfl⟩
  · simp [arp_hw_type, arp_packet, load16, read16, swap16, ARP_HW_ETHER]
  · simp [arp_pro_type, arp_packet, load16, read16, swap16, NET_PROTOCOL_IP]
  · simpa [arp_opcode, arp_packet, load16, read16] using e

/-- C11. After `arp_in` has processed a well-formed ARP packet (request or
reply) with sender IP `X` from source MAC `M`, a cache lookup for `X` yields
`M` whatever the cache held before, `X` has no entry in the pending buffer,
the lookups of every other address in both tables are as before, and the
frames with ethertype IP handed to the link layer are exactly one frame
carrying the datagram that was pending for `X`, addressed to `M` (none when
nothing was pending). -/
theorem arp_in_learns_and_flushes (buf : buf_t) (src_mac : List Nat) (w : World)
    (hwf : buf.data + buf.len ≤ buf.payload.length)
    (hb : ∀ x ∈ arp_pkt_of buf, x < 256) (hip : w.net_if_ip.length = 4)
    (hmac : w.net_if_mac.length = 6) (hsm : src_mac.length = 6)
    (hcap : 28 < w.txbuf.payload.length / 2) (hacc : arp_well_formed buf = true) :
    map_get (arp_in buf src_mac w).arp_table (arp_sender_ip (arp_pkt_of buf)) = some src_mac
      ∧ (∀ ip, ip ≠ arp_sender_ip (arp_pkt_of buf) →
          map_get (arp_in buf src_mac w).arp_table ip = map_get w.arp_table ip)
      ∧ map_get (arp_in buf src_mac w).arp_buf (arp_sender_ip (arp_pkt_of buf)) = none
      ∧ (∀ ip, ip ≠ arp_sender_ip (arp_pkt_of buf) →
          map_get (arp_in buf src_mac w).arp_buf ip = map_get w.arp_buf ip)
      ∧ ∃ t, (arp_in buf src_mac w).trace = w.trace ++ t
          ∧ frames_of NET_PROTOCOL_IP t
              = match map_get w.arp_buf (arp_sender_ip (arp_pkt_of buf)) with
                | some datagram => [(datagram.bytes, src_mac)]
                | none => [] := by
  obtain ⟨h1, h2, h3⟩ := arp_in_accepted buf src_mac w hwf hb hip hmac hsm hcap hacc
  refine ⟨?_, ?_, ?_, ?_, _, by rw [h1, List.append_assoc], ?_⟩
  · rw [h2]
    exact map_get_map_set _ _ _
  · intro ip hne
    rw [h2, map_get_map_set_ne _ _ _ _ hne, map_get_map_delete_ne _ _ _ hne]
  · rw [h3]
    exact map_get_map_delete _ _
  · intro ip hne
    rw [h3, map_get_map_delete_ne _ _ _ hne]
  · rw [frames_of_append]
    have e : frames_of NET_PROTOCOL_IP
        (if arp_opcode (arp_pkt_of buf) = ARP_REQUEST
            ∧ arp_target_ip (arp_pkt_of buf) = w.net_if_ip then
          [Event.ethernet_out
            (arp_packet ARP_REPLY w.net_if_mac w.net_if_ip src_mac
              (arp_sender_ip (arp_pkt_of buf))) src_mac NET_PROTOCOL_ARP]
          else []) = [] := by
      split_ifs <;> simp [frames_of, NET_PROTOCOL_ARP, NET_PROTOCOL_IP]
    rw [e, List.append_nil]
    cases map_get w.arp_buf (arp_sender_ip (arp_pkt_of buf)) <;> simp [frames_of]

theorem arp_in_learns_and_flushes_witness :
    map_get (arp_in arp_reply_b [0xaa, 0xbb, 0xcc, 0xdd, 0xee, 0xff] host_a_pending).arp_table
        (arp_sender_ip (arp_pkt_of arp_reply_b)) = some [0xaa, 0xbb, 0xcc, 0xdd, 0xee, 0xff]
      ∧ (∀ ip, ip ≠ arp_sender_ip (arp_pkt_of arp_reply_b) →
          map_get (arp_in arp_reply_b [0xaa, 0xbb, 0xcc, 0xdd, 0xee, 0xff]
            host_a_pending).arp_table ip = map_get host_a_pending.arp_table ip)
      ∧ map_get (arp_in arp_reply_b [0xaa, 0xbb, 0xcc, 0xdd, 0xee, 0xff] host_a_pending).arp_buf
          (arp_sender_ip (arp_pkt_of arp_reply_b)) = none
      ∧ (∀ ip, ip ≠ arp_sender_ip (arp_pkt_of arp_reply_b) →
          map_get (arp_in arp_reply_b [0xaa, 0xbb, 0xcc, 0xdd, 0xee, 0xff]
            host_a_pending).arp_buf ip = map_get host_a_pending.arp_buf ip)
      ∧ ∃ t, (arp_in arp_reply_b [0xaa, 0xbb, 0xcc, 0xdd, 0xee, 0xff] host_a_pending).trace
            = host_a_pending.trace ++ t
          ∧ frames_of NET_PROTOCOL_IP t
              = match map_get host_a_pending.arp_buf (arp_sender_ip (arp_pkt_of arp_reply_b)) with
                | some datagram => [(datagram.bytes, [0xaa, 0xbb, 0xcc, 0xdd, 0xee, 0xff])]
                | none => [] :=
  arp_in_learns_and_flushes arp_reply_b [0xaa, 0xbb, 0xcc, 0xdd, 0xee, 0xff] host_a_pending
    (by decide) (by decide) (by decide) (by decide) (by decide)
    (by rw [show host_a_pending.txbuf.payload = List.replicate 200 0 from rfl,
      List.length_replicate]; decide)
    (by decide)

/-- C16. For a well-formed ARP packet from source MAC `M`, the frames with
ethertype ARP that `arp_in` hands to the link layer are exactly one reply
addressed to `M` when the opcode is REQUEST and the target IP is this host's,
and none otherwise; the reply has hardware type Ethernet, protocol type IPv4,
lengths 6 and 4, opcode REPLY, this host's MAC and IP as sender, and `M` and
the request's sender IP as target. -/
theorem arp_in_replies_to_request (buf : buf_t) (src_mac : List Nat) (w : World)
    (hwf : buf.data + buf.len ≤ buf.payload.length)
    (hb : ∀ x ∈ arp_pkt_of buf, x < 256) (hip : w.net_if_ip.length = 4)
    (hmac : w.net_if_mac.length = 6) (hsm : src_mac.length = 6)
    (hcap : 28 < w.txbuf.payload.length / 2) (hacc : arp_well_formed buf = true) :
    (∃ t, (arp_in buf src_mac w).trace = w.trace ++ t
        ∧ frames_of NET_PROTOCOL_ARP t
            = if arp_opcode (arp_pkt_of buf) = ARP_REQUEST
                ∧ arp_target_ip (arp_pkt_of buf) = w.net_if_ip then
              [(arp_packet ARP_REPLY w.net_if_mac w.net_if_ip src_mac
                  (arp_sender_ip (arp_pkt_of buf)), src_mac)]
              else [])
      ∧ (arp_packet ARP_REPLY w.net_if_mac w.net_if_ip src_mac
          (arp_sender_ip (arp_pkt_of buf))).length = 28
      ∧ arp_hw_type (arp_packet ARP_REPLY w.net_if_mac w.net_if_ip src_mac
          (arp_sender_ip (arp_pkt_of buf))) = ARP_HW_ETHER
      ∧ arp_pro_type (arp_packet ARP_REPLY w.net_if_mac w.net_if_ip src_mac
          (arp_sender_ip (arp_pkt_of buf))) = NET_PROTOCOL_IP
      ∧ arp_hw_len (arp_packet ARP_REPLY w.net_if_mac w.net_if_ip src_mac
          (arp_sender_ip (arp_pkt_of buf))) = NET_MAC_LEN
      ∧ arp_pro_len (arp_packet ARP_REPLY w.net_if_mac w.net_if_ip src_mac
          (arp_sender_ip (arp_pkt_of buf))) = NET_IP_LEN
      ∧ arp_opcode (arp_packet ARP_REPLY w.net_if_mac w.net_if_ip src_mac
          (arp_sender_ip (arp_pkt_of buf))) = ARP_REPLY
      ∧ arp_sender_mac (arp_packet ARP_REPLY w.net_if_mac w.net_if_ip src_mac
          (arp_sender_ip (arp_pkt_of buf))) = w.net_if_mac
      ∧ arp_sender_ip (arp_packet ARP_REPLY w.net_if_mac w.net_if_ip src_mac
          (arp_sender_ip (arp_pkt_of buf))) = w.net_if_ip
      ∧ arp_target_mac (arp_packet ARP_REPLY w.net_if_mac w.net_if_ip src_mac
          (arp_sender_ip (arp_pkt_of buf))) = src_mac
      ∧ arp_target_ip (arp_packet ARP_REPLY w.net_if_mac w.net_if_ip src_mac
          (arp_sender_ip (arp_pkt_of buf))) = arp_sender_ip (arp_pkt_of buf) := by
  obtain ⟨h1, _, _⟩ := arp_in_accepted buf src_mac w hwf hb hip hmac hsm hcap hacc
  obtain ⟨hlen, _⟩ := (arp_well_formed_iff buf).mp hacc
  have hX : (arp_sender_ip (arp_pkt_of buf)).length = 4 := by
    unfold arp_sender_ip arp_pkt_of
    exact peek_length _ _ _ (by rw [peek_length _ _ _ (by omega)]; omega)
  obtain ⟨f1, f2, f3, f4, f5, f6, f7, f8, f9⟩ := arp_packet_fields ARP_REPLY w.net_if_mac
    w.net_if_ip src_mac (arp_sender_ip (arp_pkt_of buf)) (by decide) hmac hip hsm hX
  refine ⟨⟨_, by rw [h1, List.append_assoc], ?_⟩,
    arp_packet_length _ _ _ _ _ hmac hip hsm hX, f1, f2, f3, f4, f5, f6, f7, f8, f9⟩
  rw [frames_of_append]
  have e : frames_of NET_PROTOCOL_ARP
      (match map_get w.arp_buf (arp_sender_ip (arp_pkt_of buf)) with
        | some uncommit_buf => [Event.ethernet_out uncommit_buf.bytes src_mac NET_PROTOCOL_IP]
        | none => []) = [] := by
    cases map_get w.arp_buf (arp_sender_ip (arp_pkt_of buf)) <;>
      simp [frames_of, NET_PROTOCOL_ARP, NET_PROTOCOL_IP]
  rw [e, List.nil_append]
  split_ifs <;> simp [frames_of]

theorem arp_in_replies_to_request_witness :
    ∃ t, (arp_in arp_request_b [0xaa, 0xbb, 0xcc, 0xdd, 0xee, 0xff] host_a_pending).trace
          = host_a_pending.trace ++ t
      ∧ frames_of NET_PROTOCOL_ARP t
          = if arp_opcode (arp_pkt_of arp_request_b) = ARP_REQUEST
              ∧ arp_target_ip (arp_pkt_of arp_request_b) = host_a_pending.net_if_ip then
            [(arp_packet ARP_REPLY host_a_pending.net_if_mac host_a_pending.net_if_ip
                [0xaa, 0xbb, 0xcc, 0xdd, 0xee, 0xff]
                (arp_sender_ip (arp_pkt_of arp_request_b)), [0xaa, 0xbb, 0xcc, 0xdd, 0xee, 0xff])]
            else [] :=
  (arp_in_replies_to_request arp_request_b [0xaa, 0xbb, 0xcc, 0xdd, 0xee, 0xff] host_a_pending
    (by decide) (by decide) (by decide) (by decide) (by decide)
    (by rw [show host_a_pending.txbuf.payload = List.replicate 200 0 from rfl,
      List.length_replicate]; decide)
    (by decide)).1

/-- What `arp_out` does, whatever the buffer: on a hit one frame for the
link layer; on a miss with nothing pending the datagram is stored and one
request is broadcast; on a miss with a datagram pending nothing. -/
theorem arp_out_effect (buf : BufArg) (ip : List Nat) (w : World)
    (hcap : 28 < w.txbuf.payload.length / 2) (hip : w.net_if_ip.length = 4)
    (hmac : w.net_if_mac.length = 6) (hX : ip.length = 4) :
    (∀ mac, map_get w.arp_table ip = some mac →
        (arp_out buf ip w).2.trace = w.trace
            ++ [Event.arp_out (buf.get w).bytes ip,
                Event.ethernet_out (buf.get w).bytes mac NET_PROTOCOL_IP]
          ∧ (arp_out buf ip w).2.arp_table = w.arp_table
          ∧ (arp_out buf ip w).2.arp_buf = w.arp_buf)
      ∧ (map_get w.arp_table ip = none → map_get w.arp_buf ip = none →
          (arp_out buf ip w).2.trace = w.trace
            ++ [Event.arp_out (buf.get w).bytes ip,
                Event.ethernet_out
                  (arp_packet ARP_REQUEST w.net_if_mac w.net_if_ip [0, 0, 0, 0, 0, 0] ip)
                  ether_broadcast_mac NET_PROTOCOL_ARP]
          ∧ (arp_out buf ip w).2.arp_table = w.arp_table
          ∧ (arp_out buf ip w).2.arp_buf = map_set w.arp_buf ip (buf.get w))
      ∧ (map_get w.arp_table ip = none → ∀ pending, map_get w.arp_buf ip = some pending →
          (arp_out buf ip w).2.trace = w.trace ++ [Event.arp_out (buf.get w).bytes ip]
          ∧ (arp_out buf ip w).2.arp_table = w.arp_table
          ∧ (arp_out buf ip w).2.arp_buf = w.arp_buf) := by
  refine ⟨fun mac h => ?_, fun h1 h2 => ?_, fun h1 pending h2 => ?_⟩
  · unfold arp_out
    simp only [World.emit, h]
    cases buf <;> simp [ethernet_out, World.emit, BufArg.get]
  · unfold arp_out
    simp only [World.emit, h1, h2]
    obtain ⟨t1, t2, t3⟩ := arp_req_frame ip
      { w with trace := w.trace ++ [Event.arp_out (buf.get w).bytes ip],
               arp_buf := map_set w.arp_buf ip
                (buf.get { w with trace := w.trace ++ [Event.arp_out (buf.get w).bytes ip] }) }
      hcap hip hmac hX
    refine ⟨?_, t2, ?_⟩
    · rw [t1]
      simp
    · rw [t3]
      cases buf <;> rfl
  · simp [arp_out, World.emit, h1, h2]

theorem frames_append (s t : List Event) : frames (s ++ t) = frames s ++ frames t := by
  simp [frames, List.filterMap_append]

/-- C13. `arp_out` with a datagram `D` (the packet in `buf`, wherever `buf`
lives) for destination `X`.  Hit: when the cache maps `X` to `M`, the one
frame handed to the link layer is `D` for `M` with ethertype IP, and both
tables are unchanged.  Miss with nothing pending: the one frame is a broadcast
ARP request with target IP `X`, the cache is unchanged, the pending entry for
`X` is the buffer as it was at the call, and the other pending entries are
unchanged.  Miss with a datagram pending: nothing is handed to the link layer
and both tables are unchanged. -/
theorem arp_out_hit_miss_pending (buf : BufArg) (ip : List Nat) (w : World)
    (hcap : 28 < w.txbuf.payload.length / 2) (hip : w.net_if_ip.length = 4)
    (hmac : w.net_if_mac.length = 6) (hX : ip.length = 4) :
    (∀ mac, map_get w.arp_table ip = some mac →
        frames (arp_out buf ip w).2.trace
            = frames w.trace ++ [((buf.get w).bytes, mac, NET_PROTOCOL_IP)]
          ∧ (arp_out buf ip w).2.arp_table = w.arp_table
          ∧ (arp_out buf ip w).2.arp_buf = w.arp_buf)
      ∧ (map_get w.arp_table ip = none → map_get w.arp_buf ip = none →
          frames (arp_out buf ip w).2.trace
            = frames w.trace
                ++ [(arp_packet ARP_REQUEST w.net_if_mac w.net_if_ip [0, 0, 0, 0, 0, 0] ip,
                      ether_broadcast_mac, NET_PROTOCOL_ARP)]
          ∧ arp_opcode (arp_packet ARP_REQUEST w.net_if_mac w.net_if_ip [0, 0, 0, 0, 0, 0] ip)
              = ARP_REQUEST
          ∧ arp_target_ip (arp_packet ARP_REQUEST w.net_if_mac w.net_if_ip [0, 0, 0, 0, 0, 0] ip)
              = ip
          ∧ (arp_out buf ip w).2.arp_table = w.arp_table
          ∧ map_get (arp_out buf ip w).2.arp_buf ip = some (buf.get w)
          ∧ ∀ other, other ≠ ip →
              map_get (arp_out buf ip w).2.arp_buf other = map_get w.arp_buf other)
      ∧ (map_get w.arp_table ip = none → ∀ pending, map_get w.arp_buf ip = some pending →
          frames (arp_out buf ip w).2.trace = frames w.trace
          ∧ (arp_out buf ip w).2.arp_table = w.arp_table
          ∧ (arp_out buf ip w).2.arp_buf = w.arp_buf) := by
  obtain ⟨e1, e2, e3⟩ := arp_out_effect buf ip w hcap hip hmac hX
  refine ⟨fun mac h => ?_, fun h1 h2 => ?_, fun h1 pending h2 => ?_⟩
  · obtain ⟨t1, t2, t3⟩ := e1 mac h
    refine ⟨?_, t2, t3⟩
    rw [t1, frames_append]
    rfl
  · obtain ⟨t1, t2, t3⟩ := e2 h1 h2
    obtain ⟨_, _, _, _, f5, _, _, _, f9⟩ := arp_packet_fields ARP_REQUEST w.net_if_mac
      w.net_if_ip [0, 0, 0, 0, 0, 0] ip (by decide) hmac hip rfl hX
    refine ⟨?_, f5, f9, t2, ?_, ?_⟩
    · rw [t1, frames_append]
      rfl
    · rw [t3]
      exact map_get_map_set _ _ _
    · intro other hne
      rw [t3, map_get_map_set_ne _ _ _ _ hne, map_get_map_delete_ne _ _ _ hne]
  · obtain ⟨t1, t2, t3⟩ := e3 h1 pending h2
    refine ⟨?_, t2, t3⟩
    rw [t1, frames_append]
    exact List.append_nil _

theorem arp_out_hit_miss_pending_witness :
    frames (arp_out .global_txbuf [10, 0, 0, 2] host_a_3000).2.trace
        = frames host_a_3000.trace
            ++ [(arp_packet ARP_REQUEST host_a_3000.net_if_mac host_a_3000.net_if_ip
                  [0, 0, 0, 0, 0, 0] [10, 0, 0, 2], ether_broadcast_mac, NET_PROTOCOL_ARP)]
      ∧ arp_opcode (arp_packet ARP_REQUEST host_a_3000.net_if_mac host_a_3000.net_if_ip
          [0, 0, 0, 0, 0, 0] [10, 0, 0, 2]) = ARP_REQUEST
      ∧ arp_target_ip (arp_packet ARP_REQUEST host_a_3000.net_if_mac host_a_3000.net_if_ip
          [0, 0, 0, 0, 0, 0] [10, 0, 0, 2]) = [10, 0, 0, 2]
      ∧ (arp_out .global_txbuf [10, 0, 0, 2] host_a_3000).2.arp_table = host_a_3000.arp_table
      ∧ map_get (arp_out .global_txbuf [10, 0, 0, 2] host_a_3000).2.arp_buf [10, 0, 0, 2]
          = some (BufArg.global_txbuf.get host_a_3000)
      ∧ ∀ other, other ≠ [10, 0, 0, 2] →
          map_get (arp_out .global_txbuf [10, 0, 0, 2] host_a_3000).2.arp_buf other
            = map_get host_a_3000.arp_buf other :=
  (arp_out_hit_miss_pending .global_txbuf [10, 0, 0, 2] host_a_3000
    (by rw [show host_a_3000.txbuf.payload = List.replicate 6400 5 from rfl,
      List.length_replicate]; decide)
    (by decide) (by decide) (by decide)).2.1 (by decide) (by decide)

/-! ### The ARP state machine -/

theorem arp_resp_tables (target_ip target_mac : List Nat) (w : World) :
    (arp_resp target_ip target_mac w).arp_table = w.arp_table
      ∧ (arp_resp target_ip target_mac w).arp_buf = w.arp_buf :=
  ⟨rfl, rfl⟩

/-- What `arp_in` does to the two tables, whatever the buffer: nothing, or the
sender's address is put in the cache and taken out of the pending buffer. -/
theorem arp_in_tables (buf : buf_t) (src_mac : List Nat) (w : World) :
    arp_in buf src_mac w = w
      ∨ ∃ ip mac, (arp_in buf src_mac w).arp_table = map_set w.arp_table ip mac
          ∧ (arp_in buf src_mac w).arp_buf = map_delete w.arp_buf ip := by
  unfold arp_in
  lift_lets
  intro arp_pkt sender_ip w1 w2
  have h2 : w2.arp_table = map_set w.arp_table sender_ip (peek src_mac 0 NET_MAC_LEN)
      ∧ w2.arp_buf = map_delete w.arp_buf sender_ip := by
    show (match map_get w.arp_buf sender_ip with
      | some uncommit_buf => _
      | none => w1).arp_table = _ ∧ (match map_get w.arp_buf sender_ip with
      | some uncommit_buf => _
      | none => w1).arp_buf = _
    cases hq : map_get w.arp_buf sender_ip with
    | none => exact ⟨rfl, (map_delete_of_none _ _ hq).symm⟩
    | some D => exact ⟨rfl, rfl⟩
  split_ifs
  all_goals first
    | exact Or.inl rfl
    | exact Or.inr ⟨sender_ip, peek src_mac 0 NET_MAC_LEN, h2⟩

/-- What `arp_out` does to the two tables, whatever the buffer: nothing, or,
when the destination is in neither table, the datagram becomes its pending
entry. -/
theorem arp_out_tables (buf : BufArg) (ip : List Nat) (w : World) :
    (arp_out buf ip w).2.arp_table = w.arp_table
      ∧ ((arp_out buf ip w).2.arp_buf = w.arp_buf
          ∨ (map_get w.arp_table ip = none
              ∧ ∃ datagram, (arp_out buf ip w).2.arp_buf = map_set w.arp_buf ip datagram)) := by
  unfold arp_out
  simp only [World.emit]
  cases h1 : map_get w.arp_table ip with
  | some mac => exact ⟨rfl, Or.inl rfl⟩
  | none =>
      cases h2 : map_get w.arp_buf ip with
      | some pending => exact ⟨rfl, Or.inl rfl⟩
      | none => exact ⟨rfl, Or.inr ⟨rfl, _, rfl⟩⟩

theorem map_get_map_delete_cases {κ α : Type} [DecidableEq κ] (map : List (κ × α))
    (key key' : κ) :
    map_get (map_delete map key) key' = none
      ∨ map_get (map_delete map key) key' = map_get map key' := by
  by_cases h : key' = key
  · subst h
    exact Or.inl (map_get_map_delete _ _)
  · exact Or.inr (map_get_map_delete_ne _ _ _ h)

/-- In a reachable state no address is both in the cache and pending. -/
theorem arp_reachable_invariant (w : World) (h : arp_reachable w) :
    ∀ ip, map_get w.arp_table ip = none ∨ map_get w.arp_buf ip = none := by
  induction h with
  | init w0 => exact fun ip => Or.inl rfl
  | arp_in buf src_mac _ ih =>
      intro ip
      rcases arp_in_tables buf src_mac _ with e | ⟨x, mac, e1, e2⟩
      · rw [e]
        exact ih ip
      · rw [e1, e2]
        by_cases hx : ip = x
        · subst hx
          exact Or.inr (map_get_map_delete _ _)
        · rw [map_get_map_set_ne _ _ _ _ hx, map_get_map_delete_ne _ _ _ hx,
            map_get_map_delete_ne _ _ _ hx]
          exact ih ip
  | arp_out buf x _ ih =>
      intro ip
      obtain ⟨e1, e2⟩ := arp_out_tables buf x _
      rw [e1]
      rcases e2 with e2 | ⟨hnone, d, e2⟩
      · rw [e2]
        exact ih ip
      · rw [e2]
        by_cases hx : ip = x
        · subst hx
          exact Or.inl hnone
        · rw [map_get_map_set_ne _ _ _ _ hx, map_get_map_delete_ne _ _ _ hx]
          exact ih ip
  | table_expire x _ ih =>
      intro ip
      rcases map_get_map_delete_cases _ x ip with e | e
      · exact Or.inl e
      · rcases ih ip with h1 | h1
        · exact Or.inl (by rw [show (arp_table_expire x _).arp_table = map_delete _ x from rfl,
            e, h1])
        · exact Or.inr h1
  | buf_expire x _ ih =>
      intro ip
      rcases map_get_map_delete_cases _ x ip with e | e
      · exact Or.inr e
      · rcases ih ip with h1 | h1
        · exact Or.inl h1
        · exact Or.inr (by rw [show (arp_buf_expire x _).arp_buf = map_delete _ x from rfl,
            e, h1])

/-- `arp_out` hands the link layer a frame with ethertype ARP only for a
destination that is in neither table. -/
theorem arp_out_request_only_unresolved (buf : BufArg) (ip : List Nat) (w : World)
    (h : frames_of NET_PROTOCOL_ARP (arp_out buf ip w).2.trace
      ≠ frames_of NET_PROTOCOL_ARP w.trace) :
    map_get w.arp_table ip = none ∧ map_get w.arp_buf ip = none := by
  cases h1 : map_get w.arp_table ip with
  | some mac =>
      exfalso
      apply h
      unfold arp_out
      simp only [World.emit, h1, ethernet_out]
      simp [frames_of, List.filterMap_append, NET_PROTOCOL_IP, NET_PROTOCOL_ARP]
  | none =>
      cases h2 : map_get w.arp_buf ip with
      | some pending =>
          exfalso
          apply h
          unfold arp_out
          simp only [World.emit, h1, h2]
          simp [frames_of, List.filterMap_append]
      | none => exact ⟨rfl, rfl⟩

/-- C19. In every state reachable from `arp_init` by calls of `arp_in` and
`arp_out`, with entries of either table expiring in between, no IP address
has both an entry in the ARP cache and a pending datagram; and `arp_out`
broadcasts an ARP request only for a destination that has neither, so a
destination with a pending datagram gets no second request. -/
theorem arp_resolved_or_requested (w : World) (h : arp_reachable w) :
    (∀ ip, ¬ ((map_get w.arp_table ip).isSome = true ∧ (map_get w.arp_buf ip).isSome = true))
      ∧ (∀ buf ip, frames_of NET_PROTOCOL_ARP (arp_out buf ip w).2.trace
            ≠ frames_of NET_PROTOCOL_ARP w.trace →
          map_get w.arp_table ip = none ∧ map_get w.arp_buf ip = none)
      ∧ (∀ buf ip, (map_get w.arp_buf ip).isSome = true →
          frames_of NET_PROTOCOL_ARP (arp_out buf ip w).2.trace
            = frames_of NET_PROTOCOL_ARP w.trace) := by
  refine ⟨fun ip hboth => ?_, fun buf ip => arp_out_request_only_unresolved buf ip w,
    fun buf ip hp => ?_⟩
  · rcases arp_reachable_invariant w h ip with e | e
    · rw [e] at hboth
      exact absurd hboth.1 (by simp)
    · rw [e] at hboth
      exact absurd hboth.2 (by simp)
  · by_contra hne
    have := (arp_out_request_only_unresolved buf ip w hne).2
    rw [this] at hp
    exact absurd hp (by simp)

theorem arp_resolved_or_requested_witness :
    ¬ ((map_get (arp_in arp_reply_b [0xaa, 0xbb, 0xcc, 0xdd, 0xee, 0xff]
          (arp_out (.loc ⟨3, 0, [1, 2, 3]⟩) [10, 0, 0, 2] (arp_init host_a)).2).arp_table
            [10, 0, 0, 2]).isSome = true
        ∧ (map_get (arp_in arp_reply_b [0xaa, 0xbb, 0xcc, 0xdd, 0xee, 0xff]
          (arp_out (.loc ⟨3, 0, [1, 2, 3]⟩) [10, 0, 0, 2] (arp_init host_a)).2).arp_buf
            [10, 0, 0, 2]).isSome = true) :=
  (arp_resolved_or_requested _
    (arp_reachable.arp_in arp_reply_b [0xaa, 0xbb, 0xcc, 0xdd, 0xee, 0xff]
      (arp_reachable.arp_out (.loc ⟨3, 0, [1, 2, 3]⟩) [10, 0, 0, 2]
        (arp_reachable.init host_a)))).1 [10, 0, 0, 2]

/-! ## ip_in: the length after padding removal -/

/-- What `ip_in` hands to the upper layer when the total-length field covers
the header: the bytes after the 20-byte header, as many as the length after
padding removal leaves. -/
theorem ip_in_dispatch (buf : buf_t) (src_mac : List Nat) (w : World)
    (hwf : buf.data + buf.len ≤ buf.payload.length)
    (hb : ∀ x ∈ ip_hdr_of buf, x < 256) (hip : w.net_if_ip.length = 4)
    (hacc : ip_in_accepts buf w = true)
    (hproto : ip_protocol (ip_hdr_of buf) = NET_PROTOCOL_ICMP
      ∨ ip_protocol (ip_hdr_of buf) = NET_PROTOCOL_UDP)
    (htl : 20 ≤ ip_total_len (ip_hdr_of buf)) :
    ip_in buf src_mac w
      = net_in ⟨min (ip_total_len (ip_hdr_of buf)) buf.len - 20, buf.data + 20, buf.payload⟩
          (ip_protocol (ip_hdr_of buf)) (ip_src (ip_hdr_of buf)) w := by
  obtain ⟨hlen, hver, hck, hdst⟩ := (ip_in_accepts_iff buf w).mp hacc
  obtain ⟨pre, hdr, rest, hbuf, hhdr, hh, hpay, hdata⟩ := buf_cases_hdr buf hwf hlen
  rw [hhdr] at hb hver hck hdst hproto htl ⊢
  have key := ip_in_unfold buf.len pre hdr rest src_mac w hlen hh hb hip
  rw [← hbuf] at key
  rw [key, if_neg (by simp [hver]), if_neg (by simp [hck]), if_neg (by simp [hdst]),
    if_pos hproto, hpay, hdata]
  unfold buf_remove_header
  rw [if_neg (by simp only; omega)]

/-- C20. A received buffer of 28 bytes that passes the checks of `ip_in`
(version 4, valid header checksum, addressed to this host, protocol ICMP) and
whose total-length field is 10: after padding removal the buffer holds 10
bytes, fewer than the 20 of the header, and `ip_in` hands the upper layer the
first 10 bytes of the IP header as the payload. -/
theorem ip_in_short_total_len_dispatches_header :
    ip_in_accepts short_total_datagram host_b = true
      ∧ ip_protocol (ip_hdr_of short_total_datagram) = NET_PROTOCOL_ICMP
      ∧ ip_total_len (ip_hdr_of short_total_datagram) = 10
      ∧ (buf_remove_padding short_total_datagram (28 - 10)).len = 10
      ∧ ip_in short_total_datagram [] host_b
          = some { host_b with
              trace := [Event.net_in [0x45, 0, 0, 10, 0, 0, 0, 0, 0x40, 1] NET_PROTOCOL_ICMP
                [10, 0, 0, 1]] } := by
  decide

/-! ## icmp_in: the echo reply -/

/-- A freshly initialised local buffer of `n` bytes: room for an IP header
before the packet, and zero bytes after it. -/
theorem buf_init_uninit_zero (n : Nat) (hn : n + 20 ≤ 65662) :
    ∃ pre g post, buf_init buf_t.uninit n
        = ⟨n, pre.length + 20, pre ++ g ++ List.replicate n 0 ++ 0 :: post⟩
      ∧ g.length = 20 := by
  have hB := BUF_MAX_LEN_eq
  refine ⟨List.replicate (BUF_MAX_LEN / 2 - n - 20) 0, List.replicate 20 0,
    List.replicate (BUF_MAX_LEN - BUF_MAX_LEN / 2 - 1) 0, ?_, by simp⟩
  have hlen : buf_t.uninit.payload.length = BUF_MAX_LEN := List.length_replicate _ _
  have hpay : buf_t.uninit.payload
      = List.replicate (BUF_MAX_LEN / 2 - n - 20) 0 ++ List.replicate 20 0
          ++ List.replicate n 0 ++ 0 :: List.replicate (BUF_MAX_LEN - BUF_MAX_LEN / 2 - 1) 0 := by
    have e : buf_t.uninit.payload = List.replicate BUF_MAX_LEN 0 := rfl
    rw [← List.replicate_succ, ← List.replicate_add, ← List.replicate_add,
      ← List.replicate_add, e]
    exact congrArg (fun k => List.replicate k 0) (by omega)
  unfold buf_init
  rw [hlen, if_neg (by omega), ← hpay]
  have hd : BUF_MAX_LEN / 2 - n
      = (List.replicate (BUF_MAX_LEN / 2 - n - 20) 0).length + 20 := by
    simp only [List.length_replicate]
    omega
  rw [← hd]

theorem memcpy_mid (pre old new post : List Nat) (h : old.length = new.length) :
    memcpy (pre ++ old ++ post) pre.length new = pre ++ new ++ post := by
  unfold memcpy
  have e1 : List.take pre.length (pre ++ old ++ post) = pre := by
    rw [List.append_assoc, List.take_left]
  have e2 : List.drop (pre.length + new.length) (pre ++ old ++ post) = post := by
    rw [← h, ← List.length_append, List.drop_left]
  rw [e1, e2, List.append_assoc]

/-- The message `icmp_resp` sends for a request of 8 to 1480 bytes: one IP
datagram with protocol ICMP for `src_ip`, carrying the reply built from the
request; what follows the reply in the local buffer starts with a zero byte. -/
theorem icmp_resp_spec (req_buf : buf_t) (src_ip : List Nat) (w : World) (rp msg rq : List Nat)
    (hp : req_buf.payload = rp ++ msg ++ rq) (hd : req_buf.data = rp.length)
    (hl : req_buf.len = msg.length) (h8 : 8 ≤ msg.length) (hle : msg.length ≤ 1480)
    (hb : ∀ x ∈ msg, x < 256) (hsrc : w.net_if_ip.length = 4) (hip : src_ip.length = 4) :
    ∃ w' rest stale, icmp_resp req_buf src_ip w = some w'
      ∧ w'.trace = w.trace
          ++ Event.arp_out (ip_header (msg.length + 20) w.ip_id 0 NET_PROTOCOL_ICMP w.net_if_ip
              src_ip ++ icmp_echo_reply msg (0 :: stale)) src_ip
            :: rest
      ∧ rest.all Event.is_ethernet_out = true
      ∧ w'.ip_id = (w.ip_id + 1) % 2 ^ 16 := by
  obtain ⟨pre, g, post, hinit, hg⟩ := buf_init_uninit_zero msg.length (by omega)
  obtain ⟨m0, m1, m2, m3, m4, m5, m6, m7, tail, rfl⟩ := list_explicit_prefix_8 msg h8
  have b4 : m4 < 256 := hb m4 (by simp)
  have b5 : m5 < 256 := hb m5 (by simp)
  have b6 : m6 < 256 := hb m6 (by simp)
  have b7 : m7 < 256 := hb m7 (by simp)
  have e4 : (m4 + 256 * m5) % 256 = m4 := by omega
  have e5 : (m4 + 256 * m5) / 256 % 256 = m5 := by omega
  have e6 : (m6 + 256 * m7) % 256 = m6 := by omega
  have e7 : (m6 + 256 * m7) / 256 % 256 = m7 := by omega
  unfold icmp_resp
  rw [hl, hp, hd]
  generalize buf_init buf_t.uninit (m0 :: m1 :: m2 :: m3 :: m4 :: m5 :: m6 :: m7 :: tail).length
    = txbuf at hinit ⊢
  subst hinit
  have hpeek : peek (rp ++ (m0 :: m1 :: m2 :: m3 :: m4 :: m5 :: m6 :: m7 :: tail) ++ rq) rp.length
      (m0 :: m1 :: m2 :: m3 :: m4 :: m5 :: m6 :: m7 :: tail).length
      = m0 :: m1 :: m2 :: m3 :: m4 :: m5 :: m6 :: m7 :: tail := by
    rw [List.append_assoc, peek_append_length]
    exact peek_zero_append _ _
  simp only [hpeek]
  have hpg : pre.length + 20 = (pre ++ g).length := by rw [List.length_append, hg]
  generalize hba : BufArg.loc _ = ba
  have hlen : (icmp_echo_reply (m0 :: m1 :: m2 :: m3 :: m4 :: m5 :: m6 :: m7 :: tail)
      (0 :: post)).length = (m0 :: m1 :: m2 :: m3 :: m4 :: m5 :: m6 :: m7 :: tail).length := by
    simp [icmp_echo_reply, store16, memcpy]
  have hpl : (ba.get w).payload = pre ++ g
      ++ icmp_echo_reply (m0 :: m1 :: m2 :: m3 :: m4 :: m5 :: m6 :: m7 :: tail) (0 :: post)
      ++ 0 :: post := by
    rw [← hba]
    simp only [BufArg.get, hpg]
    generalize pre ++ g = pg
    rw [memcpy_mid pg _ _ _ (by simp)]
    simp only [store8, store16, write16_true, load16_append_length, load16_append_add,
      load8_append_length, load8_append_add, memcpy_append_add, memcpy_append_length,
      List.append_assoc, List.cons_append, List.nil_append, load16_cons_zero, load16_cons_succ,
      load8_cons_zero, load8_cons_succ, memcpy_cons_succ, memcpy_zero_cons, memcpy_zero_nil,
      e4, e5, e6, e7, List.drop_append, List.drop_left, Nat.zero_mod, Nat.zero_div,
      ICMP_TYPE_ECHO_REPLY, icmp_echo_reply, List.drop_succ_cons, List.drop_zero]
  obtain ⟨r, rest, h1, h2, h3, h4, _, _⟩ := ip_out_single ba src_ip NET_PROTOCOL_ICMP w pre g _
    (0 :: post) hpl hg (by rw [← hba]; simp [BufArg.get]) (by rw [← hba, hlen]; rfl) hsrc hip
    (by rw [hlen]; exact hle)
  rw [hlen] at h2
  exact ⟨r.2, rest, post, by simp [h1], h2, h3, h4⟩

/-- `icmp_in` answers exactly the messages of at least 8 bytes whose type is
echo request. -/
theorem icmp_in_silent (buf : buf_t) (src_ip : List Nat) (w : World)
    (h : buf.len < 8 ∨ load8 buf.payload buf.data ≠ ICMP_TYPE_ECHO_REQUEST) :
    icmp_in buf src_ip w = some w := by
  unfold icmp_in
  rcases h with h | h
  · rw [if_pos (by simpa [sizeof_icmp_hdr_t] using h)]
  · rw [if_neg h]
    split_ifs <;> rfl

/-- The echo reply to a request of even length: type 0, code 0, the request
from offset 4 on, and a checksum field with which `checksum16` of the reply
is 0. -/
theorem icmp_echo_reply_even (msg stale rest : List Nat) (h8 : 8 ≤ msg.length)
    (hev : msg.length % 2 = 0) (hb : ∀ x ∈ msg, x < 256) :
    icmp_echo_reply msg stale
        = [0, 0] ++ write16 true (checksum16 true ([0, 0, 0, 0] ++ msg.drop 4) msg.length)
            ++ msg.drop 4
      ∧ (icmp_echo_reply msg stale).length = msg.length
      ∧ checksum16 true (icmp_echo_reply msg stale ++ rest) msg.length = 0 := by
  have hlen : ([0, 0] ++ [0, 0] ++ msg.drop 4).length = msg.length := by
    simp only [List.length_append, List.length_cons, List.length_nil, List.length_drop]
    omega
  have hlen' : ([0, 0, 0, 0] ++ msg.drop 4).length = msg.length := hlen
  have hcs : checksum16 true ([0, 0, 0, 0] ++ msg.drop 4 ++ stale) msg.length
      = checksum16 true ([0, 0, 0, 0] ++ msg.drop 4) msg.length := by
    have := checksum16_append true ([0, 0, 0, 0] ++ msg.drop 4) stale (by rw [hlen']; exact hev)
    rwa [hlen'] at this
  have heq : icmp_echo_reply msg stale
      = [0, 0] ++ write16 true (checksum16 true ([0, 0, 0, 0] ++ msg.drop 4) msg.length)
          ++ msg.drop 4 := by
    unfold icmp_echo_reply
    rw [hcs]
    simp [store16, memcpy]
  refine ⟨heq, ?_, ?_⟩
  · rw [heq]
    simp only [List.length_append, List.length_cons, List.length_nil, write16_true,
      List.length_drop]
    omega
  · have hf := checksum16_filled true [0, 0] (msg.drop 4) rest [] rfl
      (by rw [List.length_drop]; omega) (by simp)
      (fun x hx => hb x (List.mem_of_mem_drop hx))
    rw [hlen, List.append_nil] at hf
    rw [heq]
    exact hf

/-- An echo request of even length, 8 to 1480 bytes: `icmp_in` hands ARP one
datagram for the source, with protocol ICMP, carrying a reply of the same
length with type 0, code 0, the request's bytes from offset 4 on, and a
checksum that verifies. -/
theorem icmp_in_echo_even (buf : buf_t) (src_ip : List Nat) (w : World) (rp msg rq : List Nat)
    (hp : buf.payload = rp ++ msg ++ rq) (hd : buf.data = rp.length)
    (hl : buf.len = msg.length) (h8 : 8 ≤ msg.length) (hle : msg.length ≤ 1480)
    (hev : msg.length % 2 = 0) (hty : load8 msg 0 = ICMP_TYPE_ECHO_REQUEST)
    (hb : ∀ x ∈ msg, x < 256) (hsrc : w.net_if_ip.length = 4) (hip : src_ip.length = 4) :
    ∃ w' rest reply, icmp_in buf src_ip w = some w'
      ∧ w'.trace = w.trace
          ++ Event.arp_out (ip_header (msg.length + 20) w.ip_id 0 NET_PROTOCOL_ICMP w.net_if_ip
              src_ip ++ reply) src_ip
            :: rest
      ∧ rest.all Event.is_ethernet_out = true
      ∧ reply.length = msg.length ∧ reply.take 2 = [0, 0] ∧ reply.drop 4 = msg.drop 4
      ∧ checksum16 true reply msg.length = 0 := by
  obtain ⟨w', rest, stale, h1, h2, h3, _⟩ := icmp_resp_spec buf src_ip w rp msg rq hp hd hl h8 hle
    hb hsrc hip
  obtain ⟨e1, e2, e3⟩ := icmp_echo_reply_even msg (0 :: stale) [] h8 hev hb
  have hty' : load8 buf.payload buf.data = ICMP_TYPE_ECHO_REQUEST := by
    rw [hp, hd, List.append_assoc, load8_append_length]
    obtain ⟨m0, m1, m2, m3, m4, m5, m6, m7, tail, rfl⟩ := list_explicit_prefix_8 msg h8
    simpa using hty
  refine ⟨w', rest, icmp_echo_reply msg (0 :: stale), ?_, h2, h3, e2, ?_, ?_, ?_⟩
  · unfold icmp_in
    rw [if_neg (by simp only [sizeof_icmp_hdr_t]; omega), if_pos hty']
    exact h1
  · rw [e1]
    rfl
  · rw [e1]
    simp
  · rw [List.append_nil] at e3
    exact e3

/-- C15. An echo request of 9 bytes (identifier 1, sequence number 1, payload
byte 0x61) from a compliant peer: `icmp_in` sends one reply of 9 bytes with
type 0, code 0 and the request's bytes from offset 4 on, but its checksum
field holds 0xff 0xfd, not the Internet checksum 0x9efd of the reply with a
zero field, and the reply does not verify: the odd tail of `checksum16` adds
the byte after the buffer in place of the last byte. -/
theorem icmp_in_echo_odd_checksum_wrong :
    (∃ w' rest, icmp_in echo_request_odd [10, 0, 0, 1] host_b = some w'
        ∧ w'.trace = host_b.trace
            ++ Event.arp_out (ip_header 29 host_b.ip_id 0 NET_PROTOCOL_ICMP host_b.net_if_ip
                [10, 0, 0, 1] ++ [0, 0, 0xff, 0xfd, 0, 1, 0, 1, 0x61]) [10, 0, 0, 1]
              :: rest
        ∧ rest.all Event.is_ethernet_out = true)
      ∧ internet_checksum (be_words [0, 0, 0, 0, 0, 1, 0, 1, 0x61]) = 0x9efd
      ∧ internet_checksum (be_words [0, 0, 0xff, 0xfd, 0, 1, 0, 1, 0x61]) ≠ 0
      ∧ internet_checksum (be_words echo_request_odd.bytes) = 0 := by
  refine ⟨?_, by decide, by decide, by decide⟩
  obtain ⟨w', rest, stale, h1, h2, h3, _⟩ := icmp_resp_spec echo_request_odd [10, 0, 0, 1] host_b
    [] [8, 0, 0x96, 0xfd, 0, 1, 0, 1, 0x61] [] rfl rfl rfl (by decide) (by decide) (by decide)
    rfl rfl
  refine ⟨w', rest, ?_, ?_, h3⟩
  · unfold icmp_in
    rw [if_neg (by decide), if_pos (by decide)]
    exact h1
  · rw [h2]
    have hc := checksum16_odd_tail [0, 0, 0, 0, 0, 1, 0, 1] stale 0x61 0 rfl (by decide)
    have hv : checksum16 true ([0, 0, 0, 0, 0, 1, 0, 1] ++ [0, 0]) 10 = 0xfdff := by decide
    have hr : icmp_echo_reply [8, 0, 0x96, 0xfd, 0, 1, 0, 1, 0x61] (0 :: stale)
        = [0, 0, 0xff, 0xfd, 0, 1, 0, 1, 0x61] := by
      unfold icmp_echo_reply
      have e : [0, 0, 0, 0] ++ List.drop 4 [8, 0, 0x96, 0xfd, 0, 1, 0, 1, 0x61] ++ 0 :: stale
          = [0, 0, 0, 0, 0, 1, 0, 1] ++ 0x61 :: 0 :: stale := rfl
      rw [e]
      have hc' : checksum16 true ([0, 0, 0, 0, 0, 1, 0, 1] ++ 0x61 :: 0 :: stale) 9 = 0xfdff := by
        rw [← hv]
        exact hc
      have e9 : [8, 0, 0x96, 0xfd, 0, 1, 0, 1, 0x61].length = 9 := rfl
      rw [e9, hc']
      rfl
    rw [hr]
    rfl

/-! ## ip_out: the identification counter -/

theorem ip_header_id (total_len id flags_fragment protocol : Nat) (src dst body : List Nat)
    (hid : id < 65536) :
    ip_id_of (ip_header total_len id flags_fragment protocol src dst ++ body) = id := by
  have e := swap16_be id hid
  simpa [ip_id_of, ip_header, ip_header0, memcpy, load16, read16] using e

theorem memcpy_length (mem src : List Nat) (off : Nat) (h : off + src.length ≤ mem.length) :
    (memcpy mem off src).length = mem.length := by
  unfold memcpy
  simp only [List.length_append, List.length_take, List.length_drop]
  omega

/-- What `arp_req` leaves in the global `txbuf`: a packet of 28 bytes inside
an array of the same size as before. -/
theorem arp_req_txbuf (ip : List Nat) (w : World) (hcap : 28 < w.txbuf.payload.length / 2) :
    (arp_req ip w).txbuf.len = 28
      ∧ (arp_req ip w).txbuf.data + 28 ≤ (arp_req ip w).txbuf.payload.length
      ∧ (arp_req ip w).txbuf.payload.length = w.txbuf.payload.length := by
  have hpk : ∀ (l : List Nat) (k : Nat), k + 28 ≤ w.txbuf.payload.length →
      (memcpy w.txbuf.payload k (peek l 0 28)).length = w.txbuf.payload.length := by
    intro l k hk
    have : (peek l 0 28).length ≤ 28 := by
      simp only [peek, List.length_take]
      omega
    exact memcpy_length _ _ _ (by omega)
  have hl : (arp_req ip w).txbuf.payload.length = w.txbuf.payload.length := by
    unfold arp_req
    simp only [ethernet_out, World.emit, buf_init, sizeof_arp_pkt_t]
    rw [if_neg (by omega)]
    exact hpk _ _ (by simp only; omega)
  refine ⟨?_, ?_, hl⟩
  · unfold arp_req
    simp only [ethernet_out, World.emit, buf_init, sizeof_arp_pkt_t]
    rw [if_neg (by omega)]
  · rw [hl]
    unfold arp_req
    simp only [ethernet_out, World.emit, buf_init, sizeof_arp_pkt_t]
    rw [if_neg (by omega)]
    simp only
    omega

/-- `arp_out` on a local buffer: one hand-off, then at most packets for the
link layer; the global `txbuf` is as before or holds a 28-byte ARP request. -/
theorem arp_out_loc_txbuf (b : buf_t) (ip : List Nat) (w : World)
    (hcap : 28 < w.txbuf.payload.length / 2) :
    ∃ rest w', arp_out (.loc b) ip w = (.loc b, w')
      ∧ w'.trace = w.trace ++ Event.arp_out b.bytes ip :: rest
      ∧ rest.all Event.is_ethernet_out = true
      ∧ w'.ip_id = w.ip_id ∧ w'.net_if_ip = w.net_if_ip
      ∧ (w'.txbuf = w.txbuf
          ∨ (w'.txbuf.len = 28 ∧ w'.txbuf.data + 28 ≤ w'.txbuf.payload.length))
      ∧ w'.txbuf.payload.length = w.txbuf.payload.length := by
  unfold arp_out
  simp only [World.emit, BufArg.get]
  cases h1 : map_get w.arp_table ip with
  | some mac =>
      exact ⟨[Event.ethernet_out b.bytes mac NET_PROTOCOL_IP], _, rfl,
        by simp [ethernet_out, World.emit, BufArg.get], rfl, rfl, rfl, Or.inl rfl, rfl⟩
  | none =>
      cases h2 : map_get w.arp_buf ip with
      | some b0 => exact ⟨[], _, rfl, rfl, rfl, rfl, rfl, Or.inl rfl, rfl⟩
      | none =>
          obtain ⟨e, t1, t2, t3, t4, _⟩ := arp_req_spec ip
            { w with trace := w.trace ++ [Event.arp_out b.bytes ip],
                     arp_buf := map_set w.arp_buf ip b }
          obtain ⟨u1, u2, u3⟩ := arp_req_txbuf ip
            { w with trace := w.trace ++ [Event.arp_out b.bytes ip],
                     arp_buf := map_set w.arp_buf ip b } hcap
          refine ⟨[e], _, rfl, ?_, by simp [t2], ?_, ?_, Or.inr ⟨u1, u2⟩, u3⟩
          · simpa using t1
          · simpa using t3
          · simpa using t4

/-- One round of `ip_out` on the local `buf_piece`: a datagram with the given
identification is handed to ARP. -/
theorem piece_send (piece : buf_t) (chunk ip : List Nat) (protocol id offset mf n : Nat)
    (w : World) (hn : chunk.length = n) (hm : n ≤ 1480)
    (hpl : piece.payload.length = BUF_MAX_LEN) (hid : id < 65536)
    (hsrc : w.net_if_ip.length = 4) (hip : ip.length = 4)
    (hcap : 28 < w.txbuf.payload.length / 2) :
    ∃ b1 w1 rest datagram,
      ip_fragment_out (.loc { buf_init piece n with
          payload := memcpy (buf_init piece n).payload (buf_init piece n).data chunk })
        ip protocol id offset mf w = (.loc b1, w1)
      ∧ b1.payload.length = BUF_MAX_LEN
      ∧ w1.trace = w.trace ++ Event.arp_out datagram ip :: rest
      ∧ rest.all Event.is_ethernet_out = true
      ∧ ip_id_of datagram = id
      ∧ w1.ip_id = w.ip_id ∧ w1.net_if_ip = w.net_if_ip
      ∧ (w1.txbuf = w.txbuf
          ∨ (w1.txbuf.len = 28 ∧ w1.txbuf.data + 28 ≤ w1.txbuf.payload.length))
      ∧ w1.txbuf.payload.length = w.txbuf.payload.length := by
  obtain ⟨pre, g, post, hpi, hg, hpl1⟩ := piece_init piece chunk n hn hpl hm
  have hfrag := ip_fragment_out_eq (.loc ⟨n, pre.length + 20, pre ++ g ++ chunk ++ post⟩)
    ip protocol id offset mf w pre g chunk post rfl hg rfl hn.symm hsrc hip
  generalize hff : (if mf ≠ 0 then IP_MORE_FRAGMENT ||| offset else offset) = ff at hfrag
  have hhdr := ip_header_length (chunk.length + 20) id ff protocol w.net_if_ip ip hsrc hip
  generalize hb : (⟨chunk.length + 20, pre.length,
    pre ++ ip_header (chunk.length + 20) id ff protocol w.net_if_ip ip ++ chunk ++ post⟩
      : buf_t) = b1 at hfrag
  have hb1len : b1.payload.length = BUF_MAX_LEN := by
    rw [← hpl1, ← hb]
    simp only [List.length_append, hhdr, hg]
  have hb1bytes : b1.bytes
      = ip_header (chunk.length + 20) id ff protocol w.net_if_ip ip ++ chunk := by
    rw [← hb, List.append_assoc pre _ chunk]
    exact bytes_mk pre _ post _ (by rw [List.length_append, hhdr]; omega)
  obtain ⟨rest, w1, ha, ht, hall, hid1, hs1, htx, hlen⟩ := arp_out_loc_txbuf b1 ip w hcap
  refine ⟨b1, w1, rest, b1.bytes, ?_, hb1len, ht, hall, ?_, hid1, hs1, htx, hlen⟩
  · rw [hpi, hfrag]
    exact ha
  · rw [hb1bytes]
    exact ip_header_id _ _ _ _ _ _ _ hid

/-- One round of the loop of `ip_out`, whatever the buffer: a datagram with
the identification of the call is handed to ARP; the buffer then holds 1480
bytes less, or, when it is the global `txbuf` and an ARP request went out,
the 28 bytes of the request. -/
theorem ip_out_round (ip : List Nat) (protocol f : Nat) (buf : BufArg) (piece : buf_t)
    (len_offset : Nat) (w : World) (hip : ip.length = 4) (hsrc : w.net_if_ip.length = 4)
    (hid : w.ip_id < 65536) (hgt : (buf.get w).len > 1480)
    (hfuel : (buf.get w).len ≤ 1480 * (f + 2))
    (hwf : (buf.get w).data + (buf.get w).len ≤ (buf.get w).payload.length)
    (hcap : 28 < w.txbuf.payload.length / 2) (hpl : piece.payload.length = BUF_MAX_LEN) :
    ∃ buf2 piece1 w2 datagram,
      ip_out_loop ip protocol (f + 1) buf piece len_offset w
          = ip_out_loop ip protocol f buf2 piece1 ((len_offset + 1480) % 2 ^ 16) w2
        ∧ 0 < (buf2.get w2).len ∧ (buf2.get w2).len ≤ 1480 * (f + 1)
        ∧ (buf2.get w2).data + (buf2.get w2).len ≤ (buf2.get w2).payload.length
        ∧ 28 < w2.txbuf.payload.length / 2 ∧ piece1.payload.length = BUF_MAX_LEN
        ∧ w2.ip_id = w.ip_id ∧ w2.net_if_ip = w.net_if_ip
        ∧ arp_outs w2.trace = arp_outs w.trace ++ [(datagram, ip)]
        ∧ ip_id_of datagram = w.ip_id := by
  have hchunk : (peek (buf.get w).payload (buf.get w).data 1480).length = 1480 :=
    peek_length _ _ _ (by omega)
  obtain ⟨b1, w1, rest, d, hf, hb1, ht, hall, hd, hid1, hs1, htx, hlen⟩ :=
    piece_send piece (peek (buf.get w).payload (buf.get w).data 1480) ip protocol w.ip_id
      (len_offset / IP_HDR_OFFSET_PER_BYTE) 1 1480 w hchunk (le_refl _) hpl hid hsrc hip hcap
  have htr : arp_outs w1.trace = arp_outs w.trace ++ [(d, ip)] := by
    rw [ht, show w.trace ++ Event.arp_out d ip :: rest
          = w.trace ++ ([Event.arp_out d ip] ++ rest) from rfl,
      arp_outs_append, arp_outs_append, arp_outs_ethernet rest hall, List.append_nil]
    rfl
  have hrem : ∀ b : buf_t, b.len > 1480 → b.len ≤ 1480 * (f + 2) →
      b.data + b.len ≤ b.payload.length →
      0 < (buf_remove_header b 1480).len ∧ (buf_remove_header b 1480).len ≤ 1480 * (f + 1)
        ∧ (buf_remove_header b 1480).data + (buf_remove_header b 1480).len
            ≤ (buf_remove_header b 1480).payload.length
        ∧ (buf_remove_header b 1480).payload.length = b.payload.length := by
    intro b h1 h2 h3
    unfold buf_remove_header
    rw [if_neg (by omega)]
    exact ⟨by simp only; omega, by simp only; omega, by simp only; omega, rfl⟩
  have hkeep : ∀ b : buf_t, b.len = 28 → b.data + 28 ≤ b.payload.length →
      0 < (buf_remove_header b 1480).len ∧ (buf_remove_header b 1480).len ≤ 1480 * (f + 1)
        ∧ (buf_remove_header b 1480).data + (buf_remove_header b 1480).len
            ≤ (buf_remove_header b 1480).payload.length
        ∧ (buf_remove_header b 1480).payload.length = b.payload.length := by
    intro b h1 h2
    unfold buf_remove_header
    rw [if_pos (by omega)]
    exact ⟨by omega, by omega, by omega, rfl⟩
  have hstate : 0 < (buf_remove_header (buf.get w1) 1480).len
      ∧ (buf_remove_header (buf.get w1) 1480).len ≤ 1480 * (f + 1)
      ∧ (buf_remove_header (buf.get w1) 1480).data + (buf_remove_header (buf.get w1) 1480).len
          ≤ (buf_remove_header (buf.get w1) 1480).payload.length
      ∧ 28 < (buf.set (buf_remove_header (buf.get w1) 1480) w1).2.txbuf.payload.length / 2 := by
    cases buf with
    | loc b0 =>
        obtain ⟨r1, r2, r3, _⟩ := hrem b0 hgt hfuel hwf
        refine ⟨r1, r2, r3, ?_⟩
        show 28 < w1.txbuf.payload.length / 2
        rw [hlen]
        exact hcap
    | global_txbuf =>
        simp only [BufArg.get, BufArg.set] at hgt hfuel hwf ⊢
        rcases htx with htx | ⟨h28, hwf28⟩
        · rw [htx]
          obtain ⟨r1, r2, r3, r4⟩ := hrem w.txbuf hgt hfuel hwf
          exact ⟨r1, r2, r3, by rw [r4]; exact hcap⟩
        · obtain ⟨r1, r2, r3, r4⟩ := hkeep w1.txbuf h28 hwf28
          exact ⟨r1, r2, r3, by rw [r4, hlen]; exact hcap⟩
  obtain ⟨s1, s2, s3, s4⟩ := hstate
  refine ⟨(buf.set (buf_remove_header (buf.get w1) 1480) w1).1, b1,
    (buf.set (buf_remove_header (buf.get w1) 1480) w1).2, d,
    ip_out_loop_succ ip protocol f buf piece b1 len_offset w w1 hgt hf, ?_⟩
  obtain ⟨t1, t2, t3, _⟩ := BufArg.set_trace buf (buf_remove_header (buf.get w1) 1480) w1
  rw [BufArg.get_set, t1, t2, t3, hid1, hs1]
  exact ⟨s1, s2, s3, s4, hb1, rfl, rfl, htr, hd⟩

/-- The loop of `ip_out`, whatever the buffer: it ends, every datagram it
hands to ARP carries the identification of the call, and what is left in the
buffer is between 1 and 1480 bytes. -/
theorem ip_out_loop_id (ip : List Nat) (protocol : Nat) (hip : ip.length = 4) :
    ∀ (fuel : Nat) (buf : BufArg) (piece : buf_t) (len_offset : Nat) (w : World),
      w.net_if_ip.length = 4 → w.ip_id < 65536 → 0 < (buf.get w).len →
      (buf.get w).len ≤ 1480 * (fuel + 1) →
      (buf.get w).data + (buf.get w).len ≤ (buf.get w).payload.length →
      28 < w.txbuf.payload.length / 2 → piece.payload.length = BUF_MAX_LEN →
      ∃ buf' piece' off' w' ds,
        ip_out_loop ip protocol fuel buf piece len_offset w = some (buf', piece', off', w')
          ∧ 0 < (buf'.get w').len ∧ (buf'.get w').len ≤ 1480
          ∧ (buf'.get w').data + (buf'.get w').len ≤ (buf'.get w').payload.length
          ∧ 28 < w'.txbuf.payload.length / 2 ∧ piece'.payload.length = BUF_MAX_LEN
          ∧ w'.ip_id = w.ip_id ∧ w'.net_if_ip = w.net_if_ip
          ∧ arp_outs w'.trace = arp_outs w.trace ++ ds
          ∧ ∀ d ∈ ds, d.2 = ip ∧ ip_id_of d.1 = w.ip_id := by
  intro fuel
  induction fuel with
  | zero =>
      intro buf piece off w _ _ hpos hfuel hwf hcap hpl
      exact ⟨buf, piece, off, w, [],
        ip_out_loop_exit ip protocol 0 buf piece off w (by omega), hpos, by omega, hwf, hcap,
        hpl, rfl, rfl, by simp, by simp⟩
  | succ f ih =>
      intro buf piece off w hsrc hid hpos hfuel hwf hcap hpl
      by_cases hgt : (buf.get w).len > 1480
      · obtain ⟨buf2, piece1, w2, d, hstep, s1, s2, s3, s4, s5, s6, s7, s8, s9⟩ :=
          ip_out_round ip protocol f buf piece off w hip hsrc hid hgt hfuel hwf hcap hpl
        obtain ⟨buf', piece', off', w', ds, r0, r1, r2, r3, r4, r5, r6, r7, r8, r9⟩ :=
          ih buf2 piece1 ((off + 1480) % 2 ^ 16) w2 (by rw [s7]; exact hsrc)
            (by rw [s6]; exact hid) s1 s2 s3 s4 s5
        refine ⟨buf', piece', off', w', (d, ip) :: ds, by rw [hstep, r0], r1, r2, r3, r4, r5,
          by rw [r6, s6], by rw [r7, s7], by rw [r8, s8, List.append_assoc]; rfl, ?_⟩
        intro x hx
        rcases List.mem_cons.mp hx with hx | hx
        · subst hx
          exact ⟨rfl, s9⟩
        · rw [← s6]
          exact r9 x hx
      · exact ⟨buf, piece, off, w, [],
          ip_out_loop_exit ip protocol (f + 1) buf piece off w hgt, hpos, by omega, hwf, hcap,
          hpl, rfl, rfl, by simp, by simp⟩

/-- C14. One call of `ip_out`, whatever the length of the datagram and
wherever the buffer lives: it returns, it hands ARP at least one datagram,
every datagram it hands to ARP carries in its identification field the value
the counter `ip_id` had when the call began, and the counter is then that
value plus one modulo `2 ^ 16`, which differs from it: the next call uses
another identification. -/
theorem ip_out_identification (buf : BufArg) (ip : List Nat) (protocol : Nat) (w : World)
    (pre g body post : List Nat)
    (hp : (buf.get w).payload = pre ++ g ++ body ++ post) (hg : g.length = 20)
    (hd : (buf.get w).data = pre.length + 20) (hl : (buf.get w).len = body.length)
    (hsrc : w.net_if_ip.length = 4) (hip : ip.length = 4) (hid : w.ip_id < 65536)
    (hcap : 28 < w.txbuf.payload.length / 2) :
    ∃ r ds, ip_out buf ip protocol w = some r
      ∧ arp_outs r.2.trace = arp_outs w.trace ++ ds ∧ ds ≠ []
      ∧ (∀ d ∈ ds, d.2 = ip ∧ ip_id_of d.1 = w.ip_id)
      ∧ r.2.ip_id = (w.ip_id + 1) % 2 ^ 16 ∧ r.2.ip_id ≠ w.ip_id := by
  by_cases hle : body.length ≤ 1480
  · obtain ⟨r, rest, h1, h2, h3, h4, _, _⟩ := ip_out_single buf ip protocol w pre g body post hp
      hg hd hl hsrc hip hle
    refine ⟨r, [(ip_header (body.length + 20) w.ip_id 0 protocol w.net_if_ip ip ++ body, ip)],
      h1, ?_, by simp, ?_, h4, by rw [h4]; omega⟩
    · rw [h2, show w.trace ++ Event.arp_out (ip_header (body.length + 20) w.ip_id 0 protocol
            w.net_if_ip ip ++ body) ip :: rest
          = w.trace ++ ([Event.arp_out (ip_header (body.length + 20) w.ip_id 0 protocol
            w.net_if_ip ip ++ body) ip] ++ rest) from rfl,
        arp_outs_append, arp_outs_append, arp_outs_ethernet rest h3, List.append_nil]
      rfl
    · intro d hd'
      rw [List.mem_singleton] at hd'
      subst hd'
      exact ⟨rfl, ip_header_id _ _ _ _ _ _ _ hid⟩
  · have hu : buf_t.uninit.payload.length = BUF_MAX_LEN := List.length_replicate _ _
    have hwf : (buf.get w).data + (buf.get w).len ≤ (buf.get w).payload.length := by
      rw [hp, hd, hl]
      simp only [List.length_append]
      omega
    unfold ip_out
    generalize buf_t.uninit = u at hu
    rw [if_neg (by omega)]
    obtain ⟨buf', piece', off', w', ds, r0, r1, r2, r3, r4, r5, r6, r7, r8, r9⟩ :=
      ip_out_loop_id ip protocol hip (buf.get w).len buf u 0 w hsrc hid (by omega)
        (by omega) hwf hcap hu
    rw [r0]
    simp only
    rw [if_pos (by omega)]
    have hchunk : (peek (buf'.get w').payload (buf'.get w').data (buf'.get w').len).length
        = (buf'.get w').len := peek_length _ _ _ r3
    obtain ⟨b1, w1, rest, d, hf, _, ht, hall, hdid, hid1, _, _, _⟩ :=
      piece_send piece' (peek (buf'.get w').payload (buf'.get w').data (buf'.get w').len) ip
        protocol w'.ip_id (off' / IP_HDR_OFFSET_PER_BYTE) 0 (buf'.get w').len w' hchunk r2 r5
        (by rw [r6]; exact hid) (by rw [r7]; exact hsrc) hip r4
    rw [hf]
    refine ⟨_, ds ++ [(d, ip)], rfl, ?_, by simp, ?_, ?_, ?_⟩
    · simp only
      rw [ht, show w'.trace ++ Event.arp_out d ip :: rest
            = w'.trace ++ ([Event.arp_out d ip] ++ rest) from rfl,
        arp_outs_append, arp_outs_append, arp_outs_ethernet rest hall, List.append_nil, r8,
        List.append_assoc]
      rfl
    · intro x hx
      rcases List.mem_append.mp hx with hx | hx
      · exact r9 x hx
      · rw [List.mem_singleton] at hx
        subst hx
        exact ⟨rfl, by rw [hdid, r6]⟩
    · simp only
      rw [hid1, r6]
    · simp only
      rw [hid1, r6]
      omega

theorem ip_out_identification_witness :
    ∃ r ds, ip_out .global_txbuf [10, 0, 0, 2] NET_PROTOCOL_UDP host_a_3000 = some r
      ∧ arp_outs r.2.trace = arp_outs host_a_3000.trace ++ ds ∧ ds ≠ []
      ∧ (∀ d ∈ ds, d.2 = [10, 0, 0, 2] ∧ ip_id_of d.1 = host_a_3000.ip_id)
      ∧ r.2.ip_id = (host_a_3000.ip_id + 1) % 2 ^ 16 ∧ r.2.ip_id ≠ host_a_3000.ip_id :=
  ip_out_identification .global_txbuf [10, 0, 0, 2] NET_PROTOCOL_UDP host_a_3000
    (List.replicate 180 5) (List.replicate 20 5) (List.replicate 3000 5) (List.replicate 3200 5)
    (by
      show List.replicate 6400 5 = _
      rw [← List.replicate_add, ← List.replicate_add, ← List.replicate_add])
    (by rw [List.length_replicate]) (by rw [List.length_replicate]; rfl)
    (by rw [List.length_replicate]; rfl) rfl rfl (by decide)
    (by rw [show host_a_3000.txbuf.payload = List.replicate 6400 5 from rfl,
      List.length_replicate]; decide)

end NetLab
